import Mathlib

/-!
# QuickFS: formatter (`mkquickfs.c`) and filesystem core (`quickfs.c`)

A shallow embedding of the on-disk structures, the bitmap helpers, the formatter and
the inode / block-mapper / directory operations, followed by the properties proved
about them.

Conventions of the embedding
* A buffer (`bh->b_data`, a `unsigned char[]`) is a function from byte offset to byte value.
* `int` is 32 bits wide; `to_int` wraps a mathematical integer into its range.
* `/` and `%` on C `int`s truncate toward zero: `Int.tdiv` and `Int.tmod`.
-/

namespace QuickFS

/-! ## Layout constants (`quickfs.h`) -/

def QUICKFS_BLOCK_SIZE : Nat := 512
def NUM_DATA_BITMAP_BLOCKS : Nat := 4
def NUM_INODE_BITMAP_BLOCKS : Nat := 1
def FIRST_DATA_BLOCK_NUM : Nat := 4102
def MAGIC_NUMBER : Nat := 0xFEEDD0BB
def ROOT_INODE_NUM : Nat := 0
def MAX_NAME_LENGTH : Nat := 256
def MAX_DATA_BLOCKS_PER_INODE : Nat := 104

/-- The contents of one buffer: byte offset to `unsigned char` value. -/
abbrev Block := Nat → Nat

/-- Wrap a mathematical integer into the range of a 32-bit `int` (two's complement):
the residue modulo `2^32`, less `2^32` when it is `2^31` or more. -/
def to_int (x : Int) : Int :=
  if (x % 4294967296).toNat < 2147483648 then x % 4294967296 else x % 4294967296 - 4294967296

/-- Wrap a mathematical integer into the range of a 16-bit `short` (two's complement). -/
def to_short (x : Int) : Int :=
  if (x % 65536).toNat < 32768 then x % 65536 else x % 65536 - 65536

/-! ## Bitmap helpers (`quickfs.c`, lines 18-70) -/

/-- The cascade of eight mask tests applied to one byte by `first_free_bit`
(lines 31-38): the position of the first mask `m` among `0x80, 0x40, ..., 0x01`
with `byte < (byte | m)`. -/
def first_free_in_byte (b : Nat) : Option Nat :=
  if b < (b ||| 0x80) then some 0
  else if b < (b ||| 0x40) then some 1
  else if b < (b ||| 0x20) then some 2
  else if b < (b ||| 0x10) then some 3
  else if b < (b ||| 0x08) then some 4
  else if b < (b ||| 0x04) then some 5
  else if b < (b ||| 0x02) then some 6
  else if b < (b ||| 0x01) then some 7
  else none

/-- The inner loop of `first_free_bit` over the bytes `i, i+1, ...` of one block;
the first argument is the number of iterations left (`QUICKFS_BLOCK_SIZE - i`). -/
def scan_block (bitmap : Block) (block : Nat) : Nat → Nat → Option Int
  | 0, _ => none
  | todo + 1, i =>
    if bitmap i < 0xFF then
      match first_free_in_byte (bitmap i) with
      | some k => some (to_int ((block * QUICKFS_BLOCK_SIZE * 8 + i * 8 + k : Nat) : Int))
      | none => scan_block bitmap block todo (i + 1)
    else scan_block bitmap block todo (i + 1)

/-- The outer loop of `first_free_bit` over the blocks `block, block+1, ...`;
the first argument is the number of iterations left (`size - block`). -/
def scan_blocks (buffers : Nat → Block) : Nat → Nat → Int
  | 0, _ => -1
  | todo + 1, block =>
    match scan_block (buffers block) block QUICKFS_BLOCK_SIZE 0 with
    | some r => r
    | none => scan_blocks buffers todo (block + 1)

/-- `first_free_bit(buffers, size)`: scan `size` bitmap blocks for a zero bit. -/
def first_free_bit (buffers : Nat → Block) (size : Nat) : Int :=
  scan_blocks buffers size 0

/-- `clear_bitmap_bit(bh, index)`: `bitmap[index / 8] &= ~(1 << (8 - index % 8 - 1))`.
The complement is taken on a 32-bit `int` and the result is stored back into an
`unsigned char`. A negative byte offset (`index ≤ -8`) lies before the buffer and is
not modelled (the buffer is returned unchanged). -/
def clear_bitmap_bit (bh : Block) (index : Int) : Block :=
  let affected_byte := Int.tdiv index 8
  let affected_bit := 8 - Int.tmod index 8 - 1
  if affected_byte < 0 then bh
  else
    Function.update bh affected_byte.toNat
      ((bh affected_byte.toNat &&& (4294967295 - (1 <<< affected_bit.toNat) % 4294967296)) % 256)

/-- `mark_bit(bh, index)`: `bitmap[index / 8] |= (1 << (8 - index % 8 - 1))`, stored
back into an `unsigned char`. A negative byte offset is not modelled, as above. -/
def mark_bit (bh : Block) (index : Int) : Block :=
  let affected_byte := Int.tdiv index 8
  let affected_bit := 8 - Int.tmod index 8 - 1
  if affected_byte < 0 then bh
  else
    Function.update bh affected_byte.toNat
      ((bh affected_byte.toNat ||| (1 <<< affected_bit.toNat) % 4294967296) % 256)

/-- `test_for_bit(bh, index)`: `!!(byte & (0x80 >> (index % 8)))` for the byte at
`index / 8`. Every caller passes `0 ≤ index`, so the index is a natural number. -/
def test_for_bit (bh : Block) (index : Nat) : Nat :=
  if (bh (index / 8) % 256) &&& (0x80 >>> (index % 8)) = 0 then 0 else 1

/-- The bit the specification calls "bit `i`" of a run of bitmap blocks: block
`i / 4096`, byte `(i % 4096) / 8`, mask `0x80 >> (i % 8)`; the value is the masked
byte, zero exactly when the bit is clear. -/
def bitmap_bit (buffers : Nat → Block) (i : Nat) : Nat :=
  buffers (i / 4096) ((i % 4096) / 8) &&& (0x80 >>> (i % 8))

/-- The four data-bitmap blocks of an image with blocks 0..9 in use. -/
def example_bitmap : Nat → Block :=
  fun b i => if b = 0 ∧ i = 0 then 255 else if b = 0 ∧ i = 1 then 192 else 0

/-! ## On-disk structures (`quickfs.h`) -/

/-- Modulus of `unsigned long`, taken as 64 bits wide (the superblock fields of the
specification are 8 bytes each). No result below depends on the width. -/
def ULONG_MOD : Nat := 18446744073709551616

/-- The decrement `x--` / `x -= 1` of an `unsigned long`: wraps at zero. -/
def dec_ulong (x : Nat) : Nat := if x = 0 then ULONG_MOD - 1 else x - 1

/-- `struct quickfs_sb`. -/
structure quickfs_sb where
  magic_number : Nat
  data_blocks_free : Nat
  inodes_free : Nat

/-- `struct quickfs_inode`. `name` is the NUL-terminated string held in `name[256]`,
as the list of its bytes; `data_blocks` maps an index to the `unsigned short` stored
there (indices from `MAX_DATA_BLOCKS_PER_INODE` on lie past the array); the three
`struct timespec` fields are abstract time stamps. -/
structure quickfs_inode where
  name : List Nat
  size : Nat
  data_block_count : Nat
  data_blocks : Nat → Nat
  hard_links : Nat
  link : Int
  uid : Nat
  gid : Nat
  umode : Nat
  atime : Nat
  mtime : Nat
  ctime : Nat

/-- The block device by region: block 0 (superblock), block 1 (inode bitmap),
blocks 2..5 (data bitmap, by offset 0..3), blocks 6..4101 (one inode record each, by
inode number). The data region is not modelled. -/
structure Image where
  sb : quickfs_sb
  inode_bitmap : Block
  data_bitmap : Nat → Block
  inodes : Nat → quickfs_inode

/-! ## The formatter (`mkquickfs.c`) -/

/-- What the formatter takes from its environment: the ids and clock it queries and
the uninitialised contents of its local variables. -/
structure FormatEnv where
  uid : Nat
  gid : Nat
  now : Nat
  stack_bitmap : Block
  stack_inode : quickfs_inode

def S_IFDIR : Nat := 0o040000
def S_IFREG : Nat := 0o100000
def S_IRUSR : Nat := 0o400
def S_IWUSR : Nat := 0o200
def S_IRGRP : Nat := 0o040
def S_IWGRP : Nat := 0o020

/-- `bytes_to_data_blocks(bytes)`: `(((int) bytes) - (4102 * QUICKFS_BLOCK_SIZE)) /
QUICKFS_BLOCK_SIZE`, computed on 32-bit `int`s. -/
def bytes_to_data_blocks (bytes : Nat) : Int :=
  Int.tdiv (to_int (to_int (bytes : Int) - ((4102 * QUICKFS_BLOCK_SIZE : Nat) : Int)))
    ((QUICKFS_BLOCK_SIZE : Nat) : Int)

/-- The superblock record built by `write_superblock(file, size)`. -/
def write_superblock (size : Nat) : quickfs_sb :=
  let data_blocks_free := (bytes_to_data_blocks size % (ULONG_MOD : Int)).toNat
  let data_blocks_free :=
    if data_blocks_free > NUM_DATA_BITMAP_BLOCKS * QUICKFS_BLOCK_SIZE * 8 then
      NUM_DATA_BITMAP_BLOCKS * QUICKFS_BLOCK_SIZE * 8
    else data_blocks_free
  { magic_number := MAGIC_NUMBER
    data_blocks_free := data_blocks_free
    inodes_free := QUICKFS_BLOCK_SIZE * 8 - 1 }

/-- The loop `for (i = from; i < to; ++i) bit_map[i] = v;`, with the number of
iterations left as first argument. -/
def fill (v : Nat) : Nat → Nat → Block → Block
  | 0, _, bit_map => bit_map
  | todo + 1, i, bit_map => fill v todo (i + 1) (Function.update bit_map i v)

/-- The array written by `write_inode_bitmap`: byte 0 is `0x80`, the loop zeroes
bytes 1..511. -/
def write_inode_bitmap (stack : Block) : Block :=
  fill 0x00 (QUICKFS_BLOCK_SIZE - 1) 1 (Function.update stack 0 0x80)

/-- The loop `for (bit_mask = 0x01; bit_mask < (0x01 << shifts); bit_mask <<= 1)
first_set_byte |= bit_mask;` on an `unsigned short bit_mask` and an `unsigned char
first_set_byte`. The first argument bounds the number of iterations; `none` when the
bound is reached. -/
def first_set_byte_loop (shifts : Nat) : Nat → Nat → Nat → Option Nat
  | 0, _, _ => none
  | fuel + 1, bit_mask, first_set_byte =>
    if bit_mask < (0x01 <<< shifts) % 4294967296 then
      first_set_byte_loop shifts fuel ((bit_mask <<< 1) % 65536)
        ((first_set_byte ||| bit_mask) % 256)
    else some first_set_byte

/-- The 2048-byte array written by `write_data_bitmap(file, size)`. `none` when the
mask loop does not finish or when the first byte to set lies before the array
(`main` calls the function only with at least one data block). -/
def write_data_bitmap (stack : Block) (size : Nat) : Option Block :=
  let bit_map := fill 0x00 (NUM_DATA_BITMAP_BLOCKS * QUICKFS_BLOCK_SIZE) 0 stack
  if bytes_to_data_blocks size ≥ ((NUM_DATA_BITMAP_BLOCKS * QUICKFS_BLOCK_SIZE * 8 : Nat) : Int) then
    some bit_map
  else
    let first_set_bit := bytes_to_data_blocks size
    let first_byte_with_set_bit := Int.tdiv first_set_bit 8
    let shifts := 8 - Int.tmod first_set_bit 8
    match first_set_byte_loop shifts.toNat 17 0x01 0x00 with
    | none => none
    | some first_set_byte =>
      if first_byte_with_set_bit < 0 then none
      else
        let bit_map := Function.update bit_map first_byte_with_set_bit.toNat first_set_byte
        some (fill 0xFF
          (NUM_DATA_BITMAP_BLOCKS * QUICKFS_BLOCK_SIZE - (first_byte_with_set_bit.toNat + 1))
          (first_byte_with_set_bit.toNat + 1) bit_map)

/-- The record written by `write_root_inode`. -/
def write_root_inode (env : FormatEnv) : quickfs_inode :=
  { env.stack_inode with
    name := [46]
    size := 0
    data_block_count := 0
    hard_links := 1
    link := -1
    uid := env.uid
    gid := env.gid
    umode := S_IFDIR ||| S_IRUSR ||| S_IWUSR ||| S_IRGRP ||| S_IWGRP
    ctime := env.now
    atime := env.now
    mtime := env.now }

/-- `fwrite` of the first `n` bytes of `src` over a block. -/
def blit (src : Block) (n : Nat) (dst : Block) : Block :=
  fun i => if i < n then src i else dst i

/-- `main` of the formatter on an image file of `size` bytes holding `img`, every
`fseek` / `fwrite` succeeding: `none` when the image is refused. -/
def mkquickfs (env : FormatEnv) (img : Image) (size : Nat) : Option Image :=
  if bytes_to_data_blocks size < 1 then none
  else
    match write_data_bitmap env.stack_bitmap size with
    | none => none
    | some bit_map =>
      some
        { sb := write_superblock size
          inode_bitmap := blit (write_inode_bitmap env.stack_bitmap) QUICKFS_BLOCK_SIZE img.inode_bitmap
          data_bitmap := fun k =>
            if k < NUM_DATA_BITMAP_BLOCKS then
              blit (fun i => bit_map (k * QUICKFS_BLOCK_SIZE + i)) QUICKFS_BLOCK_SIZE (img.data_bitmap k)
            else img.data_bitmap k
          inodes := Function.update img.inodes ROOT_INODE_NUM (write_root_inode env) }

/-- An all-zero block. -/
def zero_block : Block := fun _ => 0

/-- An inode record with every field zero. -/
def zero_inode : quickfs_inode :=
  { name := [], size := 0, data_block_count := 0, data_blocks := fun _ => 0, hard_links := 0,
    link := 0, uid := 0, gid := 0, umode := 0, atime := 0, mtime := 0, ctime := 0 }

/-- A blank image file: every byte zero. -/
def blank_image : Image :=
  { sb := { magic_number := 0, data_blocks_free := 0, inodes_free := 0 }
    inode_bitmap := zero_block
    data_bitmap := fun _ => zero_block
    inodes := fun _ => zero_inode }

/-- A formatter environment: user 1000, group 1000, time 0, zeroed locals. -/
def example_env : FormatEnv :=
  { uid := 1000, gid := 1000, now := 0, stack_bitmap := zero_block, stack_inode := zero_inode }

/-! ## In-memory objects of the VFS that the core is handed -/

/-- The fields of the in-memory `struct inode` that the core reads or writes. -/
structure inode where
  i_ino : Nat
  i_mode : Nat
  i_uid : Nat
  i_gid : Nat
  i_size : Nat
  i_blocks : Nat
  i_nlink : Nat
  i_atime : Nat
  i_mtime : Nat
  i_ctime : Nat

/-- The fields of `struct dentry` that the core reads: `d_name` (the string
`d_name.name`, of length `d_name.len`) and the inline buffer `d_iname`, each as the
list of bytes before the terminating NUL. -/
structure dentry where
  d_name : List Nat
  d_iname : List Nat

def EIO : Int := 5
def ENOMEM : Int := 12
def EACCES : Int := 13
def ENOSPC : Int := 28
def ENAMETOOLONG : Int := 36

/-- Modulus of `unsigned int` (the type of `i_nlink`). -/
def UINT_MOD : Nat := 4294967296

/-- The decrement `x--` of an `unsigned int`: wraps at zero. -/
def dec_uint (x : Nat) : Nat := if x = 0 then UINT_MOD - 1 else x - 1

/-! ## Inode persistence (`quickfs.c`, lines 72-146 and 597-629) -/

/-- `quickfs_write_inode(inode, unused)`: the return value and the image afterwards.
Block reads succeed. -/
def quickfs_write_inode (img : Image) (inode : inode) : Int × Image :=
  let inode_num := inode.i_ino
  if inode_num > 4095 then (- EIO, img)
  else
    let disk_inode := img.inodes inode_num
    let disk_inode :=
      { disk_inode with
        umode := inode.i_mode
        uid := inode.i_uid
        gid := inode.i_gid
        data_block_count := inode.i_blocks % 65536
        size := inode.i_size % 65536
        hard_links := inode.i_nlink
        atime := inode.i_atime
        mtime := inode.i_mtime
        ctime := inode.i_ctime }
    (0, { img with inodes := Function.update img.inodes inode_num disk_inode })

/-- The loop of `quickfs_delete_inode` over the snapshot `data_blocks[i], ...`, with
the number of iterations left as first argument. A snapshot entry whose bitmap block
`data_block / 4096` is not one of the four data-bitmap buffers is skipped (the access
lies outside the local array and is not modelled). -/
def delete_loop (data_blocks : Nat → Nat) : Nat → Nat → (Nat → Block) → (Nat → Block)
  | 0, _, data_bitmap => data_bitmap
  | todo + 1, i, data_bitmap =>
    let data_block := data_blocks i
    let block := data_block / (8 * QUICKFS_BLOCK_SIZE)
    let index := data_block % (8 * QUICKFS_BLOCK_SIZE)
    delete_loop data_blocks todo (i + 1)
      (if block < NUM_DATA_BITMAP_BLOCKS then
        Function.update data_bitmap block (clear_bitmap_bit (data_bitmap block) index)
      else data_bitmap)

/-- `quickfs_delete_inode(inode)`: the image afterwards. -/
def quickfs_delete_inode (img : Image) (inode : inode) : Image :=
  let disk_inode := img.inodes inode.i_ino
  let data_block_count := disk_inode.data_block_count
  let data_bitmap := delete_loop disk_inode.data_blocks data_block_count 0 img.data_bitmap
  let inode_bitmap := clear_bitmap_bit img.inode_bitmap (to_int inode.i_ino)
  { img with
    data_bitmap := data_bitmap
    inode_bitmap := inode_bitmap
    sb :=
      { img.sb with
        data_blocks_free := (img.sb.data_blocks_free + data_block_count) % ULONG_MOD
        inodes_free := (img.sb.inodes_free + 1) % ULONG_MOD } }

/-- `quickfs_read_inode(inode)`: the in-memory inode filled from record `ino`. -/
def quickfs_read_inode (img : Image) (ino : Nat) : inode :=
  let disk_inode := img.inodes ino
  { i_ino := ino
    i_mode := if ino = ROOT_INODE_NUM then disk_inode.umode ||| S_IFDIR
              else disk_inode.umode ||| S_IFREG
    i_uid := disk_inode.uid
    i_gid := disk_inode.gid
    i_atime := disk_inode.atime
    i_mtime := disk_inode.mtime
    i_ctime := disk_inode.ctime
    i_blocks := disk_inode.data_block_count
    i_size := disk_inode.size
    i_nlink := disk_inode.hard_links % UINT_MOD }

/-! ## Block mapper (`quickfs.c`, lines 205-277) -/

/-- What a call of `quickfs_get_block` leaves behind: the return value, the block
number handed to `map_bh` (if any), the image, the in-memory inode, and the numbers
of the blocks passed to `mark_buffer_dirty`. -/
structure get_block_result where
  ret : Int
  mapped : Option Int
  img : Image
  inode : QuickFS.inode
  dirty : List Nat

/-- `quickfs_get_block(inode, block, bh_result, create)`. -/
def quickfs_get_block (img : Image) (inode : inode) (block : Nat) (create : Int) :
    get_block_result :=
  let disk_inode := img.inodes inode.i_ino
  if create = 0 then
    if block ≥ disk_inode.data_block_count then
      { ret := 0, mapped := none, img := img, inode := inode, dirty := [] }
    else
      let data_block := to_short (disk_inode.data_blocks block)
      { ret := 0, mapped := some ((FIRST_DATA_BLOCK_NUM : Int) + data_block), img := img,
        inode := inode, dirty := [] }
  else if create = 1 then
    if img.sb.data_blocks_free = 0 then
      { ret := -ENOSPC, mapped := none, img := img, inode := inode, dirty := [] }
    else if inode.i_size ≠ 0 ∧ block < disk_inode.data_block_count then
      let data_block := to_short (disk_inode.data_blocks block)
      { ret := 0, mapped := some ((FIRST_DATA_BLOCK_NUM : Int) + data_block), img := img,
        inode := inode, dirty := [] }
    else
      let first_free := to_short (first_free_bit img.data_bitmap NUM_DATA_BITMAP_BLOCKS)
      let offset := Int.tdiv first_free ((8 * QUICKFS_BLOCK_SIZE : Nat) : Int)
      let index := Int.tmod first_free ((8 * QUICKFS_BLOCK_SIZE : Nat) : Int)
      let data_bitmap :=
        Function.update img.data_bitmap offset.toNat
          (mark_bit (img.data_bitmap offset.toNat) index)
      let disk_inode :=
        { disk_inode with
          data_blocks :=
            Function.update disk_inode.data_blocks inode.i_blocks (first_free % 65536).toNat }
      { ret := 0
        mapped := some ((FIRST_DATA_BLOCK_NUM : Int) + first_free)
        img :=
          { img with
            data_bitmap := data_bitmap
            inodes := Function.update img.inodes inode.i_ino disk_inode
            sb := { img.sb with
                    data_blocks_free := dec_ulong img.sb.data_blocks_free } }
        inode := { inode with i_blocks := inode.i_blocks + 1 }
        dirty := [0, 6 + inode.i_ino] }
  else
    { ret := - EIO, mapped := none, img := img, inode := inode, dirty := [] }

/-! ## Create, lookup, link, unlink (`quickfs.c`, lines 308-589) -/

/-- `quickfs_create(inode, dentry, mode, nameidata)` run by a task with the given
`fsuid` / `fsgid` at time `now`: the return value, the image, and the in-memory inode
bound to the dentry (`new_inode` succeeds and hands out an inode with link count 1,
size 0 and no blocks). -/
def quickfs_create (img : Image) (dentry : dentry) (mode fsuid fsgid now : Nat) :
    Int × Image × Option inode :=
  let free_inode_num := first_free_bit (fun _ => img.inode_bitmap) NUM_INODE_BITMAP_BLOCKS
  if free_inode_num < 0 then (-ENOSPC, img, none)
  else
    let created_inode : inode :=
      { i_ino := free_inode_num.toNat
        i_mode := mode ||| S_IFREG
        i_uid := fsuid
        i_gid := fsgid
        i_size := 0
        i_blocks := 0
        i_nlink := 1
        i_atime := now
        i_mtime := now
        i_ctime := now }
    let disk_inode := img.inodes free_inode_num.toNat
    let disk_inode :=
      { disk_inode with
        name := dentry.d_name
        size := 0
        data_block_count := 0
        hard_links := 1
        link := -1
        uid := created_inode.i_uid
        gid := created_inode.i_gid
        umode := created_inode.i_mode
        atime := created_inode.i_ctime
        mtime := created_inode.i_ctime
        ctime := created_inode.i_ctime }
    (0,
      { img with
        inodes := Function.update img.inodes free_inode_num.toNat disk_inode
        sb := { img.sb with inodes_free := dec_ulong img.sb.inodes_free }
        inode_bitmap := mark_bit img.inode_bitmap free_inode_num },
      some created_inode)

/-- How a call of `quickfs_lookup` ends: with an error pointer, with the dentry bound
to inode `ino` (`iget` succeeding), or with the dentry left unbound. -/
inductive lookup_result where
  | error (errno : Int)
  | bound (ino : Nat)
  | not_found
  deriving DecidableEq

/-- The loop of `quickfs_lookup` over `i, i+1, ...`, with the number of iterations
left as first argument: the inode number handed to `iget`, if a name matches. -/
def lookup_scan (img : Image) (d_iname : List Nat) : Nat → Nat → Option Nat
  | 0, _ => none
  | todo + 1, i =>
    if test_for_bit img.inode_bitmap i ≠ 0 then
      if d_iname = (img.inodes i).name then
        some (if (img.inodes i).link > 0 then (img.inodes i).link.toNat else i)
      else lookup_scan img d_iname todo (i + 1)
    else lookup_scan img d_iname todo (i + 1)

/-- `quickfs_lookup(dir, dentry, nameidata)`. -/
def quickfs_lookup (img : Image) (dentry : dentry) : lookup_result :=
  if dentry.d_name.length > MAX_NAME_LENGTH then lookup_result.error (-ENAMETOOLONG)
  else
    match lookup_scan img dentry.d_iname 4096 0 with
    | some ino => lookup_result.bound ino
    | none => lookup_result.not_found

/-- `quickfs_link(old_dentry, dir, new_dentry)` at time `now`, with
`referrenced_inode = old_dentry->d_inode`: the return value, the image and the
in-memory inode afterwards. -/
def quickfs_link (img : Image) (referrenced_inode : inode) (new_dentry : dentry) (now : Nat) :
    Int × Image × inode :=
  let free_disk_inode_num :=
    first_free_bit (fun _ => img.inode_bitmap) NUM_INODE_BITMAP_BLOCKS
  if free_disk_inode_num < 0 then (-ENOSPC, img, referrenced_inode)
  else
    let disk_inode := img.inodes free_disk_inode_num.toNat
    let disk_inode :=
      { disk_inode with
        name := new_dentry.d_name
        link := to_short referrenced_inode.i_ino }
    (0,
      { img with
        inodes := Function.update img.inodes free_disk_inode_num.toNat disk_inode
        inode_bitmap := mark_bit img.inode_bitmap free_disk_inode_num
        sb := { img.sb with inodes_free := dec_ulong img.sb.inodes_free } },
      { referrenced_inode with
        i_nlink := (referrenced_inode.i_nlink + 1) % UINT_MOD
        i_ctime := now
        i_atime := now })

/-- The search loops of `quickfs_unlink` (lines 520-533 and 551-564) over `i, i+1,
...`, with the number of iterations left as first argument: the first allocated
inode whose name is `name` and whose `link`, converted to `unsigned long`, equals
`i_ino`. -/
def unlink_scan (img : Image) (name : List Nat) (i_ino : Nat) : Nat → Nat → Option Nat
  | 0, _ => none
  | todo + 1, i =>
    if test_for_bit img.inode_bitmap i ≠ 0 then
      if name = (img.inodes i).name ∧
          ((img.inodes i).link % (ULONG_MOD : Int)).toNat = i_ino then
        some i
      else unlink_scan img name i_ino todo (i + 1)
    else unlink_scan img name i_ino todo (i + 1)

/-- The tail of `quickfs_unlink` from the label `modify_disk` on, for the inode
number `i` found by the search. -/
def unlink_modify_disk (img : Image) (inode : inode) (i : Nat) :
    Int × Image × QuickFS.inode :=
  (0,
    { img with
      sb := { img.sb with inodes_free := (img.sb.inodes_free + 1) % ULONG_MOD }
      inode_bitmap := clear_bitmap_bit img.inode_bitmap i },
    { inode with i_nlink := dec_uint inode.i_nlink })

/-- `quickfs_unlink(dir, dentry)` with `inode = dentry->d_inode` and
`name = dentry->d_name.name`. -/
def quickfs_unlink (img : Image) (inode : inode) (dentry : dentry) :
    Int × Image × QuickFS.inode :=
  let name := dentry.d_name
  let disk_inode := img.inodes inode.i_ino
  if inode.i_nlink = 1 then
    if name = disk_inode.name then
      (0, img, { inode with i_nlink := dec_uint inode.i_nlink })
    else
      match unlink_scan img name inode.i_ino 4096 0 with
      | some i => unlink_modify_disk img inode i
      | none => (-1, img, inode)
  else
    if name = disk_inode.name then
      (0,
        { img with
          inodes := Function.update img.inodes inode.i_ino { disk_inode with name := [] } },
        { inode with i_nlink := dec_uint inode.i_nlink })
    else
      match unlink_scan img name inode.i_ino 4096 0 with
      | some i => unlink_modify_disk img inode i
      | none => (-1, img, inode)

/-! ## The mounted filesystem as a state machine

The VFS keeps in-memory inodes in its inode cache, keyed by inode number, and calls
the operations of the core on them. A state is the image together with that cache;
a step is one call. -/

/-- The image and the inode cache of a mounted filesystem. -/
structure FS where
  disk : Image
  icache : Nat → Option inode

/-- The state after mounting `img`: `quickfs_fill_super` fetches the root inode. -/
def mounted (img : Image) : FS :=
  { disk := img
    icache := fun k => if k = ROOT_INODE_NUM then some (quickfs_read_inode img ROOT_INODE_NUM)
                       else none }

/-- One call into the core. Operations on an inode name it by its number in the
cache; `set_size` is the update of `i_size` made by the generic write path. -/
inductive Op where
  | create (dentry : dentry) (mode fsuid fsgid now : Nat)
  | link (ino : Nat) (new_dentry : dentry) (now : Nat)
  | unlink (ino : Nat) (dentry : dentry)
  | get_block (ino : Nat) (block : Nat) (create : Int)
  | write_inode (ino : Nat)
  | delete_inode (ino : Nat)
  | set_size (ino : Nat) (size : Nat)

/-- The state after one call. A call on an inode that is not in the cache cannot be
made and leaves the state as it is; `delete_inode` ends with `clear_inode`, which
drops the inode from the cache. -/
def step (s : FS) : Op → FS
  | Op.create dentry mode fsuid fsgid now =>
    match quickfs_create s.disk dentry mode fsuid fsgid now with
    | (_, img, some created_inode) =>
      { disk := img, icache := Function.update s.icache created_inode.i_ino (some created_inode) }
    | (_, img, none) => { s with disk := img }
  | Op.link ino new_dentry now =>
    match s.icache ino with
    | none => s
    | some referrenced_inode =>
      match quickfs_link s.disk referrenced_inode new_dentry now with
      | (_, img, i) => { disk := img, icache := Function.update s.icache ino (some i) }
  | Op.unlink ino dentry =>
    match s.icache ino with
    | none => s
    | some inode =>
      match quickfs_unlink s.disk inode dentry with
      | (_, img, i) => { disk := img, icache := Function.update s.icache ino (some i) }
  | Op.get_block ino block create =>
    match s.icache ino with
    | none => s
    | some inode =>
      let r := quickfs_get_block s.disk inode block create
      { disk := r.img, icache := Function.update s.icache ino (some r.inode) }
  | Op.write_inode ino =>
    match s.icache ino with
    | none => s
    | some inode => { s with disk := (quickfs_write_inode s.disk inode).2 }
  | Op.delete_inode ino =>
    match s.icache ino with
    | none => s
    | some inode =>
      { disk := quickfs_delete_inode s.disk inode, icache := Function.update s.icache ino none }
  | Op.set_size ino size =>
    match s.icache ino with
    | none => s
    | some inode =>
      { s with icache := Function.update s.icache ino (some { inode with i_size := size }) }

/-- The state after a sequence of calls. -/
def run (s : FS) (ops : List Op) : FS := ops.foldl step s

/-- Whether `quickfs_get_block` takes its allocating path (lines 244-271). -/
def get_block_allocates (img : Image) (inode : inode) (block : Nat) (create : Int) : Bool :=
  decide (create = 1) && decide (img.sb.data_blocks_free ≠ 0) &&
    !(decide (inode.i_size ≠ 0) && decide (block < (img.inodes inode.i_ino).data_block_count))

/-- A condition on a call, not part of the source: the calls that the invariants
below cover. `link` is not applied to the root inode (the VFS refuses hard links to
a directory before it reaches the core). An allocating `get_block` finds `i_blocks`
inside `data_blocks[MAX_DATA_BLOCKS_PER_INODE]`: the source makes no such check, and
allocating calls at `i_blocks ≥ 104` do occur (`ops_rewrite`); their store falls
behind the array, onto the fields that follow it in `struct quickfs_inode`, which the
embedding does not follow. Runs that contain such a call are outside the
invariants. -/
def call_ok (s : FS) : Op → Bool
  | Op.link ino _ _ => decide (ino ≠ ROOT_INODE_NUM)
  | Op.get_block ino block create =>
    match s.icache ino with
    | none => true
    | some inode =>
      !(get_block_allocates s.disk inode block create) ||
        decide (inode.i_blocks < MAX_DATA_BLOCKS_PER_INODE)
  | _ => true

/-- Every call of the sequence satisfies `call_ok` in the state it is made in. -/
def admissible : FS → List Op → Bool
  | _, [] => true
  | s, op :: ops => call_ok s op && admissible (step s op) ops

/-- Number of set bits among the 4096 bits of an inode bitmap block. -/
def inode_bits_set (inode_bitmap : Block) : Nat :=
  ((Finset.range 4096).filter (fun i => test_for_bit inode_bitmap i = 1)).card

/-- Bit `j` of the 16384-bit data bitmap held in four blocks: block `j / 4096`, bit
`j % 4096`. -/
def data_bit (data_bitmap : Nat → Block) (j : Nat) : Nat :=
  test_for_bit (data_bitmap (j / 4096)) (j % 4096)

/-- Number of cleared bits among the 16384 bits of a data bitmap. -/
def data_bits_clear (data_bitmap : Nat → Block) : Nat :=
  ((Finset.range 16384).filter (fun j => data_bit data_bitmap j = 0)).card

/-- The block count `i_blocks` of the cached inode number `k`, if there is one. -/
def cached_blocks (s : FS) (k : Nat) : Option Nat := (s.icache k).map (fun i => i.i_blocks)

/-- The consistency between an image and the block counts `cb` of the cached inodes
that the operations maintain, for an image of data capacity `C`:
bitmap bytes are bytes; the two free counters agree with the bitmaps; a cached inode
is allocated, is a real inode, and has all blocks that its record counts; the data
blocks recorded for cached inodes are set in the data bitmap and recorded once; an
allocated real inode is cached; free and held blocks do not exceed the capacity. -/
structure DiskInv (C : Nat) (img : Image) (cb : Nat → Option Nat) : Prop where
  cap : C ≤ 16384
  ib_wf : ∀ i, i < 512 → img.inode_bitmap i < 256
  db_wf : ∀ k, k < 4 → ∀ i, i < 512 → img.data_bitmap k i < 256
  p1 : img.sb.inodes_free + inode_bits_set img.inode_bitmap = 4096
  s1 : img.sb.data_blocks_free = data_bits_clear img.data_bitmap
  cached : ∀ k n, cb k = some n →
    k < 4096 ∧ test_for_bit img.inode_bitmap k = 1 ∧ (img.inodes k).link = -1 ∧
      (img.inodes k).data_block_count ≤ n
  own_set : ∀ k n p, cb k = some n → p < n →
    (img.inodes k).data_blocks p < 16384 ∧
      data_bit img.data_bitmap ((img.inodes k).data_blocks p) = 1
  own_inj : ∀ k n p k' n' p', cb k = some n → cb k' = some n' → p < n → p' < n' →
    (img.inodes k).data_blocks p = (img.inodes k').data_blocks p' → k = k' ∧ p = p'
  real_cached : ∀ k, k < 4096 → test_for_bit img.inode_bitmap k = 1 →
    (img.inodes k).link ≤ 0 → cb k ≠ none
  budget : img.sb.data_blocks_free + (∑ k ∈ Finset.range 4096, (cb k).getD 0) ≤ C

/-- The invariant of the mounted filesystem: `DiskInv` for the cached block counts,
and every cached inode is filed under its own number. -/
structure Inv (C : Nat) (s : FS) : Prop where
  disk : DiskInv C s.disk (cached_blocks s)
  ino : ∀ k i, s.icache k = some i → i.i_ino = k

/-- The name "hello". -/
def n_hello : dentry := { d_name := [104, 101, 108, 108, 111], d_iname := [104, 101, 108, 108, 111] }

/-- The name "hi". -/
def n_hi : dentry := { d_name := [104, 105], d_iname := [104, 105] }

/-- The sum of the on-disk `data_block_count` over the allocated real inodes (inode
bit set, `link ≤ 0`). -/
def real_block_sum (img : Image) : Nat :=
  ∑ k ∈ Finset.range 4096,
    if test_for_bit img.inode_bitmap k = 1 ∧ (img.inodes k).link ≤ 0 then
      (img.inodes k).data_block_count
    else 0

/-- The image left by formatting a blank 8,388,608-byte file (`blank_image` itself
should the formatter refuse it, which it does not). -/
def fresh_image : Image := (mkquickfs example_env blank_image 8388608).getD blank_image

/-- Create "hello" and map its first block for writing. -/
def ops_create_map : List Op := [Op.create n_hello 0o644 1000 1000 5, Op.get_block 1 0 1]

/-- Create "hello", map its first block, flush the inode, then delete it. -/
def ops_create_map_delete : List Op :=
  [Op.create n_hello 0o644 1000 1000 5, Op.get_block 1 0 1, Op.write_inode 1, Op.delete_inode 1]

/-- Create "hello", link it as "hi", unlink "hello". -/
def ops_create_link_unlink : List Op :=
  [Op.create n_hello 0o644 1000 1000 5, Op.link 1 n_hi 6, Op.unlink 1 n_hello]

/-! ## Directory enumeration (`quickfs.c`, lines 149-195) -/

/-- One call of the `filldir` callback: the name and length passed, the position
`file->f_pos` passed as offset, and the inode number reported. -/
structure dir_entry where
  name : List Nat
  namlen : Nat
  offset : Nat
  ino : Nat
  deriving DecidableEq

/-- The `do ... while (ino < 8*QUICKFS_BLOCK_SIZE)` loop of `quickfs_readdir` over
`ino, ino+1, ...`, with the number of iterations left as first argument: the return
value, the final `file->f_pos`, and the calls made to `filldir`, in order. -/
def readdir_scan (img : Image) (filldir : dir_entry → Int) :
    Nat → Nat → Nat → Int × Nat × List dir_entry
  | 0, _, f_pos => (1, f_pos, [])
  | todo + 1, ino, f_pos =>
    if test_for_bit img.inode_bitmap ino ≠ 0 then
      let disk_inode := img.inodes ino
      let name := disk_inode.name
      let size := min name.length MAX_NAME_LENGTH
      if name = [] then readdir_scan img filldir todo (ino + 1) f_pos
      else
        let corresponding_ino := if disk_inode.link > 0 then disk_inode.link.toNat else ino
        let e : dir_entry :=
          { name := name, namlen := size, offset := f_pos, ino := corresponding_ino }
        if filldir e < 0 then (0, f_pos + 1, [e])
        else
          let r := readdir_scan img filldir todo (ino + 1) (f_pos + 1)
          (r.1, r.2.1, e :: r.2.2)
    else readdir_scan img filldir todo (ino + 1) f_pos

/-- What a call of `quickfs_readdir` leaves behind: the return value, `file->f_pos`,
and the calls made to `filldir`, in order. -/
structure readdir_result where
  ret : Int
  f_pos : Nat
  offered : List dir_entry

/-- `quickfs_readdir(file, dirent, filldir)` with `file->f_pos = f_pos` on entry. -/
def quickfs_readdir (img : Image) (f_pos : Nat) (filldir : dir_entry → Int) : readdir_result :=
  if f_pos ≠ 0 then { ret := 1, f_pos := f_pos, offered := [] }
  else
    let e1 : dir_entry := { name := [46], namlen := 1, offset := f_pos, ino := 4096 }
    if filldir e1 ≠ 0 then { ret := 1, f_pos := f_pos + 1, offered := [e1] }
    else
      let e2 : dir_entry := { name := [46, 46], namlen := 2, offset := f_pos + 1, ino := 4097 }
      if filldir e2 ≠ 0 then { ret := 1, f_pos := f_pos + 2, offered := [e1, e2] }
      else
        let r := readdir_scan img filldir (8 * QUICKFS_BLOCK_SIZE - 1) 1 (f_pos + 2)
        { ret := r.1, f_pos := r.2.1, offered := e1 :: e2 :: r.2.2 }

/-! ## Mount (`quickfs.c`, lines 637-664) -/

/-- The fields of the VFS `struct super_block` that `quickfs_fill_super` sets. -/
structure super_block where
  s_fs_info : quickfs_sb
  s_magic : Nat
  s_blocksize : Nat
  s_maxbytes : Nat
  s_root : inode

/-- `quickfs_fill_super(sb, data, silent)`: the return value and the superblock it
fills in (`sb_bread`, `kmalloc` and `iget` succeeding). -/
def quickfs_fill_super (img : Image) : Int × super_block :=
  let quickfs_disk_sb := img.sb
  let quickfs_info : quickfs_sb :=
    { magic_number := quickfs_disk_sb.magic_number
      data_blocks_free := quickfs_disk_sb.data_blocks_free
      inodes_free := quickfs_disk_sb.inodes_free }
  (0,
    { s_fs_info := quickfs_info
      s_magic := MAGIC_NUMBER
      s_blocksize := QUICKFS_BLOCK_SIZE
      s_maxbytes := QUICKFS_BLOCK_SIZE * MAX_DATA_BLOCKS_PER_INODE
      s_root := quickfs_read_inode img ROOT_INODE_NUM })

/-! ## Example names, images and call sequences -/

/-- A dentry for a name of 40 letters "a": too long for the inline buffer `d_iname`,
so `d_name.name` points to separate storage and `d_iname` does not hold the name (here
it holds a stale "x"). -/
def n_long : dentry := { d_name := List.replicate 40 97, d_iname := [120] }

/-- Create "hello", link it under the 40-letter name, unlink "hello". -/
def ops_link_long_unlink : List Op :=
  [Op.create n_hello 0o644 1000 1000 5, Op.link 1 n_long 6, Op.unlink 1 n_hello]

/-- A name of 256 letters "a". -/
def name_256 : List Nat := List.replicate 256 97

/-- The fresh image after `create "hello"` (inode 1). -/
def image_hello : Image := (run (mounted fresh_image) [Op.create n_hello 0o644 1000 1000 5]).disk

/-- The in-memory inode that `create "hello"` leaves in the cache. -/
def inode_hello : inode :=
  { i_ino := 1, i_mode := 0o644 ||| S_IFREG, i_uid := 1000, i_gid := 1000, i_size := 0,
    i_blocks := 0, i_nlink := 1, i_atime := 5, i_mtime := 5, i_ctime := 5 }

/-- Create "hello" and link it as "hi". -/
def ops_create_link : List Op := [Op.create n_hello 0o644 1000 1000 5, Op.link 1 n_hi 6]

/-- Create "hello" and unlink it again (the inode stays allocated until
`delete_inode`). -/
def ops_create_unlink : List Op := [Op.create n_hello 0o644 1000 1000 5, Op.unlink 1 n_hello]

/-- The calls `create (names 0), ..., create (names (n-1))`. -/
def creates (names : Nat → dentry) (n : Nat) : List Op :=
  (List.range n).map (fun j => Op.create (names j) 0o644 1000 1000 5)

/-- An image whose superblock counts one free data block although every bit of the
data bitmap is set, with "hello" created on it. -/
def image_stale_counter : Image :=
  { image_hello with
    data_bitmap := fun _ _ => 255
    sb := { image_hello.sb with data_blocks_free := 1 } }

/-- Create "hello", then `n` times: map block 0 for writing (the file is empty, so the
call allocates), let the write set the size to 3, and truncate the file to size 0
again (as reopening it with `O_TRUNC` does; the core has no truncate method, so the
blocks stay with the inode). -/
def ops_rewrite : Nat → List Op
  | 0 => [Op.create n_hello 0o644 1000 1000 5]
  | n + 1 => ops_rewrite n ++ [Op.get_block 1 0 1, Op.set_size 1 3, Op.set_size 1 0]

/-! ## Link counts (P3) -/

/-- Number of allocated alias records that point at inode `k`: inode bit set and
`link = k`. -/
def alias_count (img : Image) (k : Nat) : Nat :=
  ((Finset.range 4096).filter
    (fun a => test_for_bit img.inode_bitmap a = 1 ∧ (img.inodes a).link = (k : Int))).card

/-- The link count that P3 prescribes for the real inode `k`: one, plus the number of
aliases that point at it, minus one if its own name is empty. -/
def p3_links (img : Image) (k : Nat) : Int :=
  1 + (alias_count img k : Int) - (if (img.inodes k).name = [] then 1 else 0)

/-- The calls on names that the VFS makes: it creates, links and unlinks non-empty
names, and it links and unlinks only a regular file that it holds in the inode cache
and whose link count is not yet zero. -/
def name_call_ok (s : FS) : Op → Bool
  | Op.create dentry _ _ _ _ => decide (dentry.d_name ≠ [])
  | Op.link ino _ _ =>
    match s.icache ino with
    | some inode => decide (ino ≠ ROOT_INODE_NUM) && decide (1 ≤ inode.i_nlink)
    | none => false
  | Op.unlink ino dentry =>
    match s.icache ino with
    | some inode =>
      decide (ino ≠ ROOT_INODE_NUM) && decide (1 ≤ inode.i_nlink) &&
        decide (dentry.d_name ≠ [])
    | none => false
  | _ => false

/-- Every call of the sequence is such a call on names, from the state it is made
in. -/
def name_calls : FS → List Op → Bool
  | _, [] => true
  | s, op :: ops => name_call_ok s op && name_calls (step s op) ops

/-- Consistency of the link counts of a mounted filesystem: an allocated alias points
at an inode in the cache; the on-disk `hard_links` of a cached regular file is 1; its
in-memory link count, while positive, is the count P3 prescribes; and once that count
is zero no alias points at it. -/
structure LinkInv (s : FS) : Prop where
  target : ∀ a, a < 4096 → test_for_bit s.disk.inode_bitmap a = 1 →
    (s.disk.inodes a).link > 0 →
    ∃ (k : Nat) (i : inode), (s.disk.inodes a).link = (k : Int) ∧ s.icache k = some i
  disk_links : ∀ k i, s.icache k = some i → k ≠ 0 → (s.disk.inodes k).hard_links = 1
  live : ∀ k i, s.icache k = some i → k ≠ 0 → 1 ≤ i.i_nlink →
    (i.i_nlink : Int) = p3_links s.disk k
  dead : ∀ k i, s.icache k = some i → k ≠ 0 → i.i_nlink = 0 → alias_count s.disk k = 0

/-- Create "hello", rewrite it from scratch 107 times, flush the inode, then remove
the file (unlink, then `delete_inode`). -/
def ops_rewrite_delete : List Op :=
  ops_rewrite 107 ++ [Op.write_inode 1, Op.unlink 1 n_hello, Op.delete_inode 1]

/-! # Properties -/

/-! ### Facts about single bytes -/

set_option maxRecDepth 100000 in
theorem first_free_in_byte_some :
    ∀ b, b < 255 → ∃ k, k < 8 ∧ first_free_in_byte b = some k ∧
      b &&& (0x80 >>> k) = 0 ∧ ∀ j, j < k → b &&& (0x80 >>> j) ≠ 0 := by
  decide

set_option maxRecDepth 100000 in
theorem byte_full_bits : ∀ k, k < 8 → 255 &&& (0x80 >>> k) ≠ 0 := by
  decide

/-! ### The scanning loops -/

theorem scan_block_none (bitmap : Block) (block : Nat) :
    ∀ todo i, (∀ j, i ≤ j → j < i + todo → bitmap j < 256) →
      scan_block bitmap block todo i = none →
      ∀ j, i ≤ j → j < i + todo → bitmap j = 255 := by
  intro todo
  induction todo with
  | zero => intro i _ _ j h1 h2; omega
  | succ t ih =>
    intro i hb h j h1 h2
    unfold scan_block at h
    by_cases hlt : bitmap i < 0xFF
    · obtain ⟨k, _, hk, _⟩ := first_free_in_byte_some (bitmap i) hlt
      simp [hlt, hk] at h
    · simp only [hlt, if_false] at h
      have hi : bitmap i = 255 := by
        have := hb i (le_refl _) (by omega)
        omega
      by_cases hj : j = i
      · subst hj; exact hi
      · exact ih (i + 1) (fun j' a b => hb j' (by omega) (by omega)) h j (by omega) (by omega)

theorem scan_block_some (bitmap : Block) (block : Nat) :
    ∀ todo i r, (∀ j, i ≤ j → j < i + todo → bitmap j < 256) →
      scan_block bitmap block todo i = some r →
      ∃ p k, i ≤ p ∧ p < i + todo ∧ k < 8 ∧
        r = to_int ((block * 4096 + p * 8 + k : Nat) : Int) ∧
        bitmap p &&& (0x80 >>> k) = 0 ∧
        (∀ j, j < k → bitmap p &&& (0x80 >>> j) ≠ 0) ∧
        (∀ j, i ≤ j → j < p → bitmap j = 255) := by
  intro todo
  induction todo with
  | zero => intro i r _ h; simp [scan_block] at h
  | succ t ih =>
    intro i r hb h
    unfold scan_block at h
    by_cases hlt : bitmap i < 0xFF
    · obtain ⟨k, hk8, hk, hz, hlow⟩ := first_free_in_byte_some (bitmap i) hlt
      simp only [hlt, if_true, hk] at h
      refine ⟨i, k, le_refl _, by omega, hk8, ?_, hz, hlow, fun j a b => by omega⟩
      have h' := (Option.some.inj h).symm
      rw [h']
      simp only [QUICKFS_BLOCK_SIZE]
      congr 2
      omega
    · simp only [hlt, if_false] at h
      have hi : bitmap i = 255 := by
        have := hb i (le_refl _) (by omega)
        omega
      obtain ⟨p, k, h1, h2, h3, h4, h5, h6, h7⟩ :=
        ih (i + 1) r (fun j' a b => hb j' (by omega) (by omega)) h
      refine ⟨p, k, by omega, by omega, h3, h4, h5, h6, ?_⟩
      intro j a b
      by_cases hj : j = i
      · subst hj; exact hi
      · exact h7 j (by omega) b

theorem to_int_of_lt (x : Nat) (h : x < 2147483648) : to_int (x : Int) = x := by
  unfold to_int
  split_ifs <;> omega

theorem bitmap_bit_split (buffers : Nat → Block) (block p k : Nat) (hp : p < 512) (hk : k < 8) :
    bitmap_bit buffers (block * 4096 + p * 8 + k) = buffers block p &&& (0x80 >>> k) := by
  unfold bitmap_bit
  have h1 : (block * 4096 + p * 8 + k) / 4096 = block := by omega
  have h2 : (block * 4096 + p * 8 + k) % 4096 / 8 = p := by omega
  have h3 : (block * 4096 + p * 8 + k) % 8 = k := by omega
  rw [h1, h2, h3]

theorem bitmap_bit_full (buffers : Nat → Block) (i : Nat)
    (h : buffers (i / 4096) ((i % 4096) / 8) = 255) : bitmap_bit buffers i ≠ 0 := by
  unfold bitmap_bit
  rw [h]
  exact byte_full_bits (i % 8) (Nat.mod_lt _ (by decide))

theorem scan_blocks_spec (buffers : Nat → Block) :
    ∀ todo block, block + todo ≤ 524288 →
      (∀ b, block ≤ b → b < block + todo → ∀ i, i < 512 → buffers b i < 256) →
      (∀ j, j < block * 4096 → bitmap_bit buffers j ≠ 0) →
      (scan_blocks buffers todo block = -1 ∧
          ∀ j, j < (block + todo) * 4096 → bitmap_bit buffers j ≠ 0) ∨
      (∃ i : Nat, scan_blocks buffers todo block = (i : Int) ∧ i < (block + todo) * 4096 ∧
          bitmap_bit buffers i = 0 ∧ ∀ j, j < i → bitmap_bit buffers j ≠ 0) := by
  intro todo
  induction todo with
  | zero =>
    intro block _ _ hprev
    left
    exact ⟨rfl, fun j hj => hprev j (by simpa using hj)⟩
  | succ t ih =>
    intro block hle hb hprev
    have hbb : ∀ j, 0 ≤ j → j < 0 + QUICKFS_BLOCK_SIZE → buffers block j < 256 :=
      fun j _ hj => hb block (le_refl _) (by omega) j (by simpa [QUICKFS_BLOCK_SIZE] using hj)
    unfold scan_blocks
    cases hs : scan_block (buffers block) block QUICKFS_BLOCK_SIZE 0 with
    | none =>
      have hfull := scan_block_none (buffers block) block QUICKFS_BLOCK_SIZE 0 hbb hs
      have hprev' : ∀ j, j < (block + 1) * 4096 → bitmap_bit buffers j ≠ 0 := by
        intro j hj
        by_cases hlt : j < block * 4096
        · exact hprev j hlt
        · apply bitmap_bit_full
          have h1 : j / 4096 = block := by omega
          rw [h1]
          exact hfull _ (Nat.zero_le _) (by simp only [QUICKFS_BLOCK_SIZE]; omega)
      have := ih (block + 1) (by omega) (fun b h1 h2 => hb b (by omega) (by omega)) hprev'
      simpa [Nat.add_assoc, Nat.add_comm 1 t] using this
    | some r =>
      obtain ⟨p, k, _, hp, hk, hr, hz, hlow, hfull⟩ :=
        scan_block_some (buffers block) block QUICKFS_BLOCK_SIZE 0 r hbb hs
      simp only [QUICKFS_BLOCK_SIZE, Nat.zero_add] at hp
      right
      refine ⟨block * 4096 + p * 8 + k, ?_, by omega, ?_, ?_⟩
      · simp only [hr]
        exact to_int_of_lt _ (by omega)
      · rw [bitmap_bit_split buffers block p k hp hk]; exact hz
      · intro j hj
        by_cases hlt : j < block * 4096
        · exact hprev j hlt
        · by_cases hq : j / 8 % 512 = p
          · have hj' : j = block * 4096 + p * 8 + j % 8 := by omega
            rw [hj', bitmap_bit_split buffers block p (j % 8) hp (by omega)]
            exact hlow (j % 8) (by omega)
          · apply bitmap_bit_full
            have h1 : j / 4096 = block := by omega
            rw [h1]
            exact hfull _ (Nat.zero_le _) (by omega)

/-- C1: over `n` bitmap blocks of 512 bytes each (with `n` small enough that every bit
index fits the `int` result, `n ≤ 2^19`), `first_free_bit` returns `-1` exactly when
every bit of all `n` blocks is set, and otherwise returns the lowest index `i` whose
bit (block `i/4096`, byte `(i%4096)/8`, mask `0x80 >> (i%8)`) is clear. -/
theorem first_free_bit_lowest (buffers : Nat → Block) (n : Nat) (hn : n ≤ 524288)
    (hb : ∀ b, b < n → ∀ i, i < 512 → buffers b i < 256) :
    (first_free_bit buffers n = -1 ↔ ∀ j, j < n * 4096 → bitmap_bit buffers j ≠ 0) ∧
    (first_free_bit buffers n ≠ -1 →
      ∃ i : Nat, first_free_bit buffers n = (i : Int) ∧ i < n * 4096 ∧
        bitmap_bit buffers i = 0 ∧ ∀ j, j < i → bitmap_bit buffers j ≠ 0) := by
  have h := scan_blocks_spec buffers n 0 (by omega)
    (fun b _ h2 => hb b (by omega)) (fun j hj => by omega)
  simp only [Nat.zero_add] at h
  unfold first_free_bit
  rcases h with ⟨h1, h2⟩ | ⟨i, h1, h2, h3, h4⟩
  · exact ⟨⟨fun _ => h2, fun _ => h1⟩, fun hne => absurd h1 hne⟩
  · refine ⟨⟨fun h => ?_, fun h => absurd h3 (h i h2)⟩, fun _ => ⟨i, h1, h2, h3, h4⟩⟩
    rw [h1] at h
    omega

theorem first_free_bit_lowest_witness :
    (first_free_bit example_bitmap 4 = -1 ↔
      ∀ j, j < 4 * 4096 → bitmap_bit example_bitmap j ≠ 0) ∧
    (first_free_bit example_bitmap 4 ≠ -1 →
      ∃ i : Nat, first_free_bit example_bitmap 4 = (i : Int) ∧ i < 4 * 4096 ∧
        bitmap_bit example_bitmap i = 0 ∧ ∀ j, j < i → bitmap_bit example_bitmap j ≠ 0) :=
  first_free_bit_lowest example_bitmap 4 (by decide)
    (fun b _ i _ => by unfold example_bitmap; split_ifs <;> decide)

/-! ### Setting, clearing and testing one bit -/

theorem byte_mark_test : ∀ b, b < 256 → ∀ k, k < 8 →
    (((b ||| (1 <<< (7 - k)) % 4294967296) % 256) % 256) &&& (0x80 >>> k) ≠ 0 ∧
    ∀ j, j < 8 → j ≠ k →
      ((((b ||| (1 <<< (7 - k)) % 4294967296) % 256) % 256) &&& (0x80 >>> j) = 0 ↔
        (b % 256) &&& (0x80 >>> j) = 0) := by
  decide!

theorem byte_clear_test : ∀ b, b < 256 → ∀ k, k < 8 →
    (((b &&& (4294967295 - (1 <<< (7 - k)) % 4294967296)) % 256) % 256) &&& (0x80 >>> k) = 0 ∧
    ∀ j, j < 8 → j ≠ k →
      ((((b &&& (4294967295 - (1 <<< (7 - k)) % 4294967296)) % 256) % 256) &&& (0x80 >>> j) = 0 ↔
        (b % 256) &&& (0x80 >>> j) = 0) := by
  decide!

theorem mark_bit_nat (bh : Block) (i : Nat) :
    mark_bit bh (i : Int) =
      Function.update bh (i / 8) ((bh (i / 8) ||| (1 <<< (7 - i % 8)) % 4294967296) % 256) := by
  unfold mark_bit
  have h1 : Int.tdiv (i : Int) 8 = ((i / 8 : Nat) : Int) := (Int.ofNat_tdiv i 8).symm
  have h2 : Int.tmod (i : Int) 8 = ((i % 8 : Nat) : Int) := (Int.ofNat_tmod i 8).symm
  have h3 : ((8 : Int) - ((i % 8 : Nat) : Int) - 1).toNat = 7 - i % 8 := by omega
  simp only [h1, h2, h3, Int.toNat_ofNat]
  rw [if_neg (by omega)]

theorem clear_bitmap_bit_nat (bh : Block) (i : Nat) :
    clear_bitmap_bit bh (i : Int) =
      Function.update bh (i / 8)
        ((bh (i / 8) &&& (4294967295 - (1 <<< (7 - i % 8)) % 4294967296)) % 256) := by
  unfold clear_bitmap_bit
  have h1 : Int.tdiv (i : Int) 8 = ((i / 8 : Nat) : Int) := (Int.ofNat_tdiv i 8).symm
  have h2 : Int.tmod (i : Int) 8 = ((i % 8 : Nat) : Int) := (Int.ofNat_tmod i 8).symm
  have h3 : ((8 : Int) - ((i % 8 : Nat) : Int) - 1).toNat = 7 - i % 8 := by omega
  simp only [h1, h2, h3, Int.toNat_ofNat]
  rw [if_neg (by omega)]

theorem test_mark_same (bh : Block) (i : Nat) (hb : bh (i / 8) < 256) :
    test_for_bit (mark_bit bh i) i = 1 := by
  rw [mark_bit_nat]
  unfold test_for_bit
  rw [Function.update_same]
  rw [if_neg ((byte_mark_test _ hb (i % 8) (Nat.mod_lt _ (by decide))).1)]

theorem test_mark_other (bh : Block) (i j : Nat) (hb : bh (i / 8) < 256) (hij : j ≠ i) :
    test_for_bit (mark_bit bh i) j = test_for_bit bh j := by
  rw [mark_bit_nat]
  unfold test_for_bit
  by_cases hq : j / 8 = i / 8
  · rw [hq, Function.update_same]
    have := (byte_mark_test _ hb (i % 8) (Nat.mod_lt _ (by decide))).2 (j % 8)
      (Nat.mod_lt _ (by decide)) (by omega)
    simp only [this]
  · rw [Function.update_noteq hq]

theorem test_clear_same (bh : Block) (i : Nat) (hb : bh (i / 8) < 256) :
    test_for_bit (clear_bitmap_bit bh i) i = 0 := by
  rw [clear_bitmap_bit_nat]
  unfold test_for_bit
  rw [Function.update_same]
  rw [if_pos ((byte_clear_test _ hb (i % 8) (Nat.mod_lt _ (by decide))).1)]

theorem test_clear_other (bh : Block) (i j : Nat) (hb : bh (i / 8) < 256) (hij : j ≠ i) :
    test_for_bit (clear_bitmap_bit bh i) j = test_for_bit bh j := by
  rw [clear_bitmap_bit_nat]
  unfold test_for_bit
  by_cases hq : j / 8 = i / 8
  · rw [hq, Function.update_same]
    have := (byte_clear_test _ hb (i % 8) (Nat.mod_lt _ (by decide))).2 (j % 8)
      (Nat.mod_lt _ (by decide)) (by omega)
    simp only [this]
  · rw [Function.update_noteq hq]

/-- C2: in a 512-byte bitmap block, for every index `0 ≤ i < 4096`, `test_for_bit`
returns 1 after `mark_bit(i)` and 0 after `clear_bitmap_bit(i)`; both leave every byte
other than byte `i/8` untouched and leave `test_for_bit` of every other index `j ≠ i`
unchanged. -/
theorem mark_clear_test_bit (bh : Block) (i : Nat) (hi : i < 4096)
    (hb : ∀ p, p < 512 → bh p < 256) :
    test_for_bit (mark_bit bh i) i = 1 ∧
    test_for_bit (clear_bitmap_bit bh i) i = 0 ∧
    (∀ p, p ≠ i / 8 → mark_bit bh i p = bh p ∧ clear_bitmap_bit bh i p = bh p) ∧
    (∀ j, j ≠ i → test_for_bit (mark_bit bh i) j = test_for_bit bh j ∧
      test_for_bit (clear_bitmap_bit bh i) j = test_for_bit bh j) := by
  have hbi : bh (i / 8) < 256 := hb _ (by omega)
  refine ⟨test_mark_same bh i hbi, test_clear_same bh i hbi, ?_, ?_⟩
  · intro p hp
    rw [mark_bit_nat, clear_bitmap_bit_nat]
    exact ⟨Function.update_noteq hp _ _, Function.update_noteq hp _ _⟩
  · intro j hj
    exact ⟨test_mark_other bh i j hbi hj, test_clear_other bh i j hbi hj⟩

theorem mark_clear_test_bit_witness :
    test_for_bit (mark_bit (example_bitmap 0) (10 : Nat)) 10 = 1 ∧
    test_for_bit (clear_bitmap_bit (example_bitmap 0) (10 : Nat)) 10 = 0 ∧
    (∀ p, p ≠ 10 / 8 → mark_bit (example_bitmap 0) (10 : Nat) p = example_bitmap 0 p ∧
      clear_bitmap_bit (example_bitmap 0) (10 : Nat) p = example_bitmap 0 p) ∧
    (∀ j, j ≠ 10 →
      test_for_bit (mark_bit (example_bitmap 0) (10 : Nat)) j = test_for_bit (example_bitmap 0) j ∧
      test_for_bit (clear_bitmap_bit (example_bitmap 0) (10 : Nat)) j =
        test_for_bit (example_bitmap 0) j) :=
  mark_clear_test_bit (example_bitmap 0) 10 (by decide)
    (fun p _ => by unfold example_bitmap; split_ifs <;> decide)

/-! ### The formatter's bitmaps -/

theorem fill_apply (v : Nat) : ∀ todo i (bit_map : Block) j,
    fill v todo i bit_map j = if i ≤ j ∧ j < i + todo then v else bit_map j := by
  intro todo
  induction todo with
  | zero => intro i bm j; rw [if_neg (by omega)]; rfl
  | succ t ih =>
    intro i bm j
    unfold fill
    rw [ih]
    by_cases h1 : i + 1 ≤ j ∧ j < i + 1 + t
    · rw [if_pos h1, if_pos (by omega)]
    · rw [if_neg h1]
      by_cases h2 : j = i
      · subst h2; rw [Function.update_same, if_pos (by omega)]
      · rw [Function.update_noteq h2, if_neg (by omega)]

theorem first_set_byte_loop_val :
    ∀ k, k < 8 → first_set_byte_loop (8 - k) 17 1 0 = some (255 >>> k) := by
  decide

set_option maxRecDepth 100000 in
theorem tail_byte_bits : ∀ k, k < 8 → ∀ m, m < 8 →
    (((255 >>> k) % 256) &&& (0x80 >>> m) = 0 ↔ m < k) := by
  decide

/-- The array built by `write_data_bitmap` when the capacity `c` is below 16384. -/
theorem write_data_bitmap_tail (stack : Block) (size c : Nat)
    (hc : bytes_to_data_blocks size = (c : Int)) (hlt : c < 16384) :
    ∃ bit_map, write_data_bitmap stack size = some bit_map ∧
      ∀ i, i < 2048 →
        bit_map i = if i < c / 8 then 0 else if i = c / 8 then 255 >>> (c % 8) else 255 := by
  have hN : NUM_DATA_BITMAP_BLOCKS * QUICKFS_BLOCK_SIZE = 2048 := rfl
  have hM : ((NUM_DATA_BITMAP_BLOCKS * QUICKFS_BLOCK_SIZE * 8 : Nat) : Int) = 16384 := rfl
  have h1 : Int.tdiv (c : Int) 8 = ((c / 8 : Nat) : Int) := (Int.ofNat_tdiv c 8).symm
  have h2 : Int.tmod (c : Int) 8 = ((c % 8 : Nat) : Int) := (Int.ofNat_tmod c 8).symm
  have h3 : ((8 : Int) - ((c % 8 : Nat) : Int)).toNat = 8 - c % 8 := by omega
  unfold write_data_bitmap
  rw [hc]
  simp only [h1, h2, h3, Int.toNat_ofNat]
  rw [hM, if_neg (by omega), first_set_byte_loop_val (c % 8) (Nat.mod_lt _ (by decide))]
  simp only
  rw [if_neg (by omega)]
  refine ⟨_, rfl, ?_⟩
  intro i hi
  rw [hN, fill_apply]
  by_cases ha : c / 8 + 1 ≤ i ∧ i < c / 8 + 1 + (2048 - (c / 8 + 1))
  · rw [if_pos ha, if_neg (by omega), if_neg (by omega)]
  · rw [if_neg ha]
    by_cases hb : i = c / 8
    · rw [hb, Function.update_same, if_neg (by omega), if_pos rfl]
    · rw [Function.update_noteq hb, fill_apply, if_pos (by omega), if_pos (by omega)]

/-- The array built by `write_data_bitmap` when the capacity is 16384 or more. -/
theorem write_data_bitmap_full (stack : Block) (size : Nat)
    (hc : 16384 ≤ bytes_to_data_blocks size) :
    ∃ bit_map, write_data_bitmap stack size = some bit_map ∧ ∀ i, i < 2048 → bit_map i = 0 := by
  have hN : NUM_DATA_BITMAP_BLOCKS * QUICKFS_BLOCK_SIZE = 2048 := rfl
  have hM : ((NUM_DATA_BITMAP_BLOCKS * QUICKFS_BLOCK_SIZE * 8 : Nat) : Int) = 16384 := rfl
  unfold write_data_bitmap
  rw [hM]
  have hc' : bytes_to_data_blocks size ≥ 16384 := hc
  generalize bytes_to_data_blocks size = c at hc'
  simp only [if_pos hc']
  refine ⟨_, rfl, ?_⟩
  intro i hi
  rw [hN, fill_apply, if_pos (by omega)]

theorem tail_bitmap_bits (bm : Block) (c : Nat)
    (h2 : ∀ i, i < 2048 →
      bm i = if i < c / 8 then 0 else if i = c / 8 then 255 >>> (c % 8) else 255)
    (j : Nat) (hj : j < 16384) : test_for_bit bm j = if j < c then 0 else 1 := by
  have ht := tail_byte_bits (c % 8) (Nat.mod_lt _ (by decide)) (j % 8) (Nat.mod_lt _ (by decide))
  unfold test_for_bit
  rw [h2 _ (by omega)]
  by_cases hjc : j < c
  · rw [if_pos hjc]
    by_cases ha : j / 8 < c / 8
    · rw [if_pos ha]; simp
    · have hb : j / 8 = c / 8 := by omega
      rw [if_neg ha, if_pos hb, if_pos (ht.2 (by omega))]
  · rw [if_neg hjc]
    have ha : ¬ j / 8 < c / 8 := by omega
    rw [if_neg ha]
    by_cases hb : j / 8 = c / 8
    · rw [if_pos hb, if_neg (fun h => hjc (by have := ht.1 h; omega))]
    · rw [if_neg hb, if_neg]
      exact byte_full_bits (j % 8) (Nat.mod_lt _ (by decide))

/-- C3: when the data capacity `c = bytes_to_data_blocks(size)` is at least 1,
`write_data_bitmap` produces a 2048-byte bitmap whose bit `j` (MSB first) is 0 for
every `j < c` and 1 for every `c ≤ j ≤ 16383`; when `c ≥ 16384` every byte is zero. -/
theorem write_data_bitmap_bits (stack : Block) (size : Nat)
    (hc : 1 ≤ bytes_to_data_blocks size) :
    ∃ bit_map, write_data_bitmap stack size = some bit_map ∧
      (∀ j : Nat, j < 16384 →
        test_for_bit bit_map j = if (j : Int) < bytes_to_data_blocks size then 0 else 1) ∧
      (16384 ≤ bytes_to_data_blocks size → ∀ i, i < 2048 → bit_map i = 0) := by
  by_cases hbig : 16384 ≤ bytes_to_data_blocks size
  · obtain ⟨bm, h1, h2⟩ := write_data_bitmap_full stack size hbig
    refine ⟨bm, h1, ?_, fun _ => h2⟩
    intro j hj
    rw [if_pos (by omega)]
    unfold test_for_bit
    rw [h2 _ (by omega)]
    simp
  · obtain ⟨c, hcn⟩ : ∃ c : Nat, bytes_to_data_blocks size = (c : Int) :=
      ⟨(bytes_to_data_blocks size).toNat, by omega⟩
    obtain ⟨bm, h1, h2⟩ := write_data_bitmap_tail stack size c hcn (by omega)
    refine ⟨bm, h1, ?_, fun h => absurd h hbig⟩
    intro j hj
    rw [hcn, tail_bitmap_bits bm c h2 j hj]
    simp only [Nat.cast_lt]

theorem write_data_bitmap_bits_witness :
    1 ≤ bytes_to_data_blocks 2151424 ∧
    ∃ bit_map, write_data_bitmap zero_block 2151424 = some bit_map ∧
      (∀ j : Nat, j < 16384 → test_for_bit bit_map j = if (j : Int) < 100 then 0 else 1) ∧
      (16384 ≤ bytes_to_data_blocks 2151424 → ∀ i, i < 2048 → bit_map i = 0) :=
  ⟨by decide, write_data_bitmap_bits zero_block 2151424 (by decide)⟩

/-! ### The formatter as a whole -/

theorem write_inode_bitmap_apply (stack : Block) (i : Nat) (hi : i < 512) :
    write_inode_bitmap stack i = if i = 0 then 0x80 else 0 := by
  unfold write_inode_bitmap
  have hN : QUICKFS_BLOCK_SIZE - 1 = 511 := rfl
  rw [hN, fill_apply]
  by_cases h0 : i = 0
  · subst h0; rw [if_neg (by omega), Function.update_same, if_pos rfl]
  · rw [if_pos (by omega), if_neg h0]

theorem bytes_to_data_blocks_small (size : Nat) (h1 : 4102 * 512 ≤ size)
    (h2 : size < 2147483648) :
    bytes_to_data_blocks size = ((size / 512 - 4102 : Nat) : Int) := by
  unfold bytes_to_data_blocks
  have hq : ((QUICKFS_BLOCK_SIZE : Nat) : Int) = 512 := rfl
  have hq2 : ((4102 * QUICKFS_BLOCK_SIZE : Nat) : Int) = 2100224 := rfl
  rw [hq, hq2]
  have e1 : to_int (size : Int) = (size : Int) := by
    unfold to_int
    split_ifs <;> omega
  have e2 : to_int ((size : Int) - 2100224) = ((size - 2100224 : Nat) : Int) := by
    unfold to_int
    split_ifs <;> omega
  have e3 : Int.tdiv ((size - 2100224 : Nat) : Int) 512 = (((size - 2100224) / 512 : Nat) : Int) :=
    (Int.ofNat_tdiv _ 512).symm
  have e4 : (size - 2100224) / 512 = size / 512 - 4102 := by omega
  rw [e1, e2, e3, e4]

/-- The image produced by the formatter whenever it accepts the file. -/
theorem mkquickfs_accepts (env : FormatEnv) (img : Image) (size : Nat)
    (hc : 1 ≤ bytes_to_data_blocks size) :
    ∃ bit_map, write_data_bitmap env.stack_bitmap size = some bit_map ∧
      mkquickfs env img size = some
        { sb := write_superblock size
          inode_bitmap :=
            blit (write_inode_bitmap env.stack_bitmap) QUICKFS_BLOCK_SIZE img.inode_bitmap
          data_bitmap := fun k =>
            if k < NUM_DATA_BITMAP_BLOCKS then
              blit (fun i => bit_map (k * QUICKFS_BLOCK_SIZE + i)) QUICKFS_BLOCK_SIZE
                (img.data_bitmap k)
            else img.data_bitmap k
          inodes := Function.update img.inodes ROOT_INODE_NUM (write_root_inode env) } := by
  have hex : ∃ bit_map, write_data_bitmap env.stack_bitmap size = some bit_map := by
    by_cases hbig : 16384 ≤ bytes_to_data_blocks size
    · obtain ⟨bm, h, _⟩ := write_data_bitmap_full env.stack_bitmap size hbig
      exact ⟨bm, h⟩
    · obtain ⟨bm, h, _⟩ := write_data_bitmap_tail env.stack_bitmap size
        (bytes_to_data_blocks size).toNat (by omega) (by omega)
      exact ⟨bm, h⟩
  obtain ⟨bm, hbm⟩ := hex
  refine ⟨bm, hbm, ?_⟩
  unfold mkquickfs
  rw [if_neg (by omega), hbm]

theorem write_superblock_small (size : Nat) (h1 : 4102 * 512 ≤ size) (h2 : size < 2147483648) :
    (write_superblock size).data_blocks_free = min (size / 512 - 4102) 16384 := by
  unfold write_superblock
  rw [bytes_to_data_blocks_small size h1 h2]
  have hN : NUM_DATA_BITMAP_BLOCKS * QUICKFS_BLOCK_SIZE * 8 = 16384 := rfl
  have e : (((size / 512 - 4102 : Nat) : Int) % (ULONG_MOD : Int)).toNat = size / 512 - 4102 := by
    unfold ULONG_MOD
    omega
  simp only [e, hN]
  split_ifs with h <;> omega

/-- For file lengths that fit an `int`, the formatter accepts every image of at least
4103 blocks and writes the superblock the specification describes. -/
theorem mkquickfs_superblock (env : FormatEnv) (img : Image) (size : Nat)
    (h1 : 4103 * 512 ≤ size) (h2 : size < 2147483648) :
    ∃ img', mkquickfs env img size = some img' ∧
      img'.sb.magic_number = 0xFEEDD0BB ∧ img'.sb.inodes_free = 4095 ∧
      img'.sb.data_blocks_free = min (size / 512 - 4102) 16384 := by
  have hc : 1 ≤ bytes_to_data_blocks size := by
    rw [bytes_to_data_blocks_small size (by omega) h2]
    omega
  obtain ⟨bm, _, h⟩ := mkquickfs_accepts env img size hc
  exact ⟨_, h, rfl, rfl, write_superblock_small size (by omega) h2⟩

/-- C4 (failing input): a file of 3 GiB (6,291,456 blocks, far more than 4103) is
refused by the formatter, because `bytes_to_data_blocks` narrows the length to a
32-bit `int` and obtains a negative block count. -/
theorem mkquickfs_refuses_3GiB (env : FormatEnv) (img : Image) :
    4103 * 512 ≤ 3221225472 ∧ bytes_to_data_blocks 3221225472 = -2101254 ∧
      mkquickfs env img 3221225472 = none := by
  refine ⟨by decide, by decide, ?_⟩
  unfold mkquickfs
  rw [if_pos (by decide)]

theorem mkquickfs_8MiB (env : FormatEnv) (img : Image) :
    ∃ img', mkquickfs env img 8388608 = some img' ∧
      (∀ i, i < 512 → img'.inode_bitmap i = if i = 0 then 0x80 else 0) ∧
      (∀ k, k < 4 → ∀ i, i < 512 → img'.data_bitmap k i =
        if k * 512 + i < 1535 then 0 else if k * 512 + i = 1535 then 0x3F else 0xFF) := by
  have hc : bytes_to_data_blocks 8388608 = ((12282 : Nat) : Int) := by decide
  obtain ⟨bm, hbm, h⟩ := mkquickfs_accepts env img 8388608 (by rw [hc]; decide)
  obtain ⟨bm', hbm', hval⟩ := write_data_bitmap_tail env.stack_bitmap 8388608 12282 hc (by decide)
  rw [hbm] at hbm'
  cases Option.some.inj hbm'
  refine ⟨_, h, ?_, ?_⟩
  · intro i hi
    show blit _ QUICKFS_BLOCK_SIZE _ i = _
    unfold blit
    rw [if_pos (show i < QUICKFS_BLOCK_SIZE from hi), write_inode_bitmap_apply _ i hi]
  · intro k hk i hi
    show (if k < NUM_DATA_BITMAP_BLOCKS then blit _ QUICKFS_BLOCK_SIZE _ else _) i = _
    rw [if_pos (show k < NUM_DATA_BITMAP_BLOCKS from hk)]
    unfold blit
    rw [if_pos (show i < QUICKFS_BLOCK_SIZE from hi)]
    show bm (k * 512 + i) = _
    rw [hval _ (by omega)]
    rfl

/-- C5 (as stated, refuted): formatting a blank 8,388,608-byte image does not leave
the data bitmap all zero: the image holds 12,282 data blocks, so byte 1535 (block 2,
offset 511) is `0x3F`. -/
theorem mkquickfs_8MiB_data_bitmap_not_zero :
    ¬ ∃ img', mkquickfs example_env blank_image 8388608 = some img' ∧
      (img'.inode_bitmap 0 = 0x80 ∧ ∀ i, 1 ≤ i → i < 512 → img'.inode_bitmap i = 0) ∧
      (∀ k, k < 4 → ∀ i, i < 512 → img'.data_bitmap k i = 0) := by
  rintro ⟨img', h, _, hz⟩
  obtain ⟨img2, h2, _, hd⟩ := mkquickfs_8MiB example_env blank_image
  rw [h] at h2
  cases Option.some.inj h2
  have a := hz 2 (by decide) 511 (by decide)
  have b := hd 2 (by decide) 511 (by decide)
  rw [a] at b
  revert b
  decide

/-- C5 (amended): formatting an image of exactly 8,388,608 bytes writes an inode
bitmap whose byte 0 is `0x80` and whose other 511 bytes are 0, and a data bitmap whose
bytes 0..1534 are zero, whose byte 1535 is `0x3F` and whose bytes 1536..2047 are
`0xFF` (bits 12282..16383 set). -/
theorem mkquickfs_8MiB_bitmaps (env : FormatEnv) (img : Image) :
    ∃ img', mkquickfs env img 8388608 = some img' ∧
      (img'.inode_bitmap 0 = 0x80 ∧ ∀ i, 1 ≤ i → i < 512 → img'.inode_bitmap i = 0) ∧
      (∀ k, k < 4 → ∀ i, i < 512 → img'.data_bitmap k i =
        if k * 512 + i < 1535 then 0 else if k * 512 + i = 1535 then 0x3F else 0xFF) := by
  obtain ⟨img', h, hi, hd⟩ := mkquickfs_8MiB env img
  refine ⟨img', h, ⟨?_, ?_⟩, hd⟩
  · rw [hi 0 (by decide), if_pos rfl]
  · intro i h1 h2
    rw [hi i h2, if_neg (by omega)]

/-! ### Counting bits -/

theorem test_for_bit_01 (bh : Block) (i : Nat) : test_for_bit bh i = 0 ∨ test_for_bit bh i = 1 := by
  unfold test_for_bit
  split_ifs
  · exact Or.inl rfl
  · exact Or.inr rfl

theorem test_for_bit_ne_zero (bh : Block) (i : Nat) : test_for_bit bh i ≠ 0 ↔ test_for_bit bh i = 1 := by
  rcases test_for_bit_01 bh i with h | h <;> simp [h]

theorem test_for_bit_ne_one (bh : Block) (i : Nat) : test_for_bit bh i ≠ 1 ↔ test_for_bit bh i = 0 := by
  rcases test_for_bit_01 bh i with h | h <;> simp [h]

theorem card_filter_flip (n a : Nat) (p q : Nat → Prop) [DecidablePred p] [DecidablePred q]
    (ha : a < n) (hpa : ¬ p a) (hqa : q a) (h : ∀ j, j ≠ a → (q j ↔ p j)) :
    ((Finset.range n).filter q).card = ((Finset.range n).filter p).card + 1 := by
  have e : (Finset.range n).filter q = insert a ((Finset.range n).filter p) := by
    ext j
    simp only [Finset.mem_filter, Finset.mem_range, Finset.mem_insert]
    by_cases hj : j = a
    · subst hj; simp [ha, hqa]
    · simp [hj, h j hj]
  rw [e, Finset.card_insert_of_not_mem]
  simp [hpa]

theorem mark_bit_wf (bh : Block) (a : Nat) (n : Nat) (h : ∀ i, i < n → bh i < 256) :
    ∀ i, i < n → mark_bit bh (a : Int) i < 256 := by
  intro i hi
  rw [mark_bit_nat]
  by_cases e : i = a / 8
  · rw [e, Function.update_same]; exact Nat.mod_lt _ (by decide)
  · rw [Function.update_noteq e]; exact h i hi

theorem clear_bitmap_bit_wf (bh : Block) (a : Nat) (n : Nat) (h : ∀ i, i < n → bh i < 256) :
    ∀ i, i < n → clear_bitmap_bit bh (a : Int) i < 256 := by
  intro i hi
  rw [clear_bitmap_bit_nat]
  by_cases e : i = a / 8
  · rw [e, Function.update_same]; exact Nat.mod_lt _ (by decide)
  · rw [Function.update_noteq e]; exact h i hi

theorem inode_bits_set_mark (bh : Block) (a : Nat) (ha : a < 4096)
    (hwf : ∀ i, i < 512 → bh i < 256) (h0 : test_for_bit bh a = 0) :
    inode_bits_set (mark_bit bh (a : Int)) = inode_bits_set bh + 1 := by
  have hb : bh (a / 8) < 256 := hwf _ (by omega)
  unfold inode_bits_set
  apply card_filter_flip 4096 a _ _ ha
  · rw [h0]; decide
  · exact test_mark_same bh a hb
  · intro j hj
    rw [test_mark_other bh a j hb hj]

theorem inode_bits_set_clear (bh : Block) (a : Nat) (ha : a < 4096)
    (hwf : ∀ i, i < 512 → bh i < 256) (h1 : test_for_bit bh a = 1) :
    inode_bits_set bh = inode_bits_set (clear_bitmap_bit bh (a : Int)) + 1 := by
  have hb : bh (a / 8) < 256 := hwf _ (by omega)
  unfold inode_bits_set
  apply card_filter_flip 4096 a _ _ ha
  · rw [test_clear_same bh a hb]; decide
  · exact h1
  · intro j hj
    rw [test_clear_other bh a j hb hj]

theorem data_bit_eq_bitmap_bit (dbm : Nat → Block) (j : Nat)
    (hwf : dbm (j / 4096) ((j % 4096) / 8) < 256) :
    data_bit dbm j = if bitmap_bit dbm j = 0 then 0 else 1 := by
  unfold data_bit test_for_bit bitmap_bit
  have e : j % 4096 % 8 = j % 8 := by omega
  rw [e, Nat.mod_eq_of_lt hwf]

theorem data_bit_mark (dbm : Nat → Block) (e : Nat)
    (hwf : dbm (e / 4096) ((e % 4096) / 8) < 256) (j : Nat) :
    data_bit (Function.update dbm (e / 4096) (mark_bit (dbm (e / 4096)) ((e % 4096 : Nat) : Int))) j
      = if j = e then 1 else data_bit dbm j := by
  unfold data_bit
  by_cases hb : j / 4096 = e / 4096
  · rw [hb, Function.update_same]
    by_cases hj : j = e
    · rw [if_pos hj, hj]; exact test_mark_same _ _ hwf
    · rw [if_neg hj]; exact test_mark_other _ _ _ hwf (by omega)
  · rw [Function.update_noteq hb, if_neg (fun h => hb (by rw [h]))]

theorem data_bit_clear (dbm : Nat → Block) (e : Nat)
    (hwf : dbm (e / 4096) ((e % 4096) / 8) < 256) (j : Nat) :
    data_bit (Function.update dbm (e / 4096)
        (clear_bitmap_bit (dbm (e / 4096)) ((e % 4096 : Nat) : Int))) j
      = if j = e then 0 else data_bit dbm j := by
  unfold data_bit
  by_cases hb : j / 4096 = e / 4096
  · rw [hb, Function.update_same]
    by_cases hj : j = e
    · rw [if_pos hj, hj]; exact test_clear_same _ _ hwf
    · rw [if_neg hj]; exact test_clear_other _ _ _ hwf (by omega)
  · rw [Function.update_noteq hb, if_neg (fun h => hb (by rw [h]))]

theorem data_bits_clear_flip (dbm dbm' : Nat → Block) (e : Nat) (he : e < 16384)
    (h1 : data_bit dbm e = 1) (h : ∀ j, data_bit dbm' j = if j = e then 0 else data_bit dbm j) :
    data_bits_clear dbm' = data_bits_clear dbm + 1 := by
  unfold data_bits_clear
  apply card_filter_flip 16384 e _ _ he
  · rw [h1]; decide
  · rw [h, if_pos rfl]
  · intro j hj
    rw [h, if_neg hj]

theorem data_bits_clear_unflip (dbm dbm' : Nat → Block) (e : Nat) (he : e < 16384)
    (h0 : data_bit dbm e = 0) (h : ∀ j, data_bit dbm' j = if j = e then 1 else data_bit dbm j) :
    data_bits_clear dbm = data_bits_clear dbm' + 1 := by
  unfold data_bits_clear
  apply card_filter_flip 16384 e _ _ he
  · rw [h, if_pos rfl]; decide
  · exact h0
  · intro j hj
    rw [h, if_neg hj]

/-- What `first_free_bit` finds in the single inode-bitmap block. -/
theorem first_free_inode_cases (bh : Block) (hwf : ∀ i, i < 512 → bh i < 256) :
    (first_free_bit (fun _ => bh) NUM_INODE_BITMAP_BLOCKS = -1 ∧
        ∀ i, i < 4096 → test_for_bit bh i = 1) ∨
    ∃ a : Nat, first_free_bit (fun _ => bh) NUM_INODE_BITMAP_BLOCKS = (a : Int) ∧ a < 4096 ∧
        test_for_bit bh a = 0 ∧ ∀ j, j < a → test_for_bit bh j = 1 := by
  have key : ∀ j, j < 4096 →
      test_for_bit bh j = if bitmap_bit (fun _ => bh) j = 0 then 0 else 1 := by
    intro j hj
    have := data_bit_eq_bitmap_bit (fun _ => bh) j (hwf _ (by omega))
    unfold data_bit at this
    rw [Nat.mod_eq_of_lt hj] at this
    exact this
  have h := scan_blocks_spec (fun _ => bh) 1 0 (by omega)
    (fun _ _ _ i hi => hwf i hi) (fun j hj => by omega)
  unfold first_free_bit NUM_INODE_BITMAP_BLOCKS
  rcases h with ⟨h1, h2⟩ | ⟨a, h1, h2, h3, h4⟩
  · left
    refine ⟨h1, fun i hi => ?_⟩
    rw [key i hi, if_neg (h2 i (by omega))]
  · right
    refine ⟨a, h1, by omega, ?_, fun j hj => ?_⟩
    · rw [key a (by omega), if_pos h3]
    · rw [key j (by omega), if_neg (h4 j hj)]

/-- What `first_free_bit` finds in the four data-bitmap blocks. -/
theorem first_free_data_cases (dbm : Nat → Block)
    (hwf : ∀ k, k < 4 → ∀ i, i < 512 → dbm k i < 256) :
    (first_free_bit dbm NUM_DATA_BITMAP_BLOCKS = -1 ∧
        ∀ j, j < 16384 → data_bit dbm j = 1) ∨
    ∃ e : Nat, first_free_bit dbm NUM_DATA_BITMAP_BLOCKS = (e : Int) ∧ e < 16384 ∧
        data_bit dbm e = 0 ∧ ∀ j, j < e → data_bit dbm j = 1 := by
  have key : ∀ j, j < 16384 → data_bit dbm j = if bitmap_bit dbm j = 0 then 0 else 1 :=
    fun j hj => data_bit_eq_bitmap_bit dbm j (hwf _ (by omega) _ (by omega))
  have h := scan_blocks_spec dbm 4 0 (by omega)
    (fun b _ hb i hi => hwf b (by omega) i hi) (fun j hj => by omega)
  unfold first_free_bit NUM_DATA_BITMAP_BLOCKS
  rcases h with ⟨h1, h2⟩ | ⟨e, h1, h2, h3, h4⟩
  · left
    refine ⟨h1, fun j hj => ?_⟩
    rw [key j hj, if_neg (h2 j (by omega))]
  · right
    refine ⟨e, h1, by omega, ?_, fun j hj => ?_⟩
    · rw [key e (by omega), if_pos h3]
    · rw [key j (by omega), if_neg (h4 j hj)]

/-! ### Preservation of the disk invariant, one kind of change at a time -/

/-- Rewriting one inode record while keeping its `link` and `data_blocks`, with a
block count that a cached inode still covers. -/
theorem DiskInv_record (C : Nat) (img img' : Image) (cb : Nat → Option Nat) (k : Nat)
    (h : DiskInv C img cb)
    (hsb : img'.sb = img.sb) (hib : img'.inode_bitmap = img.inode_bitmap)
    (hdb : img'.data_bitmap = img.data_bitmap)
    (hother : ∀ j, j ≠ k → img'.inodes j = img.inodes j)
    (hlink : (img'.inodes k).link = (img.inodes k).link)
    (hblocks : (img'.inodes k).data_blocks = (img.inodes k).data_blocks)
    (hcount : ∀ n, cb k = some n → (img'.inodes k).data_block_count ≤ n) :
    DiskInv C img' cb := by
  have hl : ∀ j, (img'.inodes j).link = (img.inodes j).link := by
    intro j
    by_cases e : j = k
    · rw [e, hlink]
    · rw [hother j e]
  have hb : ∀ j, (img'.inodes j).data_blocks = (img.inodes j).data_blocks := by
    intro j
    by_cases e : j = k
    · rw [e, hblocks]
    · rw [hother j e]
  exact
    { cap := h.cap
      ib_wf := by rw [hib]; exact h.ib_wf
      db_wf := by rw [hdb]; exact h.db_wf
      p1 := by rw [hsb, hib]; exact h.p1
      s1 := by rw [hsb, hdb]; exact h.s1
      cached := by
        intro j n hj
        obtain ⟨a, b, c, d⟩ := h.cached j n hj
        refine ⟨a, by rw [hib]; exact b, by rw [hl]; exact c, ?_⟩
        by_cases e : j = k
        · rw [e]; exact hcount n (e ▸ hj)
        · rw [hother j e]; exact d
      own_set := by
        intro j n p hj hp
        rw [hb, hdb]
        exact h.own_set j n p hj hp
      own_inj := by
        intro j n p j' n' p' hj hj' hp hp'
        rw [hb, hb]
        exact h.own_inj j n p j' n' p' hj hj' hp hp'
      real_cached := by
        intro j hj
        rw [hib, hl]
        exact h.real_cached j hj
      budget := by rw [hsb]; exact h.budget }

theorem sum_getD_update (cb : Nat → Option Nat) (k : Nat) (hk : k < 4096) (v : Option Nat) :
    (∑ j ∈ Finset.range 4096, (Function.update cb k v j).getD 0) + (cb k).getD 0 =
      (∑ j ∈ Finset.range 4096, (cb j).getD 0) + v.getD 0 := by
  have hmem : k ∈ Finset.range 4096 := Finset.mem_range.mpr hk
  have e1 : (fun j => (Function.update cb k v j).getD 0) =
      Function.update (fun j => (cb j).getD 0) k (v.getD 0) := by
    funext j
    by_cases e : j = k
    · rw [e, Function.update_same, Function.update_same]
    · rw [Function.update_noteq e, Function.update_noteq e]
  rw [e1, Finset.sum_update_of_mem hmem]
  have e2 : (∑ x ∈ Finset.range 4096 \ {k}, (cb x).getD 0) + (cb k).getD 0 =
      ∑ x ∈ Finset.range 4096, (cb x).getD 0 := by
    rw [Finset.sdiff_singleton_eq_erase]
    exact Finset.sum_erase_add (Finset.range 4096) (fun j => (cb j).getD 0) hmem
  omega

theorem inodes_free_pos (C : Nat) (img : Image) (cb : Nat → Option Nat) (h : DiskInv C img cb)
    (a : Nat) (ha : a < 4096) (h0 : test_for_bit img.inode_bitmap a = 0) :
    0 < img.sb.inodes_free ∧ img.sb.inodes_free ≤ 4096 := by
  have hle : inode_bits_set img.inode_bitmap < 4096 := by
    unfold inode_bits_set
    have hsub : (Finset.range 4096).filter (fun i => test_for_bit img.inode_bitmap i = 1) ⊆
        (Finset.range 4096).erase a := by
      intro j hj
      simp only [Finset.mem_filter, Finset.mem_range] at hj
      simp only [Finset.mem_erase, Finset.mem_range]
      refine ⟨fun e => ?_, hj.1⟩
      rw [e, h0] at hj
      exact absurd hj.2 (by decide)
    have := Finset.card_le_card hsub
    rw [Finset.card_erase_of_mem (Finset.mem_range.mpr ha), Finset.card_range] at this
    omega
  have := h.p1
  omega

/-- Taking the free inode `a` into use, either as an alias (positive `link`, not
cached) or as a new real inode (cached with no blocks). -/
theorem DiskInv_take_inode (C : Nat) (img img' : Image) (cb cb' : Nat → Option Nat) (a : Nat)
    (h : DiskInv C img cb) (ha : a < 4096) (h0 : test_for_bit img.inode_bitmap a = 0)
    (hib : img'.inode_bitmap = mark_bit img.inode_bitmap (a : Int))
    (hdb : img'.data_bitmap = img.data_bitmap)
    (hfi : img'.sb.inodes_free = dec_ulong img.sb.inodes_free)
    (hfd : img'.sb.data_blocks_free = img.sb.data_blocks_free)
    (hother : ∀ j, j ≠ a → img'.inodes j = img.inodes j)
    (hcase : (cb' = cb ∧ 0 < (img'.inodes a).link) ∨
      (cb' = Function.update cb a (some 0) ∧ (img'.inodes a).link = -1 ∧
        (img'.inodes a).data_block_count = 0)) :
    DiskInv C img' cb' := by
  have hba : img.inode_bitmap (a / 8) < 256 := h.ib_wf _ (by omega)
  have hnone : cb a = none := by
    cases hc : cb a with
    | none => rfl
    | some n =>
      have := (h.cached a n hc).2.1
      rw [h0] at this
      exact absurd this (by decide)
  have hcb : ∀ j, j ≠ a → cb' j = cb j := by
    intro j hj
    rcases hcase with ⟨e, _⟩ | ⟨e, _⟩
    · rw [e]
    · rw [e, Function.update_noteq hj]
  have hne : ∀ j n, cb j = some n → j ≠ a := by
    intro j n hj e
    rw [e, hnone] at hj
    exact absurd hj (by simp)
  have hsum : (∑ j ∈ Finset.range 4096, (cb' j).getD 0) = ∑ j ∈ Finset.range 4096, (cb j).getD 0 := by
    rcases hcase with ⟨e, _⟩ | ⟨e, _⟩
    · rw [e]
    · have := sum_getD_update cb a ha (some 0)
      rw [hnone] at this
      rw [e]
      simpa using this
  have hold : ∀ j n, cb' j = some n → (j = a ∧ n = 0 ∧ (img'.inodes a).link = -1 ∧
      (img'.inodes a).data_block_count = 0) ∨ (j ≠ a ∧ cb j = some n) := by
    intro j n hj
    by_cases e : j = a
    · left
      rcases hcase with ⟨e', _⟩ | ⟨e', h2, h3⟩
      · rw [e', e, hnone] at hj; exact absurd hj (by simp)
      · rw [e', e, Function.update_same] at hj
        exact ⟨e, (Option.some.inj hj).symm, h2, h3⟩
    · right
      exact ⟨e, by rw [← hcb j e]; exact hj⟩
  have hfree := inodes_free_pos C img cb h a ha h0
  exact
    { cap := h.cap
      ib_wf := by rw [hib]; exact mark_bit_wf _ a 512 h.ib_wf
      db_wf := by rw [hdb]; exact h.db_wf
      p1 := by
        rw [hfi, hib, inode_bits_set_mark _ a ha h.ib_wf h0]
        have := h.p1
        have e : dec_ulong img.sb.inodes_free = img.sb.inodes_free - 1 := by
          unfold dec_ulong
          rw [if_neg (by omega)]
        rw [e]
        omega
      s1 := by rw [hfd, hdb]; exact h.s1
      cached := by
        intro j n hj
        rcases hold j n hj with ⟨e, en, hl, hc⟩ | ⟨e, hj'⟩
        · subst e
          refine ⟨ha, ?_, hl, by omega⟩
          rw [hib]; exact test_mark_same _ _ hba
        · obtain ⟨x, y, z, w⟩ := h.cached j n hj'
          refine ⟨x, ?_, by rw [hother j e]; exact z, by rw [hother j e]; exact w⟩
          rw [hib, test_mark_other _ _ _ hba e]; exact y
      own_set := by
        intro j n p hj hp
        rcases hold j n hj with ⟨_, en, _, _⟩ | ⟨e, hj'⟩
        · omega
        · rw [hother j e, hdb]; exact h.own_set j n p hj' hp
      own_inj := by
        intro j n p j' n' p' hj hj' hp hp'
        rcases hold j n hj with ⟨_, en, _, _⟩ | ⟨e, hj1⟩
        · omega
        rcases hold j' n' hj' with ⟨_, en, _, _⟩ | ⟨e', hj2⟩
        · omega
        rw [hother j e, hother j' e']
        exact h.own_inj j n p j' n' p' hj1 hj2 hp hp'
      real_cached := by
        intro j hj hbit hl
        by_cases e : j = a
        · subst e
          rcases hcase with ⟨_, hpos⟩ | ⟨e', _⟩
          · omega
          · rw [e', Function.update_same]; simp
        · rw [hcb j e]
          rw [hib, test_mark_other _ _ _ hba e] at hbit
          rw [hother j e] at hl
          exact h.real_cached j hj hbit hl
      budget := by rw [hfd, hsum]; exact h.budget }

/-- Releasing the allocated inode `i`, which is not cached (an alias). -/
theorem DiskInv_release_inode (C : Nat) (img img' : Image) (cb : Nat → Option Nat) (i : Nat)
    (h : DiskInv C img cb) (hi : i < 4096) (h1 : test_for_bit img.inode_bitmap i = 1)
    (hnone : cb i = none)
    (hib : img'.inode_bitmap = clear_bitmap_bit img.inode_bitmap (i : Int))
    (hdb : img'.data_bitmap = img.data_bitmap)
    (hfi : img'.sb.inodes_free = (img.sb.inodes_free + 1) % ULONG_MOD)
    (hfd : img'.sb.data_blocks_free = img.sb.data_blocks_free)
    (hrec : img'.inodes = img.inodes) :
    DiskInv C img' cb := by
  have hbi : img.inode_bitmap (i / 8) < 256 := h.ib_wf _ (by omega)
  have hne : ∀ j n, cb j = some n → j ≠ i := by
    intro j n hj e
    rw [e, hnone] at hj
    exact absurd hj (by simp)
  exact
    { cap := h.cap
      ib_wf := by rw [hib]; exact clear_bitmap_bit_wf _ i 512 h.ib_wf
      db_wf := by rw [hdb]; exact h.db_wf
      p1 := by
        rw [hfi, hib]
        have := inode_bits_set_clear _ i hi h.ib_wf h1
        have := h.p1
        have e : (img.sb.inodes_free + 1) % ULONG_MOD = img.sb.inodes_free + 1 := by
          unfold ULONG_MOD
          omega
        rw [e]
        omega
      s1 := by rw [hfd, hdb]; exact h.s1
      cached := by
        intro j n hj
        obtain ⟨x, y, z, w⟩ := h.cached j n hj
        rw [hrec, hib, test_clear_other _ _ _ hbi (hne j n hj)]
        exact ⟨x, y, z, w⟩
      own_set := by
        intro j n p hj hp
        rw [hrec, hdb]; exact h.own_set j n p hj hp
      own_inj := by
        intro j n p j' n' p' hj hj' hp hp'
        rw [hrec]; exact h.own_inj j n p j' n' p' hj hj' hp hp'
      real_cached := by
        intro j hj hbit hl
        rw [hrec] at hl
        by_cases e : j = i
        · rw [hib, e, test_clear_same _ _ hbi] at hbit
          exact absurd hbit (by decide)
        · rw [hib, test_clear_other _ _ _ hbi e] at hbit
          exact h.real_cached j hj hbit hl
      budget := by rw [hfd]; exact h.budget }

theorem data_bits_clear_zero (dbm : Nat → Block) (h : ∀ j, j < 16384 → data_bit dbm j = 1) :
    data_bits_clear dbm = 0 := by
  unfold data_bits_clear
  rw [Finset.card_eq_zero, Finset.filter_eq_empty_iff]
  intro j hj
  rw [h j (Finset.mem_range.mp hj)]
  decide

/-- Giving the clear data bit `e` to the cached inode `k` as its block number `n`. -/
theorem DiskInv_alloc_block (C : Nat) (img img' : Image) (cb : Nat → Option Nat) (k n e : Nat)
    (h : DiskInv C img cb) (hk : cb k = some n) (he : e < 16384)
    (h0 : data_bit img.data_bitmap e = 0)
    (hib : img'.inode_bitmap = img.inode_bitmap)
    (hdb : img'.data_bitmap = Function.update img.data_bitmap (e / 4096)
      (mark_bit (img.data_bitmap (e / 4096)) ((e % 4096 : Nat) : Int)))
    (hfi : img'.sb.inodes_free = img.sb.inodes_free)
    (hfd : img'.sb.data_blocks_free = dec_ulong img.sb.data_blocks_free)
    (hother : ∀ j, j ≠ k → img'.inodes j = img.inodes j)
    (hlink : (img'.inodes k).link = (img.inodes k).link)
    (hcount : (img'.inodes k).data_block_count = (img.inodes k).data_block_count)
    (hblocks : (img'.inodes k).data_blocks = Function.update (img.inodes k).data_blocks n e) :
    DiskInv C img' (Function.update cb k (some (n + 1))) := by
  have hk4 : k < 4096 := (h.cached k n hk).1
  have hwf : img.data_bitmap (e / 4096) ((e % 4096) / 8) < 256 :=
    h.db_wf _ (by omega) _ (by omega)
  have hbit : ∀ j, data_bit img'.data_bitmap j = if j = e then 1 else data_bit img.data_bitmap j := by
    intro j; rw [hdb]; exact data_bit_mark _ e hwf j
  have hcnt := data_bits_clear_unflip img.data_bitmap img'.data_bitmap e he h0 hbit
  have hl : ∀ j, (img'.inodes j).link = (img.inodes j).link := by
    intro j
    by_cases e : j = k
    · rw [e, hlink]
    · rw [hother j e]
  have hc : ∀ j, (img'.inodes j).data_block_count = (img.inodes j).data_block_count := by
    intro j
    by_cases e : j = k
    · rw [e, hcount]
    · rw [hother j e]
  -- the entries recorded for cached inodes, before and after
  have hent : ∀ j m p, Function.update cb k (some (n + 1)) j = some m → p < m →
      (j = k ∧ p = n ∧ (img'.inodes j).data_blocks p = e) ∨
      (∃ m', cb j = some m' ∧ p < m' ∧
        (img'.inodes j).data_blocks p = (img.inodes j).data_blocks p) := by
    intro j m p hj hp
    by_cases ej : j = k
    · subst ej
      rw [Function.update_same] at hj
      have hm : m = n + 1 := (Option.some.inj hj).symm
      by_cases ep : p = n
      · left; refine ⟨rfl, ep, ?_⟩
        rw [hblocks, ep, Function.update_same]
      · right; refine ⟨n, hk, by omega, ?_⟩
        rw [hblocks, Function.update_noteq ep]
    · right
      rw [Function.update_noteq ej] at hj
      exact ⟨m, hj, hp, by rw [hother j ej]⟩
  have hfree : img.sb.data_blocks_free = data_bits_clear img'.data_bitmap + 1 := by
    rw [h.s1]; exact hcnt
  exact
    { cap := h.cap
      ib_wf := by rw [hib]; exact h.ib_wf
      db_wf := by
        intro b hb i hi
        rw [hdb]
        by_cases eb : b = e / 4096
        · rw [eb, Function.update_same]
          exact mark_bit_wf _ _ 512 (h.db_wf _ (by omega)) i hi
        · rw [Function.update_noteq eb]; exact h.db_wf b hb i hi
      p1 := by rw [hfi, hib]; exact h.p1
      s1 := by
        rw [hfd, hfree]
        unfold dec_ulong
        rw [if_neg (by omega)]
        omega
      cached := by
        intro j m hj
        rw [hib, hl, hc]
        by_cases ej : j = k
        · subst ej
          rw [Function.update_same] at hj
          obtain ⟨x, y, z, w⟩ := h.cached j n hk
          have hm : m = n + 1 := (Option.some.inj hj).symm
          exact ⟨x, y, z, by omega⟩
        · rw [Function.update_noteq ej] at hj
          exact h.cached j m hj
      own_set := by
        intro j m p hj hp
        rcases hent j m p hj hp with ⟨_, _, he'⟩ | ⟨m', hj', hp', he'⟩
        · rw [he', hbit, if_pos rfl]; exact ⟨he, rfl⟩
        · rw [he', hbit]
          obtain ⟨x, y⟩ := h.own_set j m' p hj' hp'
          refine ⟨x, ?_⟩
          split_ifs
          · rfl
          · exact y
      own_inj := by
        intro j m p j' m' p' hj hj' hp hp' heq
        rcases hent j m p hj hp with ⟨a1, a2, a3⟩ | ⟨q, a1, a2, a3⟩ <;>
          rcases hent j' m' p' hj' hp' with ⟨b1, b2, b3⟩ | ⟨q', b1, b2, b3⟩
        · exact ⟨by rw [a1, b1], by rw [a2, b2]⟩
        · exfalso
          rw [a3, b3] at heq
          have := (h.own_set j' q' p' b1 b2).2
          rw [← heq, h0] at this
          exact absurd this (by decide)
        · exfalso
          rw [a3, b3] at heq
          have := (h.own_set j q p a1 a2).2
          rw [heq, h0] at this
          exact absurd this (by decide)
        · rw [a3, b3] at heq
          exact h.own_inj j q p j' q' p' a1 b1 a2 b2 heq
      real_cached := by
        intro j hj hbit' hl'
        rw [hib] at hbit'
        rw [hl] at hl'
        by_cases ej : j = k
        · rw [ej, Function.update_same]; simp
        · rw [Function.update_noteq ej]; exact h.real_cached j hj hbit' hl'
      budget := by
        have hs := sum_getD_update cb k hk4 (some (n + 1))
        rw [hk] at hs
        simp only [Option.getD_some] at hs
        have := h.budget
        have e1 : dec_ulong img.sb.data_blocks_free
            = img.sb.data_blocks_free - 1 := by
          unfold dec_ulong
          rw [if_neg (by omega)]
        rw [hfd, e1]
        omega }

/-- The loop of `quickfs_delete_inode` over distinct entries whose bits are set
clears exactly those bits. -/
theorem delete_loop_spec (entries : Nat → Nat) :
    ∀ todo i (dbm : Nat → Block),
      (∀ k, k < 4 → ∀ b, b < 512 → dbm k b < 256) →
      (∀ p, i ≤ p → p < i + todo → entries p < 16384 ∧ data_bit dbm (entries p) = 1) →
      (∀ p q, i ≤ p → p < i + todo → i ≤ q → q < i + todo → entries p = entries q → p = q) →
      (∀ k, k < 4 → ∀ b, b < 512 → delete_loop entries todo i dbm k b < 256) ∧
      (∀ p, i ≤ p → p < i + todo → data_bit (delete_loop entries todo i dbm) (entries p) = 0) ∧
      (∀ j, (∀ p, i ≤ p → p < i + todo → entries p ≠ j) →
        data_bit (delete_loop entries todo i dbm) j = data_bit dbm j) ∧
      data_bits_clear (delete_loop entries todo i dbm) = data_bits_clear dbm + todo := by
  intro todo
  induction todo with
  | zero =>
    intro i dbm hwf _ _
    have e : delete_loop entries 0 i dbm = dbm := rfl
    rw [e]
    exact ⟨hwf, fun p h1 h2 => by omega, fun j _ => rfl, (Nat.add_zero _).symm⟩
  | succ t ih =>
    intro i dbm hwf hset hinj
    obtain ⟨he, h1⟩ := hset i (le_refl _) (by omega)
    have hN : 8 * QUICKFS_BLOCK_SIZE = 4096 := rfl
    have hblk : entries i / 4096 < NUM_DATA_BITMAP_BLOCKS := by
      unfold NUM_DATA_BITMAP_BLOCKS; omega
    have hwfe : dbm (entries i / 4096) ((entries i % 4096) / 8) < 256 :=
      hwf _ (by omega) _ (by omega)
    have hstep : delete_loop entries (t + 1) i dbm =
        delete_loop entries t (i + 1)
          (Function.update dbm (entries i / 4096)
            (clear_bitmap_bit (dbm (entries i / 4096)) ((entries i % 4096 : Nat) : Int))) := by
      show delete_loop entries t (i + 1) _ = _
      simp only [hN, if_pos hblk]
    rw [hstep]
    have hbit := data_bit_clear dbm (entries i) hwfe
    have hwf1 : ∀ k, k < 4 → ∀ b, b < 512 →
        Function.update dbm (entries i / 4096)
          (clear_bitmap_bit (dbm (entries i / 4096)) ((entries i % 4096 : Nat) : Int)) k b < 256 := by
      intro k hk b hb
      by_cases ek : k = entries i / 4096
      · rw [ek, Function.update_same]
        exact clear_bitmap_bit_wf _ _ 512 (hwf _ (by omega)) b hb
      · rw [Function.update_noteq ek]; exact hwf k hk b hb
    have hne : ∀ p, i + 1 ≤ p → p < i + 1 + t → entries p ≠ entries i := by
      intro p hp1 hp2 e
      have := hinj p i (by omega) (by omega) (le_refl _) (by omega) e
      omega
    obtain ⟨r1, r2, r3, r4⟩ := ih (i + 1) _ hwf1
      (fun p hp1 hp2 => by
        obtain ⟨a, b⟩ := hset p (by omega) (by omega)
        refine ⟨a, ?_⟩
        rw [hbit, if_neg (hne p hp1 hp2)]; exact b)
      (fun p q a b c d e => hinj p q (by omega) (by omega) (by omega) (by omega) e)
    refine ⟨r1, ?_, ?_, ?_⟩
    · intro p hp1 hp2
      by_cases ep : p = i
      · by_cases hex : ∃ q, i + 1 ≤ q ∧ q < i + 1 + t ∧ entries q = entries p
        · obtain ⟨q, a, b, c⟩ := hex
          rw [← c]; exact r2 q a b
        · rw [r3 _ (fun q a b c => hex ⟨q, a, b, c⟩), hbit, ep, if_pos rfl]
      · exact r2 p (by omega) (by omega)
    · intro j hj
      rw [r3 j (fun p a b => hj p (by omega) (by omega)), hbit,
        if_neg (fun e => hj i (le_refl _) (by omega) e.symm)]
    · rw [r4, data_bits_clear_flip dbm _ (entries i) he h1 hbit]
      omega

theorem single_le_sum_getD (cb : Nat → Option Nat) (k n : Nat) (hk : k < 4096)
    (h : cb k = some n) : n ≤ ∑ j ∈ Finset.range 4096, (cb j).getD 0 := by
  have := Finset.single_le_sum (f := fun j => (cb j).getD 0) (s := Finset.range 4096)
    (fun i _ => Nat.zero_le _) (Finset.mem_range.mpr hk)
  simpa [h] using this

/-- Deleting the cached inode `k`: the blocks its record counts are released, its
inode bit is cleared, and it leaves the cache. -/
theorem DiskInv_delete (C : Nat) (img img' : Image) (cb : Nat → Option Nat) (k n : Nat)
    (h : DiskInv C img cb) (hk : cb k = some n)
    (hib : img'.inode_bitmap = clear_bitmap_bit img.inode_bitmap (k : Int))
    (hdb : img'.data_bitmap = delete_loop (img.inodes k).data_blocks
      (img.inodes k).data_block_count 0 img.data_bitmap)
    (hfi : img'.sb.inodes_free = (img.sb.inodes_free + 1) % ULONG_MOD)
    (hfd : img'.sb.data_blocks_free =
      (img.sb.data_blocks_free + (img.inodes k).data_block_count) % ULONG_MOD)
    (hrec : img'.inodes = img.inodes) :
    DiskInv C img' (Function.update cb k none) := by
  obtain ⟨hk4, hk1, _, hcnt⟩ := h.cached k n hk
  have hbk : img.inode_bitmap (k / 8) < 256 := h.ib_wf _ (by omega)
  obtain ⟨d1, d2, d3, d4⟩ := delete_loop_spec (img.inodes k).data_blocks
    (img.inodes k).data_block_count 0 img.data_bitmap h.db_wf
    (fun p _ hp => h.own_set k n p hk (by omega))
    (fun p q _ hp _ hq e => (h.own_inj k n p k n q hk hk (by omega) (by omega) e).2)
  rw [← hdb] at d1 d2 d3 d4
  have hsum := sum_getD_update cb k hk4 none
  rw [hk] at hsum
  simp only [Option.getD_some, Option.getD_none] at hsum
  have hbud := h.budget
  have hcap := h.cap
  have hold : ∀ j m, Function.update cb k none j = some m → j ≠ k ∧ cb j = some m := by
    intro j m hj
    by_cases e : j = k
    · rw [e, Function.update_same] at hj; exact absurd hj (by simp)
    · rw [Function.update_noteq e] at hj; exact ⟨e, hj⟩
  exact
    { cap := h.cap
      ib_wf := by rw [hib]; exact clear_bitmap_bit_wf _ k 512 h.ib_wf
      db_wf := d1
      p1 := by
        rw [hfi, hib]
        have := inode_bits_set_clear _ k hk4 h.ib_wf hk1
        have := h.p1
        have e : (img.sb.inodes_free + 1) % ULONG_MOD = img.sb.inodes_free + 1 := by
          unfold ULONG_MOD
          omega
        rw [e]
        omega
      s1 := by
        rw [hfd, d4, ← h.s1]
        have e : (img.sb.data_blocks_free + (img.inodes k).data_block_count) % ULONG_MOD
            = img.sb.data_blocks_free + (img.inodes k).data_block_count := by
          unfold ULONG_MOD
          omega
        exact e
      cached := by
        intro j m hj
        obtain ⟨e, hj'⟩ := hold j m hj
        obtain ⟨x, y, z, w⟩ := h.cached j m hj'
        rw [hrec, hib, test_clear_other _ _ _ hbk e]
        exact ⟨x, y, z, w⟩
      own_set := by
        intro j m p hj hp
        obtain ⟨e, hj'⟩ := hold j m hj
        obtain ⟨x, y⟩ := h.own_set j m p hj' hp
        rw [hrec]
        refine ⟨x, ?_⟩
        rw [d3 _ (fun q _ hq heq =>
          e (h.own_inj k n q j m p hk hj' (by omega) hp heq).1.symm)]
        exact y
      own_inj := by
        intro j m p j' m' p' hj hj' hp hp'
        rw [hrec]
        exact h.own_inj j m p j' m' p' (hold j m hj).2 (hold j' m' hj').2 hp hp'
      real_cached := by
        intro j hj hbit hl
        rw [hrec] at hl
        by_cases e : j = k
        · rw [hib, e, test_clear_same _ _ hbk] at hbit
          exact absurd hbit (by decide)
        · rw [hib, test_clear_other _ _ _ hbk e] at hbit
          rw [Function.update_noteq e]
          exact h.real_cached j hj hbit hl
      budget := by
        rw [hfd]
        have e : (img.sb.data_blocks_free + (img.inodes k).data_block_count) % ULONG_MOD
            = img.sb.data_blocks_free + (img.inodes k).data_block_count := by
          unfold ULONG_MOD
          omega
        rw [e]
        omega }

/-! ### The shape of each operation's result -/

theorem cached_blocks_update (s : FS) (img : Image) (k : Nat) (v : Option inode) :
    cached_blocks { disk := img, icache := Function.update s.icache k v } =
      Function.update (cached_blocks s) k (v.map (fun i => i.i_blocks)) := by
  funext j
  unfold cached_blocks
  by_cases e : j = k
  · rw [e]; simp only [Function.update_same]
  · simp only [Function.update_noteq e]

theorem cached_blocks_update_same (s : FS) (img : Image) (k : Nat) (i i' : inode)
    (h : s.icache k = some i) (hb : i'.i_blocks = i.i_blocks) :
    cached_blocks { disk := img, icache := Function.update s.icache k (some i') } =
      cached_blocks s := by
  rw [cached_blocks_update]
  funext j
  by_cases e : j = k
  · rw [e, Function.update_same]
    unfold cached_blocks
    rw [h]
    simp only [Option.map_some', hb]
  · rw [Function.update_noteq e]

theorem ino_update (s : FS) (k : Nat) (i' : inode)
    (h : ∀ j i, s.icache j = some i → i.i_ino = j) (hi : i'.i_ino = k) :
    ∀ j i, Function.update s.icache k (some i') j = some i → i.i_ino = j := by
  intro j i hj
  by_cases e : j = k
  · rw [e, Function.update_same] at hj
    rw [e, ← Option.some.inj hj]; exact hi
  · rw [Function.update_noteq e] at hj
    exact h j i hj

theorem quickfs_create_full (img : Image) (d : dentry) (mode fsuid fsgid now : Nat)
    (h : first_free_bit (fun _ => img.inode_bitmap) NUM_INODE_BITMAP_BLOCKS = -1) :
    quickfs_create img d mode fsuid fsgid now = (-ENOSPC, img, none) := by
  unfold quickfs_create
  simp only [h]
  rfl

theorem quickfs_create_at (img : Image) (d : dentry) (mode fsuid fsgid now : Nat) (a : Nat)
    (h : first_free_bit (fun _ => img.inode_bitmap) NUM_INODE_BITMAP_BLOCKS = (a : Int)) :
    quickfs_create img d mode fsuid fsgid now =
      (0,
        { img with
          inodes := Function.update img.inodes a
            { img.inodes a with
              name := d.d_name, size := 0, data_block_count := 0, hard_links := 1, link := -1,
              uid := fsuid, gid := fsgid, umode := mode ||| S_IFREG,
              atime := now, mtime := now, ctime := now }
          sb := { img.sb with inodes_free := dec_ulong img.sb.inodes_free }
          inode_bitmap := mark_bit img.inode_bitmap (a : Int) },
        some
          { i_ino := a, i_mode := mode ||| S_IFREG, i_uid := fsuid, i_gid := fsgid, i_size := 0,
            i_blocks := 0, i_nlink := 1, i_atime := now, i_mtime := now, i_ctime := now }) := by
  unfold quickfs_create
  simp only [h, Int.toNat_ofNat]
  rw [if_neg (by omega)]

theorem quickfs_link_full (img : Image) (i : inode) (d : dentry) (now : Nat)
    (h : first_free_bit (fun _ => img.inode_bitmap) NUM_INODE_BITMAP_BLOCKS = -1) :
    quickfs_link img i d now = (-ENOSPC, img, i) := by
  unfold quickfs_link
  simp only [h]
  rfl

theorem quickfs_link_at (img : Image) (i : inode) (d : dentry) (now : Nat) (a : Nat)
    (h : first_free_bit (fun _ => img.inode_bitmap) NUM_INODE_BITMAP_BLOCKS = (a : Int)) :
    quickfs_link img i d now =
      (0,
        { img with
          inodes := Function.update img.inodes a
            { img.inodes a with name := d.d_name, link := to_short i.i_ino }
          inode_bitmap := mark_bit img.inode_bitmap (a : Int)
          sb := { img.sb with inodes_free := dec_ulong img.sb.inodes_free } },
        { i with i_nlink := (i.i_nlink + 1) % UINT_MOD, i_ctime := now, i_atime := now }) := by
  unfold quickfs_link
  simp only [h, Int.toNat_ofNat]
  rw [if_neg (by omega)]

theorem to_short_small (x : Nat) (h : x < 32768) : to_short (x : Int) = (x : Int) := by
  unfold to_short
  split_ifs <;> omega

theorem to_int_small (x : Nat) (h : x < 2147483648) : to_int (x : Int) = (x : Int) := by
  unfold to_int
  split_ifs <;> omega

theorem unlink_scan_some (img : Image) (name : List Nat) (ino : Nat) :
    ∀ todo i r, unlink_scan img name ino todo i = some r →
      i ≤ r ∧ r < i + todo ∧ test_for_bit img.inode_bitmap r = 1 ∧
        name = (img.inodes r).name ∧
        ((img.inodes r).link % (ULONG_MOD : Int)).toNat = ino ∧
        ∀ j, i ≤ j → j < r →
          ¬ (test_for_bit img.inode_bitmap j = 1 ∧ name = (img.inodes j).name ∧
            ((img.inodes j).link % (ULONG_MOD : Int)).toNat = ino) := by
  intro todo
  induction todo with
  | zero => intro i r h; simp [unlink_scan] at h
  | succ t ih =>
    intro i r h
    unfold unlink_scan at h
    by_cases hb : test_for_bit img.inode_bitmap i ≠ 0
    · rw [if_pos hb] at h
      by_cases hm : name = (img.inodes i).name ∧
          ((img.inodes i).link % (ULONG_MOD : Int)).toNat = ino
      · rw [if_pos hm] at h
        cases Option.some.inj h
        exact ⟨le_refl _, by omega, (test_for_bit_ne_zero _ _).mp hb, hm.1, hm.2,
          fun j a b => by omega⟩
      · rw [if_neg hm] at h
        obtain ⟨a, b, c, d, e, f⟩ := ih (i + 1) r h
        refine ⟨by omega, by omega, c, d, e, fun j hj1 hj2 => ?_⟩
        by_cases ej : j = i
        · rw [ej]; exact fun x => hm x.2
        · exact f j (by omega) hj2
    · rw [if_neg hb] at h
      obtain ⟨a, b, c, d, e, f⟩ := ih (i + 1) r h
      refine ⟨by omega, by omega, c, d, e, fun j hj1 hj2 => ?_⟩
      by_cases ej : j = i
      · rw [ej]; exact fun x => hb ((test_for_bit_ne_zero _ _).mpr x.1)
      · exact f j (by omega) hj2

theorem unlink_scan_none (img : Image) (name : List Nat) (ino : Nat) :
    ∀ todo i, unlink_scan img name ino todo i = none →
      ∀ j, i ≤ j → j < i + todo →
        ¬ (test_for_bit img.inode_bitmap j = 1 ∧ name = (img.inodes j).name ∧
          ((img.inodes j).link % (ULONG_MOD : Int)).toNat = ino) := by
  intro todo
  induction todo with
  | zero => intro i _ j h1 h2; omega
  | succ t ih =>
    intro i h j h1 h2
    unfold unlink_scan at h
    by_cases hb : test_for_bit img.inode_bitmap i ≠ 0
    · rw [if_pos hb] at h
      by_cases hm : name = (img.inodes i).name ∧
          ((img.inodes i).link % (ULONG_MOD : Int)).toNat = ino
      · rw [if_pos hm] at h; exact absurd h (by simp)
      · rw [if_neg hm] at h
        by_cases ej : j = i
        · rw [ej]; exact fun x => hm x.2
        · exact ih (i + 1) h j (by omega) (by omega)
    · rw [if_neg hb] at h
      by_cases ej : j = i
      · rw [ej]; exact fun x => hb ((test_for_bit_ne_zero _ _).mpr x.1)
      · exact ih (i + 1) h j (by omega) (by omega)

/-! ### Every call preserves the invariant -/

theorem Inv_create (C : Nat) (s : FS) (d : dentry) (mode fsuid fsgid now : Nat) (h : Inv C s) :
    Inv C (step s (Op.create d mode fsuid fsgid now)) := by
  rcases first_free_inode_cases s.disk.inode_bitmap h.disk.ib_wf with
    ⟨hr, _⟩ | ⟨a, hr, ha, h0, _⟩
  · have e : step s (Op.create d mode fsuid fsgid now) = s := by
      simp only [step, quickfs_create_full _ _ _ _ _ _ hr]
    rw [e]; exact h
  · simp only [step, quickfs_create_at _ _ _ _ _ _ a hr]
    refine ⟨?_, ino_update s a _ h.ino ?_⟩
    · rw [cached_blocks_update]
      refine DiskInv_take_inode C s.disk _ (cached_blocks s) _ a h.disk ha h0 ?_ ?_ ?_ ?_ ?_ ?_
      · exact rfl
      · exact rfl
      · exact rfl
      · exact rfl
      · exact fun j hj => Function.update_noteq hj _ _
      · refine Or.inr ⟨?_, ?_, ?_⟩
        · exact rfl
        · simp only [Function.update_same]
        · simp only [Function.update_same]
    · exact rfl

theorem Inv_link (C : Nat) (s : FS) (ino : Nat) (d : dentry) (now : Nat) (h : Inv C s)
    (hok : ino ≠ ROOT_INODE_NUM) : Inv C (step s (Op.link ino d now)) := by
  cases hc : s.icache ino with
  | none => simp only [step, hc]; exact h
  | some i =>
    have hi : i.i_ino = ino := h.ino ino i hc
    have hcb : cached_blocks s ino = some i.i_blocks := by unfold cached_blocks; rw [hc]; exact rfl
    have hlt : ino < 4096 := (h.disk.cached ino _ hcb).1
    rcases first_free_inode_cases s.disk.inode_bitmap h.disk.ib_wf with
      ⟨hr, _⟩ | ⟨a, hr, ha, h0, _⟩
    · simp only [step, hc, quickfs_link_full _ _ _ _ hr]
      refine ⟨?_, ino_update s ino _ h.ino hi⟩
      rw [cached_blocks_update_same s _ ino i i hc rfl]
      exact h.disk
    · simp only [step, hc, quickfs_link_at _ _ _ _ a hr]
      refine ⟨?_, ino_update s ino _ h.ino hi⟩
      rw [cached_blocks_update_same s _ ino i
        { i with i_nlink := (i.i_nlink + 1) % UINT_MOD, i_ctime := now, i_atime := now } hc rfl]
      refine DiskInv_take_inode C s.disk _ (cached_blocks s) _ a h.disk ha h0 ?_ ?_ ?_ ?_ ?_ ?_
      · exact rfl
      · exact rfl
      · exact rfl
      · exact rfl
      · exact fun j hj => Function.update_noteq hj _ _
      · refine Or.inl ⟨rfl, ?_⟩
        simp only [Function.update_same]
        rw [hi, to_short_small ino (by omega)]
        unfold ROOT_INODE_NUM at hok
        omega

theorem quickfs_unlink_Ia (img : Image) (i : inode) (d : dentry) (h1 : i.i_nlink = 1)
    (h2 : d.d_name = (img.inodes i.i_ino).name) :
    quickfs_unlink img i d = (0, img, { i with i_nlink := dec_uint i.i_nlink }) := by
  unfold quickfs_unlink
  simp only [if_pos h1, if_pos h2]

theorem quickfs_unlink_IIa (img : Image) (i : inode) (d : dentry) (h1 : i.i_nlink ≠ 1)
    (h2 : d.d_name = (img.inodes i.i_ino).name) :
    quickfs_unlink img i d =
      (0,
        { img with
          inodes := Function.update img.inodes i.i_ino { img.inodes i.i_ino with name := [] } },
        { i with i_nlink := dec_uint i.i_nlink }) := by
  unfold quickfs_unlink
  simp only [if_neg h1, if_pos h2]

theorem quickfs_unlink_alias (img : Image) (i : inode) (d : dentry) (j : Nat)
    (h2 : d.d_name ≠ (img.inodes i.i_ino).name)
    (hs : unlink_scan img d.d_name i.i_ino 4096 0 = some j) :
    quickfs_unlink img i d =
      (0,
        { img with
          sb := { img.sb with inodes_free := (img.sb.inodes_free + 1) % ULONG_MOD }
          inode_bitmap := clear_bitmap_bit img.inode_bitmap (j : Int) },
        { i with i_nlink := dec_uint i.i_nlink }) := by
  unfold quickfs_unlink
  by_cases h1 : i.i_nlink = 1
  · simp only [if_pos h1, if_neg h2, hs, unlink_modify_disk]
  · simp only [if_neg h1, if_neg h2, hs, unlink_modify_disk]

theorem quickfs_unlink_missing (img : Image) (i : inode) (d : dentry)
    (h2 : d.d_name ≠ (img.inodes i.i_ino).name)
    (hs : unlink_scan img d.d_name i.i_ino 4096 0 = none) :
    quickfs_unlink img i d = (-1, img, i) := by
  unfold quickfs_unlink
  by_cases h1 : i.i_nlink = 1
  · simp only [if_pos h1, if_neg h2, hs]
  · simp only [if_neg h1, if_neg h2, hs]

theorem quickfs_unlink_cases (img : Image) (i : inode) (d : dentry) :
    (quickfs_unlink img i d).2.2.i_ino = i.i_ino ∧
    (quickfs_unlink img i d).2.2.i_blocks = i.i_blocks ∧
    ((quickfs_unlink img i d).2.1 = img ∨
      (d.d_name = (img.inodes i.i_ino).name ∧ i.i_nlink ≠ 1 ∧
        (quickfs_unlink img i d).2.1 =
          { img with
            inodes := Function.update img.inodes i.i_ino
              { img.inodes i.i_ino with name := [] } }) ∨
      (∃ j, d.d_name ≠ (img.inodes i.i_ino).name ∧
        unlink_scan img d.d_name i.i_ino 4096 0 = some j ∧
        (quickfs_unlink img i d).2.1 =
          { img with
            sb := { img.sb with inodes_free := (img.sb.inodes_free + 1) % ULONG_MOD }
            inode_bitmap := clear_bitmap_bit img.inode_bitmap (j : Int) })) := by
  by_cases h2 : d.d_name = (img.inodes i.i_ino).name
  · by_cases h1 : i.i_nlink = 1
    · rw [quickfs_unlink_Ia img i d h1 h2]
      exact ⟨rfl, rfl, Or.inl rfl⟩
    · rw [quickfs_unlink_IIa img i d h1 h2]
      exact ⟨rfl, rfl, Or.inr (Or.inl ⟨h2, h1, rfl⟩)⟩
  · cases hs : unlink_scan img d.d_name i.i_ino 4096 0 with
    | none =>
      rw [quickfs_unlink_missing img i d h2 hs]
      exact ⟨rfl, rfl, Or.inl rfl⟩
    | some j =>
      rw [quickfs_unlink_alias img i d j h2 hs]
      exact ⟨rfl, rfl, Or.inr (Or.inr ⟨j, h2, rfl, rfl⟩)⟩

theorem alias_not_cached (C : Nat) (img : Image) (cb : Nat → Option Nat) (h : DiskInv C img cb)
    (j ino : Nat) (hino : ino < 4096)
    (hl : ((img.inodes j).link % (ULONG_MOD : Int)).toNat = ino) : cb j = none := by
  cases hc : cb j with
  | none => rfl
  | some n =>
    have := (h.cached j n hc).2.2.1
    rw [this] at hl
    unfold ULONG_MOD at hl
    omega

theorem Inv_unlink (C : Nat) (s : FS) (ino : Nat) (d : dentry) (h : Inv C s) :
    Inv C (step s (Op.unlink ino d)) := by
  cases hc : s.icache ino with
  | none => simp only [step, hc]; exact h
  | some i =>
    have hi : i.i_ino = ino := h.ino ino i hc
    have hcb : cached_blocks s ino = some i.i_blocks := by unfold cached_blocks; rw [hc]; exact rfl
    have hlt : ino < 4096 := (h.disk.cached ino _ hcb).1
    obtain ⟨c1, c2, c3⟩ := quickfs_unlink_cases s.disk i d
    simp only [step, hc]
    generalize quickfs_unlink s.disk i d = r at c1 c2 c3
    obtain ⟨r1, img', i'⟩ := r
    simp only at c1 c2 c3 ⊢
    refine ⟨?_, ino_update s ino _ h.ino (by rw [c1, hi])⟩
    rw [cached_blocks_update_same s _ ino i i' hc c2]
    rcases c3 with e | ⟨_, _, e⟩ | ⟨j, _, hs, e⟩
    · rw [e]; exact h.disk
    · rw [e]
      refine DiskInv_record C s.disk _ (cached_blocks s) i.i_ino h.disk ?_ ?_ ?_
        (fun j hj => Function.update_noteq hj _ _) ?_ ?_ ?_
      · exact rfl
      · exact rfl
      · exact rfl
      · simp only [Function.update_same]
      · simp only [Function.update_same]
      · intro n hn
        simp only [Function.update_same]
        exact (h.disk.cached _ n hn).2.2.2
    · obtain ⟨_, hj, hbit, _, hl, _⟩ := unlink_scan_some s.disk d.d_name i.i_ino 4096 0 j hs
      rw [e]
      refine DiskInv_release_inode C s.disk _ (cached_blocks s) j h.disk (by omega) hbit
        (alias_not_cached C s.disk _ h.disk j i.i_ino (by omega) hl) ?_ ?_ ?_ ?_ ?_ <;> exact rfl

theorem get_block_allocates_iff (img : Image) (i : inode) (block : Nat) (create : Int) :
    get_block_allocates img i block create = true ↔
      create = 1 ∧ img.sb.data_blocks_free ≠ 0 ∧
        ¬ (i.i_size ≠ 0 ∧ block < (img.inodes i.i_ino).data_block_count) := by
  unfold get_block_allocates
  simp only [Bool.and_eq_true, decide_eq_true_eq, Bool.not_eq_true', Bool.and_eq_false_iff,
    decide_eq_false_iff_not, ne_eq, not_not, not_and, not_lt]
  constructor
  · rintro ⟨⟨a, b⟩, c⟩
    refine ⟨a, b, fun hsz => ?_⟩
    rcases c with c | c
    · exact absurd c hsz
    · exact c
  · rintro ⟨a, b, c⟩
    refine ⟨⟨a, b⟩, ?_⟩
    by_cases hsz : i.i_size = 0
    · exact Or.inl hsz
    · exact Or.inr (c hsz)

theorem quickfs_get_block_idle (img : Image) (i : inode) (block : Nat) (create : Int)
    (h : get_block_allocates img i block create = false) :
    (quickfs_get_block img i block create).img = img ∧
      (quickfs_get_block img i block create).inode = i := by
  have hn : ¬ (create = 1 ∧ img.sb.data_blocks_free ≠ 0 ∧
      ¬ (i.i_size ≠ 0 ∧ block < (img.inodes i.i_ino).data_block_count)) := by
    rw [← get_block_allocates_iff, h]
    exact Bool.false_ne_true
  unfold quickfs_get_block
  by_cases h0 : create = 0
  · by_cases hb : block ≥ (img.inodes i.i_ino).data_block_count
    · simp only [if_pos h0, if_pos hb, and_self]
    · simp only [if_pos h0, if_neg hb, and_self]
  · by_cases h1 : create = 1
    · by_cases hf : img.sb.data_blocks_free = 0
      · simp only [if_neg h0, if_pos h1, if_pos hf, and_self]
      · by_cases hm : i.i_size ≠ 0 ∧ block < (img.inodes i.i_ino).data_block_count
        · simp only [if_neg h0, if_pos h1, if_neg hf, if_pos hm, and_self]
        · exact absurd ⟨h1, hf, hm⟩ hn
    · simp only [if_neg h0, if_neg h1, and_self]

theorem quickfs_get_block_alloc (img : Image) (i : inode) (block : Nat) (create : Int) (e : Nat)
    (h : get_block_allocates img i block create = true) (he : e < 16384)
    (hfree : first_free_bit img.data_bitmap NUM_DATA_BITMAP_BLOCKS = (e : Int)) :
    (quickfs_get_block img i block create).img =
      { img with
        data_bitmap := Function.update img.data_bitmap (e / 4096)
          (mark_bit (img.data_bitmap (e / 4096)) ((e % 4096 : Nat) : Int))
        inodes := Function.update img.inodes i.i_ino
          { img.inodes i.i_ino with
            data_blocks := Function.update (img.inodes i.i_ino).data_blocks i.i_blocks e }
        sb := { img.sb with
                data_blocks_free := dec_ulong img.sb.data_blocks_free } } ∧
      (quickfs_get_block img i block create).inode = { i with i_blocks := i.i_blocks + 1 } ∧
      (quickfs_get_block img i block create).ret = 0 ∧
      (quickfs_get_block img i block create).mapped = some ((FIRST_DATA_BLOCK_NUM : Int) + e) := by
  obtain ⟨h1, hf, hm'⟩ := (get_block_allocates_iff img i block create).mp h
  have e1 : to_short (e : Int) = (e : Int) := to_short_small e (by omega)
  have hN : ((8 * QUICKFS_BLOCK_SIZE : Nat) : Int) = ((4096 : Nat) : Int) := rfl
  have e2 : Int.tdiv (e : Int) ((4096 : Nat) : Int) = ((e / 4096 : Nat) : Int) :=
    (Int.ofNat_tdiv e 4096).symm
  have e3 : Int.tmod (e : Int) ((4096 : Nat) : Int) = ((e % 4096 : Nat) : Int) :=
    (Int.ofNat_tmod e 4096).symm
  have e4 : ((e : Int) % 65536).toNat = e := by omega
  unfold quickfs_get_block
  have h0 : create ≠ 0 := by omega
  simp only [if_neg h0, if_pos h1, if_neg hf, if_neg hm', hfree, e1, hN, e2, e3, e4,
    Int.toNat_ofNat, and_self]

theorem Inv_get_block (C : Nat) (s : FS) (ino block : Nat) (create : Int) (h : Inv C s) :
    Inv C (step s (Op.get_block ino block create)) := by
  cases hc : s.icache ino with
  | none => simp only [step, hc]; exact h
  | some i =>
    have hi : i.i_ino = ino := h.ino ino i hc
    subst hi
    have hcb : cached_blocks s i.i_ino = some i.i_blocks := by
      unfold cached_blocks; rw [hc]; exact rfl
    simp only [step, hc]
    cases ha : get_block_allocates s.disk i block create with
    | false =>
      obtain ⟨e1, e2⟩ := quickfs_get_block_idle s.disk i block create ha
      rw [e1, e2]
      refine ⟨?_, ino_update s i.i_ino _ h.ino rfl⟩
      rw [cached_blocks_update_same s _ i.i_ino i i hc rfl]
      exact h.disk
    | true =>
      have hf : s.disk.sb.data_blocks_free ≠ 0 :=
        ((get_block_allocates_iff s.disk i block create).mp ha).2.1
      rcases first_free_data_cases s.disk.data_bitmap h.disk.db_wf with
        ⟨_, hall⟩ | ⟨e, hr, he, h0, _⟩
      · exfalso
        apply hf
        rw [h.disk.s1, data_bits_clear_zero _ hall]
      · obtain ⟨e1, e2, _, _⟩ := quickfs_get_block_alloc s.disk i block create e ha he hr
        rw [e1, e2]
        refine ⟨?_, ino_update s i.i_ino _ h.ino rfl⟩
        rw [cached_blocks_update]
        simp only [Option.map_some']
        refine DiskInv_alloc_block C s.disk _ (cached_blocks s) i.i_ino i.i_blocks e h.disk hcb
          he h0 ?_ ?_ ?_ ?_ ?_ ?_ ?_ ?_
        · exact rfl
        · exact rfl
        · exact rfl
        · exact rfl
        · intro j hj
          exact Function.update_noteq hj _ _
        · simp only [Function.update_same]
        · simp only [Function.update_same]
        · simp only [Function.update_same]

theorem Inv_write_inode (C : Nat) (s : FS) (ino : Nat) (h : Inv C s) :
    Inv C (step s (Op.write_inode ino)) := by
  cases hc : s.icache ino with
  | none => simp only [step, hc]; exact h
  | some i =>
    have hi : i.i_ino = ino := h.ino ino i hc
    subst hi
    have hcb : cached_blocks s i.i_ino = some i.i_blocks := by
      unfold cached_blocks; rw [hc]; exact rfl
    have hlt : i.i_ino < 4096 := (h.disk.cached i.i_ino _ hcb).1
    simp only [step, hc]
    refine ⟨?_, h.ino⟩
    have hcbs : cached_blocks { disk := (quickfs_write_inode s.disk i).2, icache := s.icache }
        = cached_blocks s := rfl
    rw [hcbs]
    unfold quickfs_write_inode
    simp only [if_neg (show ¬ i.i_ino > 4095 by omega)]
    refine DiskInv_record C s.disk _ (cached_blocks s) i.i_ino h.disk ?_ ?_ ?_
      (fun j hj => Function.update_noteq hj _ _) ?_ ?_ ?_
    · exact rfl
    · exact rfl
    · exact rfl
    · simp only [Function.update_same]
    · simp only [Function.update_same]
    · intro n hn
      simp only [Function.update_same]
      rw [hcb] at hn
      cases Option.some.inj hn
      exact Nat.mod_le _ _

theorem Inv_delete_inode (C : Nat) (s : FS) (ino : Nat) (h : Inv C s) :
    Inv C (step s (Op.delete_inode ino)) := by
  cases hc : s.icache ino with
  | none => simp only [step, hc]; exact h
  | some i =>
    have hi : i.i_ino = ino := h.ino ino i hc
    subst hi
    have hcb : cached_blocks s i.i_ino = some i.i_blocks := by
      unfold cached_blocks; rw [hc]; exact rfl
    have hlt : i.i_ino < 4096 := (h.disk.cached i.i_ino _ hcb).1
    simp only [step, hc]
    refine ⟨?_, ?_⟩
    · rw [cached_blocks_update]
      simp only [Option.map_none']
      refine DiskInv_delete C s.disk _ (cached_blocks s) i.i_ino i.i_blocks h.disk hcb
        ?_ ?_ ?_ ?_ ?_
      · unfold quickfs_delete_inode
        simp only [to_int_small i.i_ino (by omega)]
      · exact rfl
      · exact rfl
      · exact rfl
      · exact rfl
    · intro j i' hj
      simp only at hj
      by_cases e : j = i.i_ino
      · rw [e, Function.update_same] at hj; exact absurd hj (by simp)
      · rw [Function.update_noteq e] at hj; exact h.ino j i' hj

theorem Inv_set_size (C : Nat) (s : FS) (ino size : Nat) (h : Inv C s) :
    Inv C (step s (Op.set_size ino size)) := by
  cases hc : s.icache ino with
  | none => simp only [step, hc]; exact h
  | some i =>
    have hi : i.i_ino = ino := h.ino ino i hc
    simp only [step, hc]
    refine ⟨?_, ino_update s ino _ h.ino hi⟩
    rw [cached_blocks_update_same s _ ino i { i with i_size := size } hc rfl]
    exact h.disk

/-- Every call the VFS can make preserves the invariant. -/
theorem Inv_step (C : Nat) (s : FS) (op : Op) (h : Inv C s) (hok : call_ok s op = true) :
    Inv C (step s op) := by
  cases op with
  | create d mode fsuid fsgid now => exact Inv_create C s d mode fsuid fsgid now h
  | link ino d now =>
    refine Inv_link C s ino d now h ?_
    simpa [call_ok] using hok
  | unlink ino d => exact Inv_unlink C s ino d h
  | get_block ino block create => exact Inv_get_block C s ino block create h
  | write_inode ino => exact Inv_write_inode C s ino h
  | delete_inode ino => exact Inv_delete_inode C s ino h
  | set_size ino size => exact Inv_set_size C s ino size h

/-- The invariant holds after every admissible sequence of calls. -/
theorem Inv_run (C : Nat) (ops : List Op) :
    ∀ s, Inv C s → admissible s ops = true → Inv C (run s ops) := by
  induction ops with
  | nil => intro s h _; exact h
  | cons op ops ih =>
    intro s h hadm
    simp only [admissible, Bool.and_eq_true] at hadm
    exact ih (step s op) (Inv_step C s op h hadm.1) hadm.2

/-! ### The freshly formatted, mounted image -/

/-- The bitmaps, superblock and root record of every image the formatter produces,
with `c` its data capacity. -/
theorem mkquickfs_image (env : FormatEnv) (img img' : Image) (size : Nat)
    (h : mkquickfs env img size = some img') :
    1 ≤ bytes_to_data_blocks size ∧
    (∀ i, i < 512 → img'.inode_bitmap i = if i = 0 then 0x80 else 0) ∧
    (∀ k, k < 4 → ∀ i, i < 512 → img'.data_bitmap k i < 256) ∧
    (∀ j, j < 16384 →
      data_bit img'.data_bitmap j = if (j : Int) < bytes_to_data_blocks size then 0 else 1) ∧
    img'.sb = write_superblock size ∧
    img'.inodes ROOT_INODE_NUM = write_root_inode env := by
  have hc : 1 ≤ bytes_to_data_blocks size := by
    by_contra hn
    unfold mkquickfs at h
    rw [if_pos (by omega)] at h
    exact absurd h (by simp)
  obtain ⟨bm, hbm, himg⟩ := mkquickfs_accepts env img size hc
  rw [himg] at h
  cases Option.some.inj h
  have hflat : ∀ k, k < 4 → ∀ i, i < 512 →
      (if k < NUM_DATA_BITMAP_BLOCKS then
        blit (fun i => bm (k * QUICKFS_BLOCK_SIZE + i)) QUICKFS_BLOCK_SIZE (img.data_bitmap k)
      else img.data_bitmap k) i = bm (k * 512 + i) := by
    intro k hk i hi
    rw [if_pos (show k < NUM_DATA_BITMAP_BLOCKS from hk)]
    unfold blit
    rw [if_pos (show i < QUICKFS_BLOCK_SIZE from hi)]
    exact rfl
  have hbits : ∀ j, j < 16384 →
      test_for_bit bm j = if (j : Int) < bytes_to_data_blocks size then 0 else 1 := by
    by_cases hbig : 16384 ≤ bytes_to_data_blocks size
    · obtain ⟨bm', h1, h2⟩ := write_data_bitmap_full env.stack_bitmap size hbig
      rw [hbm] at h1
      cases Option.some.inj h1
      intro j hj
      rw [if_pos (by omega)]
      unfold test_for_bit
      rw [h2 _ (by omega)]
      simp
    · obtain ⟨c, hcn⟩ : ∃ c : Nat, bytes_to_data_blocks size = (c : Int) :=
        ⟨(bytes_to_data_blocks size).toNat, by omega⟩
      obtain ⟨bm', h1, h2⟩ := write_data_bitmap_tail env.stack_bitmap size c hcn (by omega)
      rw [hbm] at h1
      cases Option.some.inj h1
      intro j hj
      rw [hcn, tail_bitmap_bits bm c h2 j hj]
      simp only [Nat.cast_lt]
  have hbyte : ∀ p, p < 2048 → bm p < 256 := by
    by_cases hbig : 16384 ≤ bytes_to_data_blocks size
    · obtain ⟨bm', h1, h2⟩ := write_data_bitmap_full env.stack_bitmap size hbig
      rw [hbm] at h1
      cases Option.some.inj h1
      intro p hp
      rw [h2 p hp]; decide
    · obtain ⟨c, hcn⟩ : ∃ c : Nat, bytes_to_data_blocks size = (c : Int) :=
        ⟨(bytes_to_data_blocks size).toNat, by omega⟩
      obtain ⟨bm', h1, h2⟩ := write_data_bitmap_tail env.stack_bitmap size c hcn (by omega)
      rw [hbm] at h1
      cases Option.some.inj h1
      intro p hp
      rw [h2 p hp]
      split_ifs
      · decide
      · rw [Nat.shiftRight_eq_div_pow]
        exact lt_of_le_of_lt (Nat.div_le_self _ _) (by decide)
      · decide
  refine ⟨hc, ?_, ?_, ?_, rfl, ?_⟩
  · intro i hi
    show blit _ QUICKFS_BLOCK_SIZE _ i = _
    unfold blit
    rw [if_pos (show i < QUICKFS_BLOCK_SIZE from hi), write_inode_bitmap_apply _ i hi]
  · intro k hk i hi
    dsimp only
    rw [hflat k hk i hi]
    exact hbyte _ (by omega)
  · intro j hj
    rw [← hbits j hj]
    unfold data_bit test_for_bit
    dsimp only
    rw [hflat (j / 4096) (by omega) (j % 4096 / 8) (by omega)]
    have e1 : j / 4096 * 512 + j % 4096 / 8 = j / 8 := by omega
    have e2 : j % 4096 % 8 = j % 8 := by omega
    rw [e1, e2]
  · show Function.update img.inodes ROOT_INODE_NUM (write_root_inode env) ROOT_INODE_NUM = _
    rw [Function.update_same]

theorem to_int_range (x : Int) : -2147483648 ≤ to_int x ∧ to_int x < 2147483648 := by
  unfold to_int
  split_ifs <;> omega

theorem bytes_to_data_blocks_lt (size : Nat) : bytes_to_data_blocks size < 2147483648 := by
  unfold bytes_to_data_blocks
  have hq : ((QUICKFS_BLOCK_SIZE : Nat) : Int) = 512 := rfl
  rw [hq]
  obtain ⟨_, h2⟩ := to_int_range (to_int (size : Int) - ((4102 * QUICKFS_BLOCK_SIZE : Nat) : Int))
  generalize to_int (to_int (size : Int) - ((4102 * QUICKFS_BLOCK_SIZE : Nat) : Int)) = x at h2
  by_cases hx : 0 ≤ x
  · rw [Int.tdiv_eq_ediv hx (by decide)]
    omega
  · have : Int.tdiv x 512 ≤ 0 := by
      have h := Int.tdiv_nonneg (a := -x) (b := 512) (by omega) (by decide)
      rw [Int.neg_tdiv] at h
      omega
    omega

theorem write_superblock_free (size : Nat) (c : Nat) (hc : bytes_to_data_blocks size = (c : Int)) :
    (write_superblock size).data_blocks_free = min c 16384 := by
  unfold write_superblock
  have hlt := bytes_to_data_blocks_lt size
  rw [hc] at hlt ⊢
  have hN : NUM_DATA_BITMAP_BLOCKS * QUICKFS_BLOCK_SIZE * 8 = 16384 := rfl
  have e : (((c : Nat) : Int) % (ULONG_MOD : Int)).toNat = c := by
    unfold ULONG_MOD
    omega
  simp only [e, hN]
  split_ifs with h <;> omega

theorem card_filter_lt (n m : Nat) :
    ((Finset.range n).filter (fun j => j < m)).card = min m n := by
  have e : (Finset.range n).filter (fun j => j < m) = Finset.range (min m n) := by
    ext j
    simp only [Finset.mem_filter, Finset.mem_range]
    omega
  rw [e, Finset.card_range]

theorem root_byte_bits : ∀ i, i < 8 →
    (if (128 % 256) &&& (0x80 >>> i) = 0 then 0 else 1) = if i = 0 then 1 else 0 := by
  decide

theorem root_bitmap_test (bh : Block) (h : ∀ i, i < 512 → bh i = if i = 0 then 0x80 else 0)
    (i : Nat) (hi : i < 4096) : test_for_bit bh i = if i = 0 then 1 else 0 := by
  unfold test_for_bit
  rw [h _ (by omega)]
  by_cases h8 : i / 8 = 0
  · rw [if_pos h8]
    have hi8 : i < 8 := by omega
    have e : i % 8 = i := Nat.mod_eq_of_lt hi8
    rw [e]
    exact root_byte_bits i hi8
  · rw [if_neg h8, if_neg (show ¬ i = 0 by omega)]
    simp

/-- A freshly formatted image, once mounted, satisfies the invariant, with its
free-block count as capacity. -/
theorem Inv_mounted (env : FormatEnv) (img img' : Image) (size : Nat)
    (h : mkquickfs env img size = some img') :
    Inv img'.sb.data_blocks_free (mounted img') := by
  obtain ⟨hc, hib, hdb, hbits, hsb, hroot⟩ := mkquickfs_image env img img' size h
  obtain ⟨c, hcn⟩ : ∃ c : Nat, bytes_to_data_blocks size = (c : Int) :=
    ⟨(bytes_to_data_blocks size).toNat, by omega⟩
  have hfree : img'.sb.data_blocks_free = min c 16384 := by
    rw [hsb]; exact write_superblock_free size c hcn
  have hifree : img'.sb.inodes_free = 4095 := by rw [hsb]; exact rfl
  have htest := root_bitmap_test img'.inode_bitmap hib
  have hcb : ∀ k, cached_blocks (mounted img') k = if k = 0 then some 0 else none := by
    intro k
    unfold cached_blocks mounted ROOT_INODE_NUM
    by_cases hk : k = 0
    · simp only [hk, if_true, Option.map_some', quickfs_read_inode]
      have := hroot
      unfold ROOT_INODE_NUM at this
      rw [this]
      exact rfl
    · simp only [hk, if_false, Option.map_none']
  have hcb0 : ∀ k n, cached_blocks (mounted img') k = some n → k = 0 ∧ n = 0 := by
    intro k n hk
    rw [hcb] at hk
    by_cases e : k = 0
    · rw [if_pos e] at hk
      exact ⟨e, (Option.some.inj hk).symm⟩
    · rw [if_neg e] at hk
      exact absurd hk (by simp)
  have hl : (img'.inodes 0).link = -1 ∧ (img'.inodes 0).data_block_count = 0 := by
    have := hroot
    unfold ROOT_INODE_NUM at this
    rw [this]
    exact ⟨rfl, rfl⟩
  refine ⟨show DiskInv _ img' _ from ?_, ?_⟩
  · exact
      { cap := by rw [hfree]; omega
        ib_wf := by
          intro i hi
          rw [hib i hi]
          split_ifs <;> decide
        db_wf := hdb
        p1 := by
          rw [hifree]
          have e : inode_bits_set img'.inode_bitmap = 1 := by
            unfold inode_bits_set
            have e1 : (Finset.range 4096).filter (fun i => test_for_bit img'.inode_bitmap i = 1)
                = {0} := by
              ext j
              simp only [Finset.mem_filter, Finset.mem_range, Finset.mem_singleton]
              constructor
              · rintro ⟨hj, ht⟩
                rw [htest j hj] at ht
                by_contra hne
                rw [if_neg hne] at ht
                exact absurd ht (by decide)
              · intro hj
                subst hj
                exact ⟨by decide, by rw [htest 0 (by decide)]; exact rfl⟩
            rw [e1, Finset.card_singleton]
          rw [e]
        s1 := by
          rw [hfree]
          unfold data_bits_clear
          have e1 : (Finset.range 16384).filter (fun j => data_bit img'.data_bitmap j = 0)
              = (Finset.range 16384).filter (fun j => j < c) := by
            apply Finset.filter_congr
            intro j hj
            rw [hbits j (Finset.mem_range.mp hj), hcn]
            simp only [Nat.cast_lt]
            split_ifs with hlt
            · simp [hlt]
            · simp [hlt]
          rw [e1, card_filter_lt]
        cached := by
          intro k n hk
          obtain ⟨e, en⟩ := hcb0 k n hk
          subst e; subst en
          refine ⟨by decide, ?_, hl.1, by rw [hl.2]⟩
          rw [htest 0 (by decide)]; exact rfl
        own_set := by
          intro k n p hk hp
          obtain ⟨_, en⟩ := hcb0 k n hk
          omega
        own_inj := by
          intro k n p k' n' p' hk _ hp
          obtain ⟨_, en⟩ := hcb0 k n hk
          omega
        real_cached := by
          intro k hk hbit _
          rw [htest k hk] at hbit
          by_cases e : k = 0
          · rw [hcb, if_pos e]; simp
          · rw [if_neg e] at hbit
            exact absurd hbit (by decide)
        budget := by
          have e : (∑ k ∈ Finset.range 4096, (cached_blocks (mounted img') k).getD 0) = 0 := by
            apply Finset.sum_eq_zero
            intro k _
            rw [hcb]
            split_ifs <;> rfl
          rw [e]
          omega }
  · intro k i hk
    unfold mounted ROOT_INODE_NUM at hk
    simp only at hk
    by_cases e : k = 0
    · rw [if_pos e] at hk
      rw [← Option.some.inj hk, e]
      exact rfl
    · rw [if_neg e] at hk
      exact absurd hk (by simp)

/-! ### Invariants of the free counters (S1, P1, P2) -/

theorem fresh_image_eq : mkquickfs example_env blank_image 8388608 = some fresh_image := by
  obtain ⟨bm, _, h⟩ := mkquickfs_accepts example_env blank_image 8388608 (by decide)
  unfold fresh_image
  rw [h]
  exact rfl

/-- Invariant S1 along the runs that stay inside the block array: in the state
produced by the formatter, and in every state reached from it by a sequence of calls
(block-mapper calls with either value of `create`, `write_inode` and `delete_inode`
among them) in which every allocating block-mapper call finds `i_blocks < 104`, the
superblock's `data_blocks_free` equals the number of cleared bits in the 16384-bit
data bitmap. Runs with an allocating call at `i_blocks ≥ 104` are not covered. -/
theorem data_blocks_free_counts_clear_bits (env : FormatEnv) (img img' : Image) (size : Nat)
    (ops : List Op) (hfmt : mkquickfs env img size = some img')
    (hadm : admissible (mounted img') ops = true) :
    img'.sb.data_blocks_free = data_bits_clear img'.data_bitmap ∧
    (run (mounted img') ops).disk.sb.data_blocks_free =
      data_bits_clear (run (mounted img') ops).disk.data_bitmap := by
  have h0 : Inv img'.sb.data_blocks_free (mounted img') := Inv_mounted env img img' size hfmt
  have h1 := Inv_run img'.sb.data_blocks_free ops (mounted img') h0 hadm
  exact ⟨h0.disk.s1, h1.disk.s1⟩

set_option maxRecDepth 1000000 in
theorem data_blocks_free_counts_clear_bits_witness :
    admissible (mounted fresh_image) ops_create_map_delete = true ∧
    fresh_image.sb.data_blocks_free = data_bits_clear fresh_image.data_bitmap ∧
    (run (mounted fresh_image) ops_create_map_delete).disk.sb.data_blocks_free =
      data_bits_clear (run (mounted fresh_image) ops_create_map_delete).disk.data_bitmap :=
  ⟨by decide,
    data_blocks_free_counts_clear_bits example_env blank_image fresh_image 8388608
      ops_create_map_delete fresh_image_eq (by decide)⟩

/-- C7 (P1): starting from a freshly formatted image, after any sequence of calls
the VFS can make (create, link and unlink among them, successful or failing), the
superblock's `inodes_free` equals 4096 minus the number of set bits in the inode
bitmap. -/
theorem inodes_free_counts_clear_bits (env : FormatEnv) (img img' : Image) (size : Nat)
    (ops : List Op) (hfmt : mkquickfs env img size = some img')
    (hadm : admissible (mounted img') ops = true) :
    (run (mounted img') ops).disk.sb.inodes_free =
      4096 - inode_bits_set (run (mounted img') ops).disk.inode_bitmap := by
  have h0 : Inv img'.sb.data_blocks_free (mounted img') := Inv_mounted env img img' size hfmt
  have h1 := (Inv_run img'.sb.data_blocks_free ops (mounted img') h0 hadm).disk.p1
  omega

set_option maxRecDepth 1000000 in
theorem inodes_free_counts_clear_bits_witness :
    admissible (mounted fresh_image) ops_create_link_unlink = true ∧
    (run (mounted fresh_image) ops_create_link_unlink).disk.sb.inodes_free =
      4096 - inode_bits_set (run (mounted fresh_image) ops_create_link_unlink).disk.inode_bitmap :=
  ⟨by decide,
    inodes_free_counts_clear_bits example_env blank_image fresh_image 8388608
      ops_create_link_unlink fresh_image_eq (by decide)⟩

theorem real_block_sum_le (C : Nat) (img : Image) (cb : Nat → Option Nat)
    (h : DiskInv C img cb) :
    real_block_sum img ≤ ∑ k ∈ Finset.range 4096, (cb k).getD 0 := by
  unfold real_block_sum
  apply Finset.sum_le_sum
  intro k hk
  have hk4 : k < 4096 := Finset.mem_range.mp hk
  split_ifs with hc
  · cases hcb : cb k with
    | none => exact absurd hcb (h.real_cached k hk4 hc.1 hc.2)
    | some n => exact (h.cached k n hcb).2.2.2
  · exact Nat.zero_le _

theorem fresh_image_inodes :
    fresh_image.inodes = Function.update blank_image.inodes ROOT_INODE_NUM
      (write_root_inode example_env) := by
  obtain ⟨bm, _, h⟩ := mkquickfs_accepts example_env blank_image 8388608 (by decide)
  rw [fresh_image_eq] at h
  rw [Option.some.inj h]

theorem quickfs_create_counts (img : Image) (d : dentry) (mode fsuid fsgid now : Nat)
    (h : ∀ k, (img.inodes k).data_block_count = 0) :
    ∀ k, ((quickfs_create img d mode fsuid fsgid now).2.1.inodes k).data_block_count = 0 := by
  intro k
  unfold quickfs_create
  by_cases hf : first_free_bit (fun _ => img.inode_bitmap) NUM_INODE_BITMAP_BLOCKS < 0
  · simp only [if_pos hf]
    exact h k
  · simp only [if_neg hf]
    by_cases e : k = (first_free_bit (fun _ => img.inode_bitmap) NUM_INODE_BITMAP_BLOCKS).toNat
    · rw [e, Function.update_same]
    · rw [Function.update_noteq e]
      exact h k

/-- The block mapper never changes an on-disk `data_block_count`. -/
theorem quickfs_get_block_counts (img : Image) (i : inode) (block : Nat) (create : Int) (k : Nat) :
    ((quickfs_get_block img i block create).img.inodes k).data_block_count =
      (img.inodes k).data_block_count := by
  cases ha : get_block_allocates img i block create with
  | false => rw [(quickfs_get_block_idle img i block create ha).1]
  | true =>
    obtain ⟨h1, hf, hm⟩ := (get_block_allocates_iff img i block create).mp ha
    have h0 : create ≠ 0 := by omega
    unfold quickfs_get_block
    simp only [if_neg h0, if_pos h1, if_neg hf, if_neg hm]
    by_cases e : k = i.i_ino
    · rw [e, Function.update_same]
    · rw [Function.update_noteq e]

theorem real_block_sum_zero (img : Image) (h : ∀ k, (img.inodes k).data_block_count = 0) :
    real_block_sum img = 0 := by
  unfold real_block_sum
  apply Finset.sum_eq_zero
  intro k _
  rw [h k, ite_self]

set_option maxRecDepth 1000000 in
/-- C8 (P2 as stated, refuted): on the formatted 8,388,608-byte image (capacity
12,282), after creating a file and mapping its first block for writing, the
superblock's `data_blocks_free` plus the on-disk block counts of the allocated real
inodes is 12,281: the block has left the free count, and the record's
`data_block_count` is still 0 until `write_inode` runs. -/
theorem free_plus_counts_drops_on_allocation :
    admissible (mounted fresh_image) ops_create_map = true ∧
    fresh_image.sb.data_blocks_free + real_block_sum fresh_image = 12282 ∧
    (run (mounted fresh_image) ops_create_map).disk.sb.data_blocks_free +
      real_block_sum (run (mounted fresh_image) ops_create_map).disk = 12281 := by
  have c0 : ∀ k, (fresh_image.inodes k).data_block_count = 0 := by
    intro k
    rw [fresh_image_inodes]
    by_cases hk : k = ROOT_INODE_NUM
    · rw [hk, Function.update_same]; exact rfl
    · rw [Function.update_noteq hk]; exact rfl
  have c1 : ∀ k, (((step (mounted fresh_image) (Op.create n_hello 0o644 1000 1000 5)).disk).inodes
      k).data_block_count = 0 := by
    intro k
    have := quickfs_create_counts fresh_image n_hello 0o644 1000 1000 5 c0 k
    unfold step
    generalize quickfs_create (mounted fresh_image).disk n_hello 0o644 1000 1000 5 = r at this ⊢
    obtain ⟨r1, r2, r3⟩ := r
    cases r3 <;> exact this
  have c2 : ∀ k, ((run (mounted fresh_image) ops_create_map).disk.inodes k).data_block_count
      = 0 := by
    intro k
    show ((step (step (mounted fresh_image) (Op.create n_hello 0o644 1000 1000 5))
      (Op.get_block 1 0 1)).disk.inodes k).data_block_count = 0
    generalize step (mounted fresh_image) (Op.create n_hello 0o644 1000 1000 5) = s1 at c1 ⊢
    cases hc : s1.icache 1 with
    | none => simp only [step, hc]; exact c1 k
    | some i =>
      simp only [step, hc]
      rw [quickfs_get_block_counts]
      exact c1 k
  refine ⟨by decide, ?_, ?_⟩
  · rw [real_block_sum_zero fresh_image c0]
    decide
  · rw [real_block_sum_zero _ c2]
    decide

/-- C8 (P2, amended): starting from a freshly formatted image of data capacity `C`
(its initial `data_blocks_free`), after any sequence of create, link, unlink,
block-mapper, `write_inode` and `delete_inode` calls (and size updates) in which no
hard link is made to the root directory and every allocating block-mapper call finds
fewer than 104 blocks in its inode (`admissible`), the superblock's
`data_blocks_free` plus the sum of the on-disk `data_block_count` over all allocated
real inodes is at most `C`; it equals `C` on the fresh image. -/
theorem free_plus_counts_le_capacity (env : FormatEnv) (img img' : Image) (size : Nat)
    (ops : List Op) (hfmt : mkquickfs env img size = some img')
    (hadm : admissible (mounted img') ops = true) :
    img'.sb.data_blocks_free + real_block_sum img' = img'.sb.data_blocks_free ∧
    (run (mounted img') ops).disk.sb.data_blocks_free +
      real_block_sum (run (mounted img') ops).disk ≤ img'.sb.data_blocks_free := by
  have h0 : Inv img'.sb.data_blocks_free (mounted img') := Inv_mounted env img img' size hfmt
  have h1 := (Inv_run img'.sb.data_blocks_free ops (mounted img') h0 hadm).disk
  have b0 := h0.disk.budget
  have b1 := h1.budget
  have s0 := real_block_sum_le _ _ _ h0.disk
  have s1 := real_block_sum_le _ _ _ h1
  have hd : (mounted img').disk = img' := rfl
  rw [hd] at b0 s0
  exact ⟨by omega, by omega⟩

set_option maxRecDepth 1000000 in
theorem free_plus_counts_le_capacity_witness :
    admissible (mounted fresh_image) ops_create_map_delete = true ∧
    fresh_image.sb.data_blocks_free + real_block_sum fresh_image =
      fresh_image.sb.data_blocks_free ∧
    (run (mounted fresh_image) ops_create_map_delete).disk.sb.data_blocks_free +
      real_block_sum (run (mounted fresh_image) ops_create_map_delete).disk ≤
        fresh_image.sb.data_blocks_free :=
  ⟨by decide,
    free_plus_counts_le_capacity example_env blank_image fresh_image 8388608
      ops_create_map_delete fresh_image_eq (by decide)⟩

/-! ### Lookup: the length check and the name compared -/

theorem quickfs_lookup_too_long (img : Image) (d : dentry) (h : d.d_name.length > MAX_NAME_LENGTH) :
    quickfs_lookup img d = lookup_result.error (-ENAMETOOLONG) := by
  unfold quickfs_lookup
  rw [if_pos h]

/-- C13: a name of 256 bytes is longer than 255 bytes, yet `quickfs_lookup` does not
fail with `-ENAMETOOLONG` for it, on any image and whatever the inline buffer holds:
the check is `d_name.len > MAX_NAME_LENGTH` with `MAX_NAME_LENGTH = 256`, so the call
goes on to scan the inode bitmap. On the freshly formatted image it reports "not
found". Names of 257 bytes and more are refused. -/
theorem quickfs_lookup_accepts_256_bytes :
    name_256.length = 256 ∧
    (∀ (img : Image) (d_iname : List Nat),
      quickfs_lookup img { d_name := name_256, d_iname := d_iname } =
        match lookup_scan img d_iname 4096 0 with
        | some ino => lookup_result.bound ino
        | none => lookup_result.not_found) ∧
    (∀ (img : Image) (d_iname : List Nat),
      quickfs_lookup img { d_name := name_256, d_iname := d_iname } ≠
        lookup_result.error (-ENAMETOOLONG)) ∧
    (∀ (img : Image) (d_iname : List Nat),
      quickfs_lookup img { d_name := 97 :: name_256, d_iname := d_iname } =
        lookup_result.error (-ENAMETOOLONG)) := by
  have hl : name_256.length = 256 := by
    unfold name_256
    exact List.length_replicate 256 97
  have h1 : ∀ (img : Image) (d_iname : List Nat),
      quickfs_lookup img { d_name := name_256, d_iname := d_iname } =
        match lookup_scan img d_iname 4096 0 with
        | some ino => lookup_result.bound ino
        | none => lookup_result.not_found := by
    intro img d_iname
    have hn : ¬ name_256.length > MAX_NAME_LENGTH := by
      rw [hl]
      decide
    unfold quickfs_lookup
    exact if_neg hn
  refine ⟨hl, h1, ?_, ?_⟩
  · intro img d_iname
    rw [h1]
    cases lookup_scan img d_iname 4096 0 <;> simp
  · intro img d_iname
    apply quickfs_lookup_too_long
    show (97 :: name_256).length > MAX_NAME_LENGTH
    rw [List.length_cons, hl]
    decide

/-! ### Mount -/

/-- C14 (counterexample): the blank image has magic 0, not 0xFEEDD0BB, and
`quickfs_fill_super` returns 0 (success) on it. -/
theorem fill_super_accepts_wrong_magic :
    blank_image.sb.magic_number ≠ MAGIC_NUMBER ∧ (quickfs_fill_super blank_image).1 = 0 := by
  constructor
  · decide
  · rfl

/-- C14 (amended): `quickfs_fill_super` does not inspect the magic number. On every
image it returns 0, copies the three superblock fields of block 0 as they are into
its private superblock, sets the VFS magic `s_magic` to 0xFEEDD0BB itself, sets the
block size to 512 and the maximal file size to 104 * 512, and anchors inode 0. -/
theorem fill_super_ignores_magic (img : Image) :
    (quickfs_fill_super img).1 = 0 ∧
    (quickfs_fill_super img).2.s_fs_info.magic_number = img.sb.magic_number ∧
    (quickfs_fill_super img).2.s_fs_info.data_blocks_free = img.sb.data_blocks_free ∧
    (quickfs_fill_super img).2.s_fs_info.inodes_free = img.sb.inodes_free ∧
    (quickfs_fill_super img).2.s_magic = 0xFEEDD0BB ∧
    (quickfs_fill_super img).2.s_blocksize = 512 ∧
    (quickfs_fill_super img).2.s_maxbytes = 104 * 512 ∧
    (quickfs_fill_super img).2.s_root = quickfs_read_inode img 0 :=
  ⟨rfl, rfl, rfl, rfl, rfl, rfl, rfl, rfl⟩

/-! ### The block mapper, call by call -/

theorem get_block_alloc_spec (img : Image) (i : inode) (block : Nat) (create : Int)
    (hwf : ∀ k, k < 4 → ∀ b, b < 512 → img.data_bitmap k b < 256)
    (h : get_block_allocates img i block create = true)
    (hclear : ∃ j, j < 16384 ∧ data_bit img.data_bitmap j = 0) :
    ∃ e, e < 16384 ∧ data_bit img.data_bitmap e = 0 ∧
      (∀ j, j < e → data_bit img.data_bitmap j = 1) ∧
      (quickfs_get_block img i block create).ret = 0 ∧
      (quickfs_get_block img i block create).mapped = some ((FIRST_DATA_BLOCK_NUM : Int) + e) ∧
      (∀ j, data_bit (quickfs_get_block img i block create).img.data_bitmap j =
        if j = e then 1 else data_bit img.data_bitmap j) ∧
      (quickfs_get_block img i block create).img.sb.data_blocks_free + 1 =
        img.sb.data_blocks_free ∧
      (quickfs_get_block img i block create).inode = { i with i_blocks := i.i_blocks + 1 } ∧
      (quickfs_get_block img i block create).img.inodes =
        Function.update img.inodes i.i_ino
          { img.inodes i.i_ino with
            data_blocks := Function.update (img.inodes i.i_ino).data_blocks i.i_blocks e } ∧
      (quickfs_get_block img i block create).img.inode_bitmap = img.inode_bitmap ∧
      (quickfs_get_block img i block create).img.sb.inodes_free = img.sb.inodes_free := by
  obtain ⟨j0, hj0, hj0c⟩ := hclear
  rcases first_free_data_cases img.data_bitmap hwf with ⟨_, hall⟩ | ⟨e, hfree, he, h0, hlow⟩
  · have := hall j0 hj0
    omega
  · obtain ⟨himg, hino, hret, hmap⟩ := quickfs_get_block_alloc img i block create e h he hfree
    obtain ⟨_, hf, _⟩ := (get_block_allocates_iff img i block create).mp h
    refine ⟨e, he, h0, hlow, hret, hmap, ?_, ?_, hino, ?_, ?_, ?_⟩
    · intro j
      rw [himg]
      exact data_bit_mark img.data_bitmap e (hwf _ (by omega) _ (by omega)) j
    · rw [himg]
      show dec_ulong img.sb.data_blocks_free + 1 = img.sb.data_blocks_free
      unfold dec_ulong
      rw [if_neg hf]
      omega
    · rw [himg]
    · rw [himg]
    · rw [himg]

theorem quickfs_get_block_dirty (img : Image) (i : inode) (block : Nat) (create : Int)
    (h : get_block_allocates img i block create = true) :
    (quickfs_get_block img i block create).dirty = [0, 6 + i.i_ino] := by
  obtain ⟨h1, hf, hm⟩ := (get_block_allocates_iff img i block create).mp h
  have h0 : create ≠ 0 := by omega
  unfold quickfs_get_block
  simp only [if_neg h0, if_pos h1, if_neg hf, if_neg hm]

theorem quickfs_get_block_no_space (img : Image) (i : inode) (block : Nat)
    (h : img.sb.data_blocks_free = 0) :
    (quickfs_get_block img i block 1).ret = -ENOSPC ∧
    (quickfs_get_block img i block 1).img = img ∧
    (quickfs_get_block img i block 1).inode = i ∧
    (quickfs_get_block img i block 1).mapped = none := by
  unfold quickfs_get_block
  rw [if_neg (by decide), if_pos rfl, if_pos h]
  exact ⟨rfl, rfl, rfl, rfl⟩

theorem quickfs_get_block_full_bitmap (C : Nat) (img : Image) (cb : Nat → Option Nat)
    (h : DiskInv C img cb) (i : inode) (block : Nat)
    (hfull : ∀ j, j < 16384 → data_bit img.data_bitmap j = 1) :
    (quickfs_get_block img i block 1).ret = -ENOSPC ∧
    (quickfs_get_block img i block 1).img = img ∧
    (quickfs_get_block img i block 1).inode = i ∧
    (quickfs_get_block img i block 1).mapped = none := by
  apply quickfs_get_block_no_space
  rw [h.s1]
  exact data_bits_clear_zero img.data_bitmap hfull

/-! ### Facts about the fresh 8 MiB image and the image with "hello" created -/

theorem fresh_Inv : Inv fresh_image.sb.data_blocks_free (mounted fresh_image) :=
  Inv_mounted example_env blank_image fresh_image 8388608 fresh_image_eq

theorem fresh_data_bit (j : Nat) (hj : j < 16384) :
    data_bit fresh_image.data_bitmap j = if j < 12282 then 0 else 1 := by
  obtain ⟨_, _, _, hbits, _, _⟩ :=
    mkquickfs_image example_env blank_image fresh_image 8388608 fresh_image_eq
  rw [hbits j hj]
  have hc : bytes_to_data_blocks 8388608 = ((12282 : Nat) : Int) := by decide
  rw [hc]
  by_cases h : j < 12282
  · rw [if_pos h, if_pos (by omega)]
  · rw [if_neg h, if_neg (by omega)]

theorem fresh_data_wf : ∀ k, k < 4 → ∀ b, b < 512 → fresh_image.data_bitmap k b < 256 :=
  fresh_Inv.disk.db_wf

set_option maxRecDepth 100000 in
theorem image_hello_data_bitmap : image_hello.data_bitmap = fresh_image.data_bitmap := rfl

set_option maxRecDepth 100000 in
theorem image_hello_allocates : get_block_allocates image_hello inode_hello 0 1 = true := by
  decide

/-- C16 (P7): a block-mapper call with `create = 1` that takes the allocating path
(`data_blocks_free > 0`, logical block not already mapped), on a data bitmap that has
a clear bit, returns 0 and maps physical block 4102 + j, where j is the lowest clear
bit of the 16384-bit data bitmap before the call; afterwards bit j is set, every other
bit is as before, and `data_blocks_free` is smaller by exactly 1. -/
theorem get_block_allocates_lowest_free (img : Image) (i : inode) (block : Nat)
    (hwf : ∀ k, k < 4 → ∀ b, b < 512 → img.data_bitmap k b < 256)
    (hfree : img.sb.data_blocks_free > 0)
    (hunmapped : ¬ (i.i_size ≠ 0 ∧ block < (img.inodes i.i_ino).data_block_count))
    (hclear : ∃ j, j < 16384 ∧ data_bit img.data_bitmap j = 0) :
    ∃ j, j < 16384 ∧ data_bit img.data_bitmap j = 0 ∧
      (∀ j', j' < j → data_bit img.data_bitmap j' = 1) ∧
      (quickfs_get_block img i block 1).ret = 0 ∧
      (quickfs_get_block img i block 1).mapped = some (4102 + (j : Int)) ∧
      data_bit (quickfs_get_block img i block 1).img.data_bitmap j = 1 ∧
      (∀ j', j' ≠ j →
        data_bit (quickfs_get_block img i block 1).img.data_bitmap j' =
          data_bit img.data_bitmap j') ∧
      (quickfs_get_block img i block 1).img.sb.data_blocks_free + 1 =
        img.sb.data_blocks_free := by
  have h : get_block_allocates img i block 1 = true :=
    (get_block_allocates_iff img i block 1).mpr ⟨rfl, by omega, hunmapped⟩
  obtain ⟨e, he, h0, hlow, hret, hmap, hbits, hfr, _⟩ :=
    get_block_alloc_spec img i block 1 hwf h hclear
  refine ⟨e, he, h0, hlow, hret, hmap, ?_, ?_, hfr⟩
  · rw [hbits e, if_pos rfl]
  · intro j' hj'
    rw [hbits j', if_neg hj']

set_option maxRecDepth 100000 in
theorem get_block_allocates_lowest_free_witness :
    ∃ j, j < 16384 ∧ data_bit image_hello.data_bitmap j = 0 ∧
      (∀ j', j' < j → data_bit image_hello.data_bitmap j' = 1) ∧
      (quickfs_get_block image_hello inode_hello 0 1).ret = 0 ∧
      (quickfs_get_block image_hello inode_hello 0 1).mapped = some (4102 + (j : Int)) ∧
      data_bit (quickfs_get_block image_hello inode_hello 0 1).img.data_bitmap j = 1 ∧
      (∀ j', j' ≠ j →
        data_bit (quickfs_get_block image_hello inode_hello 0 1).img.data_bitmap j' =
          data_bit image_hello.data_bitmap j') ∧
      (quickfs_get_block image_hello inode_hello 0 1).img.sb.data_blocks_free + 1 =
        image_hello.sb.data_blocks_free :=
  get_block_allocates_lowest_free image_hello inode_hello 0
    (by rw [image_hello_data_bitmap]; exact fresh_data_wf) (by decide)
    (fun h => h.1 rfl)
    ⟨0, by decide, by rw [image_hello_data_bitmap, fresh_data_bit 0 (by decide)]; rfl⟩

/-- C21: every block-mapper call with `create = 1` that allocates sets one bit j of the
data bitmap, which changes block 2 + j / 4096 of the device, and passes to
`mark_buffer_dirty` exactly block 0 (the superblock) and block 6 + ino (the inode's
record): the data-bitmap block that holds the newly set bit is not marked dirty. -/
theorem get_block_leaves_bitmap_block_clean (img : Image) (i : inode) (block : Nat)
    (hwf : ∀ k, k < 4 → ∀ b, b < 512 → img.data_bitmap k b < 256)
    (h : get_block_allocates img i block 1 = true)
    (hclear : ∃ j, j < 16384 ∧ data_bit img.data_bitmap j = 0) :
    ∃ j, j < 16384 ∧ data_bit img.data_bitmap j = 0 ∧
      data_bit (quickfs_get_block img i block 1).img.data_bitmap j = 1 ∧
      (quickfs_get_block img i block 1).img.data_bitmap (j / 4096) ≠ img.data_bitmap (j / 4096) ∧
      (quickfs_get_block img i block 1).dirty = [0, 6 + i.i_ino] ∧
      2 + j / 4096 ∉ (quickfs_get_block img i block 1).dirty := by
  obtain ⟨e, he, h0, _, _, _, hbits, _⟩ := get_block_alloc_spec img i block 1 hwf h hclear
  have h1 : data_bit (quickfs_get_block img i block 1).img.data_bitmap e = 1 := by
    rw [hbits e, if_pos rfl]
  refine ⟨e, he, h0, h1, ?_, quickfs_get_block_dirty img i block 1 h, ?_⟩
  · intro heq
    unfold data_bit at h0 h1
    rw [heq, h0] at h1
    exact absurd h1 (by decide)
  · rw [quickfs_get_block_dirty img i block 1 h]
    simp only [List.mem_cons, List.mem_singleton, List.not_mem_nil, or_false, not_or]
    constructor <;> omega

theorem get_block_leaves_bitmap_block_clean_witness :
    ∃ j, j < 16384 ∧ data_bit image_hello.data_bitmap j = 0 ∧
      data_bit (quickfs_get_block image_hello inode_hello 0 1).img.data_bitmap j = 1 ∧
      (quickfs_get_block image_hello inode_hello 0 1).img.data_bitmap (j / 4096) ≠
        image_hello.data_bitmap (j / 4096) ∧
      (quickfs_get_block image_hello inode_hello 0 1).dirty = [0, 6 + inode_hello.i_ino] ∧
      2 + j / 4096 ∉ (quickfs_get_block image_hello inode_hello 0 1).dirty :=
  get_block_leaves_bitmap_block_clean image_hello inode_hello 0
    (by rw [image_hello_data_bitmap]; exact fresh_data_wf) image_hello_allocates
    ⟨0, by decide, by rw [image_hello_data_bitmap, fresh_data_bit 0 (by decide)]; rfl⟩

set_option maxRecDepth 100000 in
/-- C17: on an image whose data bitmap has no clear bit while the superblock still
counts one free data block, `quickfs_get_block(inode 1, 0, create = 1)` does not fail:
`first_free_bit` returns -1, which is used unchecked. The call returns 0, maps block
4102 - 1 = 4101 (the last block of the inode table), stores 65535 in the inode's
block list, raises `i_blocks` to 1 and lowers `data_blocks_free` to 0. -/
theorem get_block_ignores_full_bitmap :
    (∀ j, j < 16384 → data_bit image_stale_counter.data_bitmap j = 1) ∧
    image_stale_counter.sb.data_blocks_free = 1 ∧
    (quickfs_get_block image_stale_counter inode_hello 0 1).ret = 0 ∧
    (quickfs_get_block image_stale_counter inode_hello 0 1).mapped = some 4101 ∧
    (quickfs_get_block image_stale_counter inode_hello 0 1).img.sb.data_blocks_free = 0 ∧
    ((quickfs_get_block image_stale_counter inode_hello 0 1).img.inodes 1).data_blocks 0 =
      65535 ∧
    (quickfs_get_block image_stale_counter inode_hello 0 1).inode.i_blocks = 1 := by
  refine ⟨?_, by decide, ?_, ?_, ?_, ?_, ?_⟩
  · intro j _
    unfold data_bit test_for_bit
    show (if (255 % 256 &&& (0x80 >>> ((j % 4096) % 8))) = 0 then 0 else 1) = 1
    have : (j % 4096) % 8 < 8 := Nat.mod_lt _ (by decide)
    interval_cases ((j % 4096) % 8) <;> decide
  all_goals decide

theorem data_bits_clear_pos (dbm : Nat → Block) (h : data_bits_clear dbm ≠ 0) :
    ∃ j, j < 16384 ∧ data_bit dbm j = 0 := by
  unfold data_bits_clear at h
  obtain ⟨j, hj⟩ := Finset.card_pos.mp (Nat.pos_of_ne_zero h)
  rw [Finset.mem_filter, Finset.mem_range] at hj
  exact ⟨j, hj⟩

set_option maxRecDepth 1000000 in
/-- C22: create "hello" on the fresh 8 MiB image and rewrite it from scratch 104
times (each round maps block 0 of the then empty file for writing, which allocates a
further block). Every call so far stays inside `data_blocks[104]`, and the inode then
counts 104 blocks. The next such call allocates again, with no check of the count: it
stores the block number at index 104, past the end of the 104-entry array, and raises
the block count to 105, which `write_inode` then writes to disk. -/
theorem get_block_stores_past_the_array :
    admissible (mounted fresh_image) (ops_rewrite 104) = true ∧
    ∃ i, (run (mounted fresh_image) (ops_rewrite 104)).icache 1 = some i ∧
      i.i_blocks = 104 ∧
      get_block_allocates (run (mounted fresh_image) (ops_rewrite 104)).disk i 0 1 = true ∧
      (quickfs_get_block (run (mounted fresh_image) (ops_rewrite 104)).disk i 0 1).ret = 0 ∧
      (∃ e, (quickfs_get_block (run (mounted fresh_image) (ops_rewrite 104)).disk i 0 1).img.inodes
          = Function.update (run (mounted fresh_image) (ops_rewrite 104)).disk.inodes 1
            { (run (mounted fresh_image) (ops_rewrite 104)).disk.inodes 1 with
              data_blocks :=
                Function.update
                  ((run (mounted fresh_image) (ops_rewrite 104)).disk.inodes 1).data_blocks
                  104 e }) ∧
      (quickfs_get_block (run (mounted fresh_image) (ops_rewrite 104)).disk i 0 1).inode.i_blocks
        = 105 ∧
      ((quickfs_write_inode
          (quickfs_get_block (run (mounted fresh_image) (ops_rewrite 104)).disk i 0 1).img
          (quickfs_get_block (run (mounted fresh_image) (ops_rewrite 104)).disk i 0 1).inode).2.inodes
        1).data_block_count = 105 := by
  have hadm : admissible (mounted fresh_image) (ops_rewrite 104) = true := by decide
  have hI := Inv_run _ (ops_rewrite 104) _ fresh_Inv hadm
  have hc : ((run (mounted fresh_image) (ops_rewrite 104)).icache 1).isSome = true := by decide
  obtain ⟨i, hi⟩ := Option.isSome_iff_exists.mp hc
  have hb : ((run (mounted fresh_image) (ops_rewrite 104)).icache 1).map
      (fun i => (i.i_ino, i.i_blocks, i.i_size)) = some (1, 104, 0) := by decide
  rw [hi] at hb
  have hb' := Option.some.inj hb
  have h1 : i.i_ino = 1 := congrArg Prod.fst hb'
  have h2 : i.i_blocks = 104 := congrArg (fun p => p.2.1) hb'
  have h3 : i.i_size = 0 := congrArg (fun p => p.2.2) hb'
  have hfree : (run (mounted fresh_image) (ops_rewrite 104)).disk.sb.data_blocks_free ≠ 0 := by
    decide
  generalize run (mounted fresh_image) (ops_rewrite 104) = s at hI hi hfree ⊢
  have hall : get_block_allocates s.disk i 0 1 = true :=
    (get_block_allocates_iff s.disk i 0 1).mpr ⟨rfl, hfree, fun h => h.1 h3⟩
  have hcl : ∃ j, j < 16384 ∧ data_bit s.disk.data_bitmap j = 0 :=
    data_bits_clear_pos _ (by rw [← hI.disk.s1]; exact hfree)
  obtain ⟨e, _, _, _, hret, _, _, _, hinode, hinodes, _, _⟩ :=
    get_block_alloc_spec s.disk i 0 1 hI.disk.db_wf hall hcl
  refine ⟨hadm, i, hi, h2, hall, hret, ⟨e, ?_⟩, ?_, ?_⟩
  · rw [hinodes, h1, h2]
  · rw [hinode]
    show i.i_blocks + 1 = 105
    omega
  · rw [hinode]
    have hw : ∀ (img2 : Image) (i2 : inode), i2.i_ino = 1 → i2.i_blocks = 105 →
        ((quickfs_write_inode img2 i2).2.inodes 1).data_block_count = 105 := by
      intro img2 i2 a b
      unfold quickfs_write_inode
      rw [if_neg (by omega)]
      show ((Function.update img2.inodes i2.i_ino _) 1).data_block_count = 105
      rw [a, Function.update_same]
      show i2.i_blocks % 65536 = 105
      rw [b]
    exact hw _ _ h1 (by show i.i_blocks + 1 = 105; omega)

/-! ### Alias records -/

theorem readdir_scan_accept (img : Image) (filldir : dir_entry → Int) (h : ∀ e, filldir e = 0) :
    ∀ todo ino f_pos,
      (readdir_scan img filldir todo ino f_pos).1 = 1 ∧
      (readdir_scan img filldir todo ino f_pos).2.2.map (fun e => (e.name, e.ino)) =
        ((List.range' ino todo).filter
          (fun i => decide (test_for_bit img.inode_bitmap i = 1 ∧ (img.inodes i).name ≠ []))).map
          (fun i => ((img.inodes i).name,
            if (img.inodes i).link > 0 then (img.inodes i).link.toNat else i)) := by
  intro todo
  induction todo with
  | zero =>
    intro ino f_pos
    exact ⟨rfl, rfl⟩
  | succ todo ih =>
    intro ino f_pos
    rw [List.range'_succ, List.filter_cons]
    unfold readdir_scan
    by_cases hb : test_for_bit img.inode_bitmap ino ≠ 0
    · have hb1 : test_for_bit img.inode_bitmap ino = 1 := (test_for_bit_ne_zero _ _).mp hb
      rw [if_pos hb]
      by_cases hn : (img.inodes ino).name = []
      · simp only [hn, if_true, hb1, ne_eq, not_true_eq_false, and_false, decide_False,
          Bool.false_eq_true, if_false]
        have := ih (ino + 1) f_pos
        simp only [ne_eq] at this
        exact this
      · have hf : ¬ filldir
            { name := (img.inodes ino).name
              namlen := min (img.inodes ino).name.length MAX_NAME_LENGTH
              offset := f_pos
              ino := if (img.inodes ino).link > 0 then (img.inodes ino).link.toNat else ino } < 0 := by
          rw [h]
          decide
        have hd : decide (test_for_bit img.inode_bitmap ino = 1 ∧ (img.inodes ino).name ≠ []) =
            true := decide_eq_true ⟨hb1, hn⟩
        rw [hd]
        simp only [if_neg hn, if_neg hf, if_true, List.map_cons]
        have := ih (ino + 1) (f_pos + 1)
        exact ⟨this.1, by rw [this.2]⟩
    · have hb0 : test_for_bit img.inode_bitmap ino = 0 := by
        rcases test_for_bit_01 img.inode_bitmap ino with h0 | h1
        · exact h0
        · exact absurd (by rw [h1]; decide) hb
      rw [if_neg hb]
      have hd : decide (test_for_bit img.inode_bitmap ino = 1 ∧ (img.inodes ino).name ≠ []) =
          false := by
        rw [hb0]
        simp
      rw [hd]
      exact ih (ino + 1) f_pos

/-- C18: on every image, `quickfs_readdir` called at position 0 with a sink that
accepts every entry (`filldir` returns 0) returns 1 and reports exactly: (".", 4096),
("..", 4097), and then, for each inode number i from 1 to 4095 in ascending order
whose inode-bitmap bit is set and whose on-disk name is not empty, the entry
(name of i, `link` of i if that is positive, else i). Inode 0 and inodes with an empty
name are not reported. -/
theorem readdir_enumerates (img : Image) (filldir : dir_entry → Int) (h : ∀ e, filldir e = 0) :
    (quickfs_readdir img 0 filldir).ret = 1 ∧
    (quickfs_readdir img 0 filldir).offered.map (fun e => (e.name, e.ino)) =
      ([46], 4096) :: ([46, 46], 4097) ::
        ((List.range' 1 4095).filter
          (fun i => decide (test_for_bit img.inode_bitmap i = 1 ∧ (img.inodes i).name ≠ []))).map
          (fun i => ((img.inodes i).name,
            if (img.inodes i).link > 0 then (img.inodes i).link.toNat else i)) := by
  obtain ⟨h1, h2⟩ := readdir_scan_accept img filldir h 4095 1 2
  unfold quickfs_readdir
  rw [if_neg (by decide), if_neg (by rw [h]; decide), if_neg (by rw [h]; decide)]
  refine ⟨h1, ?_⟩
  show _ :: _ :: List.map _ (readdir_scan img filldir 4095 1 2).2.2 = _
  rw [h2]

theorem readdir_enumerates_witness :
    (∀ e : dir_entry, (fun _ => (0 : Int)) e = 0) ∧
    (quickfs_readdir image_hello 0 (fun _ => 0)).ret = 1 ∧
    (quickfs_readdir image_hello 0 (fun _ => 0)).offered.map (fun e => (e.name, e.ino)) =
      ([46], 4096) :: ([46, 46], 4097) ::
        ((List.range' 1 4095).filter
          (fun i => decide (test_for_bit image_hello.inode_bitmap i = 1 ∧
            (image_hello.inodes i).name ≠ []))).map
          (fun i => ((image_hello.inodes i).name,
            if (image_hello.inodes i).link > 0 then (image_hello.inodes i).link.toNat else i)) :=
  ⟨fun _ => rfl, readdir_enumerates image_hello (fun _ => 0) (fun _ => rfl)⟩

/-- C19 (counterexample): on the image with "hello" created, the enumeration from
position 0 reports ".", ".." and "hello"; resumed at position 1 it should report ".."
and "hello", but `quickfs_readdir` called at position 1 reports nothing. -/
theorem readdir_resumed_reports_nothing :
    (quickfs_readdir image_hello 1 (fun _ => 0)).offered = [] ∧
    ((quickfs_readdir image_hello 0 (fun _ => 0)).offered.drop 1).map (fun e => e.name) ≠ [] := by
  constructor
  · rfl
  · unfold quickfs_readdir
    rw [if_neg (by decide), if_neg (by decide), if_neg (by decide)]
    simp

/-- C19 (amended): `quickfs_readdir` reports the whole directory in one call from
position 0 and cannot resume: called at any position other than 0 it returns 1 at
once, calls the sink for no entry, and leaves the position as it is. -/
theorem readdir_nonzero_position (img : Image) (p : Nat) (filldir : dir_entry → Int)
    (hp : p ≠ 0) :
    (quickfs_readdir img p filldir).ret = 1 ∧
    (quickfs_readdir img p filldir).offered = [] ∧
    (quickfs_readdir img p filldir).f_pos = p := by
  unfold quickfs_readdir
  rw [if_pos hp]
  exact ⟨rfl, rfl, rfl⟩

theorem readdir_nonzero_position_witness :
    (1 : Nat) ≠ 0 ∧
    (quickfs_readdir image_hello 1 (fun _ => 0)).ret = 1 ∧
    (quickfs_readdir image_hello 1 (fun _ => 0)).offered = [] ∧
    (quickfs_readdir image_hello 1 (fun _ => 0)).f_pos = 1 :=
  ⟨by decide, readdir_nonzero_position image_hello 1 (fun _ => 0) (by decide)⟩

/-! ### Running out of inodes -/

theorem inode_bits_set_full (bh : Block) :
    inode_bits_set bh = 4096 ↔ ∀ i, i < 4096 → test_for_bit bh i = 1 := by
  unfold inode_bits_set
  constructor
  · intro h i hi
    have hc : ((Finset.range 4096).filter (fun i => test_for_bit bh i = 1)).card =
        (Finset.range 4096).card := by rw [h, Finset.card_range]
    exact Finset.filter_card_eq hc i (Finset.mem_range.mpr hi)
  · intro h
    rw [Finset.filter_true_of_mem (fun i hi => h i (Finset.mem_range.mp hi)), Finset.card_range]

theorem quickfs_create_ret (img : Image) (d : dentry) (mode fsuid fsgid now : Nat)
    (hwf : ∀ x, x < 512 → img.inode_bitmap x < 256) :
    ((∀ i, i < 4096 → test_for_bit img.inode_bitmap i = 1) ∧
      quickfs_create img d mode fsuid fsgid now = (-ENOSPC, img, none)) ∨
    ((∃ a, a < 4096 ∧ test_for_bit img.inode_bitmap a = 0) ∧
      (quickfs_create img d mode fsuid fsgid now).1 = 0 ∧
      (quickfs_create img d mode fsuid fsgid now).2.1.sb.inodes_free =
        dec_ulong img.sb.inodes_free) := by
  rcases first_free_inode_cases img.inode_bitmap hwf with ⟨hr, hall⟩ | ⟨a, hr, ha, h0, _⟩
  · exact Or.inl ⟨hall, quickfs_create_full img d mode fsuid fsgid now hr⟩
  · rw [quickfs_create_at img d mode fsuid fsgid now a hr]
    exact Or.inr ⟨⟨a, ha, h0⟩, rfl, rfl⟩

theorem step_create_disk (s : FS) (d : dentry) (mode fsuid fsgid now : Nat) :
    (step s (Op.create d mode fsuid fsgid now)).disk =
      (quickfs_create s.disk d mode fsuid fsgid now).2.1 := by
  simp only [step]
  generalize quickfs_create s.disk d mode fsuid fsgid now = r
  obtain ⟨r1, r2, r3⟩ := r
  cases r3 <;> rfl

theorem creates_succ (names : Nat → dentry) (n : Nat) :
    creates names (n + 1) = creates names n ++ [Op.create (names n) 0o644 1000 1000 5] := by
  unfold creates
  rw [List.range_succ, List.map_append]
  rfl

theorem admissible_creates (names : Nat → dentry) (n : Nat) :
    ∀ s, admissible s (creates names n) = true := by
  have key : ∀ (l : List Nat) (s : FS),
      admissible s (l.map (fun j => Op.create (names j) 0o644 1000 1000 5)) = true := by
    intro l
    induction l with
    | nil => intro s; rfl
    | cons j l ih =>
      intro s
      rw [List.map_cons]
      unfold admissible
      rw [ih]
      rfl
  intro s
  exact key _ s

theorem creates_inodes_free (env : FormatEnv) (img0 img' : Image) (size : Nat)
    (names : Nat → dentry) (hfmt : mkquickfs env img0 size = some img') :
    ∀ n, n ≤ 4095 →
      (run (mounted img') (creates names n)).disk.sb.inodes_free = 4095 - n := by
  intro n
  induction n with
  | zero =>
    intro _
    obtain ⟨_, _, _, _, hsb, _⟩ := mkquickfs_image env img0 img' size hfmt
    show img'.sb.inodes_free = 4095
    rw [hsb]
    rfl
  | succ n ih =>
    intro hn
    have hI := Inv_run img'.sb.data_blocks_free (creates names n) (mounted img')
      (Inv_mounted env img0 img' size hfmt) (admissible_creates names n _)
    have hfree := ih (by omega)
    rw [creates_succ]
    unfold run at hI hfree ⊢
    rw [List.foldl_append]
    show (step _ (Op.create (names n) 0o644 1000 1000 5)).disk.sb.inodes_free = _
    rw [step_create_disk]
    generalize List.foldl step (mounted img') (creates names n) = s at hI hfree ⊢
    rcases quickfs_create_ret s.disk (names n) 0o644 1000 1000 5 hI.disk.ib_wf with
      ⟨hall, _⟩ | ⟨_, _, hdec⟩
    · have hp := hI.disk.p1
      rw [(inode_bits_set_full _).mpr hall, hfree] at hp
      omega
    · rw [hdec, hfree]
      unfold dec_ulong
      rw [if_neg (by omega)]
      omega

/-- C15: on an image whose inode bitmap holds bytes, `quickfs_create` returns
`-ENOSPC` if and only if all 4096 bits of the inode bitmap are set, and it then
returns the image as it was (inode bitmap, superblock counters and every inode
record) and binds no inode. On a freshly formatted image the first 4095 calls of
`create` return 0 and the 4096th returns `-ENOSPC`. -/
theorem create_fails_iff_bitmap_full (img : Image) (d : dentry) (mode fsuid fsgid now : Nat)
    (env : FormatEnv) (img0 img' : Image) (size : Nat) (names : Nat → dentry)
    (hwf : ∀ x, x < 512 → img.inode_bitmap x < 256)
    (hfmt : mkquickfs env img0 size = some img') :
    ((quickfs_create img d mode fsuid fsgid now).1 = -ENOSPC ↔
      ∀ i, i < 4096 → test_for_bit img.inode_bitmap i = 1) ∧
    ((quickfs_create img d mode fsuid fsgid now).1 = -ENOSPC →
      (quickfs_create img d mode fsuid fsgid now).2.1 = img ∧
      (quickfs_create img d mode fsuid fsgid now).2.2 = none) ∧
    (∀ n, n < 4095 →
      (quickfs_create (run (mounted img') (creates names n)).disk (names n)
        0o644 1000 1000 5).1 = 0) ∧
    (quickfs_create (run (mounted img') (creates names 4095)).disk (names 4095)
      0o644 1000 1000 5).1 = -ENOSPC := by
  have hne : (0 : Int) ≠ -ENOSPC := by decide
  refine ⟨?_, ?_, ?_, ?_⟩
  · rcases quickfs_create_ret img d mode fsuid fsgid now hwf with
      ⟨hall, hc⟩ | ⟨⟨a, ha, h0⟩, hret, _⟩
    · rw [hc]
      exact ⟨fun _ => hall, fun _ => rfl⟩
    · rw [hret]
      constructor
      · intro h
        exact absurd h hne
      · intro hall
        have := hall a ha
        omega
  · rcases quickfs_create_ret img d mode fsuid fsgid now hwf with ⟨_, hc⟩ | ⟨_, hret, _⟩
    · rw [hc]
      exact fun _ => ⟨rfl, rfl⟩
    · rw [hret]
      intro h
      exact absurd h hne
  · intro n hn
    have hI := Inv_run img'.sb.data_blocks_free (creates names n) (mounted img')
      (Inv_mounted env img0 img' size hfmt) (admissible_creates names n _)
    have hfree := creates_inodes_free env img0 img' size names hfmt n (by omega)
    generalize run (mounted img') (creates names n) = s at hI hfree ⊢
    rcases quickfs_create_ret s.disk (names n) 0o644 1000 1000 5 hI.disk.ib_wf with
      ⟨hall, _⟩ | ⟨_, hret, _⟩
    · have hp := hI.disk.p1
      rw [(inode_bits_set_full _).mpr hall, hfree] at hp
      omega
    · exact hret
  · have hI := Inv_run img'.sb.data_blocks_free (creates names 4095) (mounted img')
      (Inv_mounted env img0 img' size hfmt) (admissible_creates names 4095 _)
    have hfree := creates_inodes_free env img0 img' size names hfmt 4095 (le_refl _)
    generalize run (mounted img') (creates names 4095) = s at hI hfree ⊢
    rcases quickfs_create_ret s.disk (names 4095) 0o644 1000 1000 5 hI.disk.ib_wf with
      ⟨_, hc⟩ | ⟨⟨a, ha, h0⟩, _, _⟩
    · rw [hc]
    · have hp := hI.disk.p1
      rw [hfree] at hp
      have hfull : inode_bits_set s.disk.inode_bitmap = 4096 := by omega
      have := (inode_bits_set_full s.disk.inode_bitmap).mp hfull a ha
      omega

set_option maxRecDepth 100000 in
theorem create_fails_iff_bitmap_full_witness :
    ((quickfs_create image_hello n_hi 0o644 1000 1000 6).1 = -ENOSPC ↔
      ∀ i, i < 4096 → test_for_bit image_hello.inode_bitmap i = 1) ∧
    ((quickfs_create image_hello n_hi 0o644 1000 1000 6).1 = -ENOSPC →
      (quickfs_create image_hello n_hi 0o644 1000 1000 6).2.1 = image_hello ∧
      (quickfs_create image_hello n_hi 0o644 1000 1000 6).2.2 = none) ∧
    (∀ n, n < 4095 →
      (quickfs_create (run (mounted fresh_image) (creates (fun _ => n_hello) n)).disk n_hello
        0o644 1000 1000 5).1 = 0) ∧
    (quickfs_create (run (mounted fresh_image) (creates (fun _ => n_hello) 4095)).disk n_hello
      0o644 1000 1000 5).1 = -ENOSPC :=
  create_fails_iff_bitmap_full image_hello n_hi 0o644 1000 1000 6 example_env blank_image
    fresh_image 8388608 (fun _ => n_hello)
    (Inv_run _ [Op.create n_hello 0o644 1000 1000 5] _ fresh_Inv (by decide)).disk.ib_wf
    fresh_image_eq

/-! ### Name lookup -/

theorem lookup_scan_spec (img : Image) (nm : List Nat) :
    ∀ todo i,
      (lookup_scan img nm todo i = none ∧
        ∀ j, i ≤ j → j < i + todo →
          ¬ (test_for_bit img.inode_bitmap j = 1 ∧ (img.inodes j).name = nm)) ∨
      (∃ i0, i ≤ i0 ∧ i0 < i + todo ∧
        test_for_bit img.inode_bitmap i0 = 1 ∧ (img.inodes i0).name = nm ∧
        (∀ j, i ≤ j → j < i0 →
          ¬ (test_for_bit img.inode_bitmap j = 1 ∧ (img.inodes j).name = nm)) ∧
        lookup_scan img nm todo i =
          some (if (img.inodes i0).link > 0 then (img.inodes i0).link.toNat else i0)) := by
  intro todo
  induction todo with
  | zero =>
    intro i
    exact Or.inl ⟨rfl, fun j h1 h2 => by omega⟩
  | succ todo ih =>
    intro i
    unfold lookup_scan
    by_cases hm : test_for_bit img.inode_bitmap i = 1 ∧ (img.inodes i).name = nm
    · right
      refine ⟨i, le_refl _, by omega, hm.1, hm.2, fun j h1 h2 => by omega, ?_⟩
      rw [if_pos ((test_for_bit_ne_zero _ _).mpr hm.1), if_pos hm.2.symm]
    · have hstep : (if test_for_bit img.inode_bitmap i ≠ 0 then
            if nm = (img.inodes i).name then
              some (if (img.inodes i).link > 0 then (img.inodes i).link.toNat else i)
            else lookup_scan img nm todo (i + 1)
          else lookup_scan img nm todo (i + 1)) = lookup_scan img nm todo (i + 1) := by
        by_cases hb : test_for_bit img.inode_bitmap i ≠ 0
        · rw [if_pos hb, if_neg]
          intro hn
          exact hm ⟨(test_for_bit_ne_zero _ _).mp hb, hn.symm⟩
        · rw [if_neg hb]
      rw [hstep]
      rcases ih (i + 1) with ⟨hnone, hall⟩ | ⟨i0, h1, h2, h3, h4, h5, h6⟩
      · left
        refine ⟨hnone, fun j hj1 hj2 => ?_⟩
        by_cases hji : j = i
        · rw [hji]; exact hm
        · exact hall j (by omega) (by omega)
      · right
        refine ⟨i0, by omega, by omega, h3, h4, fun j hj1 hj2 => ?_, h6⟩
        by_cases hji : j = i
        · rw [hji]; exact hm
        · exact h5 j (by omega) hj2

theorem quickfs_lookup_spec (img : Image) (d : dentry) (hlen : d.d_name.length ≤ MAX_NAME_LENGTH)
    (hin : d.d_iname = d.d_name) :
    (quickfs_lookup img d = lookup_result.not_found ∧
      ∀ j, j < 4096 →
        ¬ (test_for_bit img.inode_bitmap j = 1 ∧ (img.inodes j).name = d.d_name)) ∨
    (∃ i0, i0 < 4096 ∧
      test_for_bit img.inode_bitmap i0 = 1 ∧ (img.inodes i0).name = d.d_name ∧
      (∀ j, j < i0 →
        ¬ (test_for_bit img.inode_bitmap j = 1 ∧ (img.inodes j).name = d.d_name)) ∧
      quickfs_lookup img d =
        lookup_result.bound
          (if (img.inodes i0).link > 0 then (img.inodes i0).link.toNat else i0)) := by
  unfold quickfs_lookup
  rw [if_neg (by omega), hin]
  rcases lookup_scan_spec img d.d_name 4096 0 with ⟨hnone, hall⟩ | ⟨i0, _, h2, h3, h4, h5, h6⟩
  · left
    rw [hnone]
    exact ⟨rfl, fun j hj => hall j (Nat.zero_le _) (by omega)⟩
  · right
    rw [h6]
    exact ⟨i0, by omega, h3, h4, fun j hj => h5 j (Nat.zero_le _) hj, rfl⟩

theorem quickfs_lookup_absent (img : Image) (d : dentry)
    (hlen : d.d_name.length ≤ MAX_NAME_LENGTH) (hin : d.d_iname = d.d_name)
    (habs : ∀ j, j < 4096 → test_for_bit img.inode_bitmap j = 1 →
      (img.inodes j).name ≠ d.d_name) :
    quickfs_lookup img d = lookup_result.not_found := by
  rcases quickfs_lookup_spec img d hlen hin with ⟨h, _⟩ | ⟨i1, h1, h2, h3, _, _⟩
  · exact h
  · exact absurd h3 (habs i1 h1 h2)

theorem fresh_inode_bit (j : Nat) (hj : j < 4096) :
    test_for_bit fresh_image.inode_bitmap j = if j = 0 then 1 else 0 :=
  root_bitmap_test _
    (mkquickfs_image example_env blank_image fresh_image 8388608 fresh_image_eq).2.1 j hj

theorem fresh_inode_wf : ∀ x, x < 512 → fresh_image.inode_bitmap x < 256 :=
  fresh_Inv.disk.ib_wf

theorem quickfs_create_effect (img : Image) (d : dentry) (mode fsuid fsgid now : Nat)
    (hwf : ∀ x, x < 512 → img.inode_bitmap x < 256)
    (hret : (quickfs_create img d mode fsuid fsgid now).1 = 0) :
    ∃ a, a < 4096 ∧ test_for_bit img.inode_bitmap a = 0 ∧
      (∀ j, j < a → test_for_bit img.inode_bitmap j = 1) ∧
      (quickfs_create img d mode fsuid fsgid now).2.2 =
        some { i_ino := a, i_mode := mode ||| S_IFREG, i_uid := fsuid, i_gid := fsgid,
               i_size := 0, i_blocks := 0, i_nlink := 1, i_atime := now, i_mtime := now,
               i_ctime := now } ∧
      (∀ j, test_for_bit (quickfs_create img d mode fsuid fsgid now).2.1.inode_bitmap j =
        if j = a then 1 else test_for_bit img.inode_bitmap j) ∧
      ((quickfs_create img d mode fsuid fsgid now).2.1.inodes a).name = d.d_name ∧
      ((quickfs_create img d mode fsuid fsgid now).2.1.inodes a).link = -1 ∧
      ((quickfs_create img d mode fsuid fsgid now).2.1.inodes a).hard_links = 1 ∧
      (∀ j, j ≠ a → (quickfs_create img d mode fsuid fsgid now).2.1.inodes j = img.inodes j) := by
  rcases first_free_inode_cases img.inode_bitmap hwf with ⟨hfull, _⟩ | ⟨a, hfree, ha, h0, hlow⟩
  · rw [quickfs_create_full img d mode fsuid fsgid now hfull] at hret
    have hne : (-ENOSPC : Int) ≠ 0 := by decide
    exact absurd hret hne
  · rw [quickfs_create_at img d mode fsuid fsgid now a hfree]
    have hb : img.inode_bitmap (a / 8) < 256 := hwf _ (by omega)
    refine ⟨a, ha, h0, hlow, rfl, ?_, ?_, ?_, ?_, ?_⟩
    · intro j
      show test_for_bit (mark_bit img.inode_bitmap (a : Int)) j = _
      by_cases hj : j = a
      · rw [if_pos hj, hj]
        exact test_mark_same _ _ hb
      · rw [if_neg hj]
        exact test_mark_other _ _ _ hb hj
    · show (Function.update img.inodes a _ a).name = _
      rw [Function.update_same]
    · show (Function.update img.inodes a _ a).link = _
      rw [Function.update_same]
    · show (Function.update img.inodes a _ a).hard_links = _
      rw [Function.update_same]
    · intro j hj
      show Function.update img.inodes a _ j = _
      rw [Function.update_noteq hj]

theorem quickfs_link_effect (img : Image) (i : inode) (d : dentry) (now : Nat)
    (hwf : ∀ x, x < 512 → img.inode_bitmap x < 256)
    (hret : (quickfs_link img i d now).1 = 0) :
    ∃ a, a < 4096 ∧ test_for_bit img.inode_bitmap a = 0 ∧
      (∀ j, j < a → test_for_bit img.inode_bitmap j = 1) ∧
      (quickfs_link img i d now).2.2 =
        { i with i_nlink := (i.i_nlink + 1) % UINT_MOD, i_ctime := now, i_atime := now } ∧
      (∀ j, test_for_bit (quickfs_link img i d now).2.1.inode_bitmap j =
        if j = a then 1 else test_for_bit img.inode_bitmap j) ∧
      ((quickfs_link img i d now).2.1.inodes a).name = d.d_name ∧
      ((quickfs_link img i d now).2.1.inodes a).link = to_short i.i_ino ∧
      ((quickfs_link img i d now).2.1.inodes a).hard_links = (img.inodes a).hard_links ∧
      (∀ j, j ≠ a → (quickfs_link img i d now).2.1.inodes j = img.inodes j) := by
  rcases first_free_inode_cases img.inode_bitmap hwf with ⟨hfull, _⟩ | ⟨a, hfree, ha, h0, hlow⟩
  · rw [quickfs_link_full img i d now hfull] at hret
    have hne : (-ENOSPC : Int) ≠ 0 := by decide
    exact absurd hret hne
  · rw [quickfs_link_at img i d now a hfree]
    have hb : img.inode_bitmap (a / 8) < 256 := hwf _ (by omega)
    refine ⟨a, ha, h0, hlow, rfl, ?_, ?_, ?_, ?_, ?_⟩
    · intro j
      show test_for_bit (mark_bit img.inode_bitmap (a : Int)) j = _
      by_cases hj : j = a
      · rw [if_pos hj, hj]
        exact test_mark_same _ _ hb
      · rw [if_neg hj]
        exact test_mark_other _ _ _ hb hj
    · show (Function.update img.inodes a _ a).name = _
      rw [Function.update_same]
    · show (Function.update img.inodes a _ a).link = _
      rw [Function.update_same]
    · show (Function.update img.inodes a _ a).hard_links = _
      rw [Function.update_same]
    · intro j hj
      show Function.update img.inodes a _ j = _
      rw [Function.update_noteq hj]

theorem unlink_IIa_effect (img : Image) (i : inode) (d : dentry)
    (hnl : i.i_nlink > 1) (hname : (img.inodes i.i_ino).name = d.d_name)
    (hne : d.d_name ≠ []) (hlen : d.d_name.length ≤ MAX_NAME_LENGTH)
    (hin : d.d_iname = d.d_name) (hroot : 1 ≤ i.i_ino)
    (hreal : (img.inodes i.i_ino).link ≤ 0)
    (huniq : ∀ j, j < 4096 → test_for_bit img.inode_bitmap j = 1 →
      (img.inodes j).name = d.d_name → j = i.i_ino) :
    (quickfs_unlink img i d).1 = 0 ∧
    ((quickfs_unlink img i d).2.1.inodes i.i_ino).name = [] ∧
    (quickfs_unlink img i d).2.2.i_nlink = i.i_nlink - 1 ∧
    (quickfs_unlink img i d).2.1.inode_bitmap = img.inode_bitmap ∧
    (quickfs_unlink img i d).2.1.sb = img.sb ∧
    quickfs_lookup (quickfs_unlink img i d).2.1 d = lookup_result.not_found ∧
    (∀ (m : dentry) (a : Nat), a < 4096 → test_for_bit img.inode_bitmap a = 1 →
      (img.inodes a).link = (i.i_ino : Int) → (img.inodes a).name = m.d_name →
      m.d_name.length ≤ MAX_NAME_LENGTH → m.d_iname = m.d_name →
      (∀ j, j < 4096 → test_for_bit img.inode_bitmap j = 1 →
        (img.inodes j).name = m.d_name → j = a) →
      quickfs_lookup (quickfs_unlink img i d).2.1 m = lookup_result.bound i.i_ino) := by
  rw [quickfs_unlink_IIa img i d (by omega) hname.symm]
  refine ⟨rfl, ?_, ?_, rfl, rfl, ?_, ?_⟩
  · show (Function.update img.inodes i.i_ino _ i.i_ino).name = []
    rw [Function.update_same]
  · show dec_uint i.i_nlink = i.i_nlink - 1
    unfold dec_uint
    rw [if_neg (by omega)]
  · apply quickfs_lookup_absent _ d hlen hin
    intro j hj hb hn
    by_cases hji : j = i.i_ino
    · rw [hji] at hn
      have : (Function.update img.inodes i.i_ino
          { img.inodes i.i_ino with name := [] } i.i_ino).name = d.d_name := hn
      rw [Function.update_same] at this
      exact hne this.symm
    · have : (Function.update img.inodes i.i_ino
          { img.inodes i.i_ino with name := [] } j).name = d.d_name := hn
      rw [Function.update_noteq hji] at this
      exact hji (huniq j hj hb this)
  · intro m a ha hba hla hna hml hmin hmu
    have hai : a ≠ i.i_ino := by
      intro h
      rw [h] at hla
      omega
    rcases quickfs_lookup_spec
        { img with
          inodes := Function.update img.inodes i.i_ino { img.inodes i.i_ino with name := [] } }
        m hml hmin with ⟨_, hall⟩ | ⟨i1, hi1, hb1, hn1, _, hres⟩
    · refine absurd ⟨hba, ?_⟩ (hall a ha)
      show (Function.update img.inodes i.i_ino _ a).name = m.d_name
      rw [Function.update_noteq hai]
      exact hna
    · rw [hres]
      by_cases h1i : i1 = i.i_ino
      · have hl : (Function.update img.inodes i.i_ino
            { img.inodes i.i_ino with name := [] } i1).link = (img.inodes i.i_ino).link := by
          rw [h1i, Function.update_same]
        show lookup_result.bound
          (if (Function.update img.inodes i.i_ino { img.inodes i.i_ino with name := [] } i1).link
            > 0 then
            (Function.update img.inodes i.i_ino { img.inodes i.i_ino with name := [] } i1).link.toNat
          else i1) = _
        rw [hl, if_neg (by omega), h1i]
      · have hn1' : (Function.update img.inodes i.i_ino
            { img.inodes i.i_ino with name := [] } i1).name = m.d_name := hn1
        rw [Function.update_noteq h1i] at hn1'
        have h1a : i1 = a := hmu i1 hi1 hb1 hn1'
        show lookup_result.bound
          (if (Function.update img.inodes i.i_ino { img.inodes i.i_ino with name := [] } i1).link
            > 0 then
            (Function.update img.inodes i.i_ino { img.inodes i.i_ino with name := [] } i1).link.toNat
          else i1) = _
        rw [Function.update_noteq h1i, h1a, hla, if_pos (by omega), Int.toNat_ofNat]

set_option maxRecDepth 100000 in
/-- C20: create "hello" (inode 1) on the fresh 8 MiB image, link it under a name of 40
letters "a" (the alias takes slot 2) and unlink "hello". The unlink is case IIa: the
name of inode 1 becomes empty, its link count drops from 2 to 1, and `lookup "hello"`
reports "not found". The alias is still allocated, with that 40-letter name and
`link = 1`, but `lookup` of the 40-letter name, through a dentry whose inline buffer
`d_iname` does not hold the name, reports "not found" instead of binding inode 1:
`quickfs_lookup` compares `d_iname`, not `d_name.name`. -/
theorem lookup_of_long_alias_name_fails :
    ((run (mounted fresh_image) ops_link_long_unlink).icache 1).map (fun i => i.i_nlink) =
      some 1 ∧
    ((run (mounted fresh_image) ops_link_long_unlink).disk.inodes 1).name = [] ∧
    test_for_bit (run (mounted fresh_image) ops_link_long_unlink).disk.inode_bitmap 2 = 1 ∧
    ((run (mounted fresh_image) ops_link_long_unlink).disk.inodes 2).name = n_long.d_name ∧
    ((run (mounted fresh_image) ops_link_long_unlink).disk.inodes 2).link = 1 ∧
    n_long.d_name.length = 40 ∧
    quickfs_lookup (run (mounted fresh_image) ops_link_long_unlink).disk n_long =
      lookup_result.not_found := by
  refine ⟨by decide, by decide, by decide, by decide, by decide, by decide, ?_⟩
  have hbits : ∀ j, j < 4096 →
      test_for_bit (run (mounted fresh_image) ops_link_long_unlink).disk.inode_bitmap j = 1 →
      j < 3 := by
    have hd : (run (mounted fresh_image) ops_link_long_unlink).disk.inode_bitmap =
        mark_bit (mark_bit fresh_image.inode_bitmap ((1 : Nat) : Int)) ((2 : Nat) : Int) :=
      rfl
    intro j hj hb
    by_contra hge
    rw [hd, test_mark_other _ _ _ (mark_bit_wf _ 1 512 fresh_inode_wf _ (by decide)) (by omega),
      test_mark_other _ _ _ (fresh_inode_wf _ (by decide)) (by omega),
      fresh_inode_bit j hj, if_neg (by omega)] at hb
    exact absurd hb (by decide)
  unfold quickfs_lookup
  rw [if_neg (by decide)]
  rcases lookup_scan_spec (run (mounted fresh_image) ops_link_long_unlink).disk n_long.d_iname
      4096 0 with ⟨hnone, _⟩ | ⟨i0, _, h2, h3, h4, _, _⟩
  · rw [hnone]
  · exfalso
    have hlt := hbits i0 (by omega) h3
    interval_cases i0
    · exact absurd h4 (by decide)
    · exact absurd h4 (by decide)
    · exact absurd h4 (by decide)

/-! ### Link counts (P3) -/

theorem alias_count_congr (img img' : Image) (k : Nat)
    (h : ∀ a, (test_for_bit img'.inode_bitmap a = 1 ∧ (img'.inodes a).link = (k : Int)) ↔
      (test_for_bit img.inode_bitmap a = 1 ∧ (img.inodes a).link = (k : Int))) :
    alias_count img' k = alias_count img k := by
  unfold alias_count
  exact congrArg Finset.card (Finset.filter_congr (fun a _ => h a))

theorem alias_count_add (img img' : Image) (k a0 : Nat) (ha0 : a0 < 4096)
    (hb : ¬ (test_for_bit img.inode_bitmap a0 = 1 ∧ (img.inodes a0).link = (k : Int)))
    (ha : test_for_bit img'.inode_bitmap a0 = 1 ∧ (img'.inodes a0).link = (k : Int))
    (h : ∀ a, a ≠ a0 →
      ((test_for_bit img'.inode_bitmap a = 1 ∧ (img'.inodes a).link = (k : Int)) ↔
        (test_for_bit img.inode_bitmap a = 1 ∧ (img.inodes a).link = (k : Int)))) :
    alias_count img' k = alias_count img k + 1 := by
  unfold alias_count
  exact card_filter_flip 4096 a0 _ _ ha0 hb ha h

theorem alias_count_le (img : Image) (k : Nat) : alias_count img k ≤ 4096 := by
  unfold alias_count
  calc _ ≤ (Finset.range 4096).card := Finset.card_filter_le _ _
    _ = 4096 := Finset.card_range 4096

theorem alias_count_zero (img : Image) (k : Nat)
    (h : ∀ a, a < 4096 →
      ¬ (test_for_bit img.inode_bitmap a = 1 ∧ (img.inodes a).link = (k : Int))) :
    alias_count img k = 0 := by
  unfold alias_count
  rw [Finset.card_eq_zero, Finset.filter_eq_empty_iff]
  intro a ha
  exact h a (Finset.mem_range.mp ha)

theorem Inv_cached (C : Nat) (s : FS) (h : Inv C s) (k : Nat) (i : inode)
    (hc : s.icache k = some i) :
    k < 4096 ∧ test_for_bit s.disk.inode_bitmap k = 1 ∧ (s.disk.inodes k).link = -1 := by
  have hcb : cached_blocks s k = some i.i_blocks := by
    unfold cached_blocks
    rw [hc]
    rfl
  obtain ⟨h1, h2, h3, _⟩ := h.disk.cached k i.i_blocks hcb
  exact ⟨h1, h2, h3⟩

theorem step_create_some (s : FS) (d : dentry) (mode fsuid fsgid now : Nat) (c : inode)
    (hc : (quickfs_create s.disk d mode fsuid fsgid now).2.2 = some c) :
    step s (Op.create d mode fsuid fsgid now) =
      { disk := (quickfs_create s.disk d mode fsuid fsgid now).2.1
        icache := Function.update s.icache c.i_ino (some c) } := by
  simp only [step]
  generalize quickfs_create s.disk d mode fsuid fsgid now = r at hc ⊢
  obtain ⟨r1, r2, r3⟩ := r
  simp only at hc
  subst hc
  rfl

theorem step_link (s : FS) (ino : Nat) (d : dentry) (now : Nat) (i : inode)
    (hc : s.icache ino = some i) :
    step s (Op.link ino d now) =
      { disk := (quickfs_link s.disk i d now).2.1
        icache := Function.update s.icache ino (some (quickfs_link s.disk i d now).2.2) } := by
  simp only [step, hc]

theorem step_unlink (s : FS) (ino : Nat) (d : dentry) (i : inode)
    (hc : s.icache ino = some i) :
    step s (Op.unlink ino d) =
      { disk := (quickfs_unlink s.disk i d).2.1
        icache := Function.update s.icache ino (some (quickfs_unlink s.disk i d).2.2) } := by
  simp only [step, hc]

theorem step_same (s : FS) (ino : Nat) (i : inode) (hc : s.icache ino = some i) :
    ({ disk := s.disk, icache := Function.update s.icache ino (some i) } : FS) = s := by
  rw [← hc, Function.update_eq_self]

theorem LinkInv_create (C : Nat) (s : FS) (d : dentry) (mode fsuid fsgid now : Nat)
    (hI : Inv C s) (hL : LinkInv s) (hne : d.d_name ≠ []) :
    LinkInv (step s (Op.create d mode fsuid fsgid now)) := by
  rcases first_free_inode_cases s.disk.inode_bitmap hI.disk.ib_wf with
    ⟨hr, _⟩ | ⟨a0, hr, _, _, _⟩
  · have e : step s (Op.create d mode fsuid fsgid now) = s := by
      simp only [step, quickfs_create_full _ _ _ _ _ _ hr]
    rw [e]
    exact hL
  · have hret : (quickfs_create s.disk d mode fsuid fsgid now).1 = 0 := by
      rw [quickfs_create_at _ _ _ _ _ _ a0 hr]
    obtain ⟨a, ha, h0, _, hino, hbits, hname, hlink, hhl, hother⟩ :=
      quickfs_create_effect s.disk d mode fsuid fsgid now hI.disk.ib_wf hret
    rw [step_create_some s d mode fsuid fsgid now _ hino]
    generalize hg : (quickfs_create s.disk d mode fsuid fsgid now).2.1 = img1
    rw [hg] at hbits hname hlink hhl hother
    have hnc : s.icache a = none := by
      cases hca : s.icache a with
      | none => rfl
      | some i =>
        have := (Inv_cached C s hI a i hca).2.1
        omega
    have hcount : ∀ k, alias_count img1 k = alias_count s.disk k := by
      intro k
      apply alias_count_congr
      intro a'
      by_cases haa : a' = a
      · rw [haa, hbits a, if_pos rfl, hlink, h0]
        constructor
        · intro h
          have := h.2
          omega
        · intro h
          exact absurd h.1 (by decide)
      · rw [hbits a', if_neg haa, hother a' haa]
    have hcache : ∀ k, k ≠ a → ∀ i,
        Function.update s.icache a
          (some ({ i_ino := a, i_mode := mode ||| S_IFREG, i_uid := fsuid, i_gid := fsgid,
                   i_size := 0, i_blocks := 0, i_nlink := 1, i_atime := now, i_mtime := now,
                   i_ctime := now } : inode)) k = some i → s.icache k = some i := by
      intro k hk i h
      rw [Function.update_noteq hk] at h
      exact h
    refine ⟨?_, ?_, ?_, ?_⟩
    · intro a' ha' hb hl
      have haa : a' ≠ a := by
        intro h
        rw [h] at hl
        have : (img1.inodes a).link > 0 := hl
        rw [hlink] at this
        exact absurd this (by decide)
      have hb' : test_for_bit s.disk.inode_bitmap a' = 1 := by
        have : test_for_bit img1.inode_bitmap a' = 1 := hb
        rw [hbits a', if_neg haa] at this
        exact this
      have hl' : (s.disk.inodes a').link > 0 := by
        have : (img1.inodes a').link > 0 := hl
        rw [hother a' haa] at this
        exact this
      obtain ⟨k, i, hk, hc⟩ := hL.target a' ha' hb' hl'
      have hka : k ≠ a := by
        intro h
        rw [h, hnc] at hc
        exact absurd hc (by simp)
      refine ⟨k, i, ?_, ?_⟩
      · show (img1.inodes a').link = (k : Int)
        rw [hother a' haa]
        exact hk
      · show Function.update s.icache a _ k = some i
        rw [Function.update_noteq hka]
        exact hc
    · intro k i hc hk0
      show (img1.inodes k).hard_links = 1
      by_cases hka : k = a
      · rw [hka]
        exact hhl
      · rw [hother k hka]
        exact hL.disk_links k i (hcache k hka i hc) hk0
    · intro k i hc hk0 hn
      show (i.i_nlink : Int) = p3_links img1 k
      by_cases hka : k = a
      · have hc' : Function.update s.icache a
            (some ({ i_ino := a, i_mode := mode ||| S_IFREG, i_uid := fsuid, i_gid := fsgid,
                     i_size := 0, i_blocks := 0, i_nlink := 1, i_atime := now, i_mtime := now,
                     i_ctime := now } : inode)) k = some i := hc
        rw [hka, Function.update_same] at hc'
        have hi := Option.some.inj hc'
        rw [← hi, hka]
        unfold p3_links
        rw [hcount a, hname, if_neg hne]
        have hz : alias_count s.disk a = 0 := by
          apply alias_count_zero
          intro a' ha' ⟨hb, hl⟩
          obtain ⟨k', i', hk', hc''⟩ := hL.target a' ha' hb (by rw [hl]; omega)
          rw [hl] at hk'
          have : a = k' := by omega
          rw [← this, hnc] at hc''
          exact absurd hc'' (by simp)
        rw [hz]
        rfl
      · unfold p3_links
        rw [hcount k, hother k hka]
        exact hL.live k i (hcache k hka i hc) hk0 hn
    · intro k i hc hk0 hn
      show alias_count img1 k = 0
      by_cases hka : k = a
      · have hc' : Function.update s.icache a
            (some ({ i_ino := a, i_mode := mode ||| S_IFREG, i_uid := fsuid, i_gid := fsgid,
                     i_size := 0, i_blocks := 0, i_nlink := 1, i_atime := now, i_mtime := now,
                     i_ctime := now } : inode)) k = some i := hc
        rw [hka, Function.update_same] at hc'
        have hi := Option.some.inj hc'
        rw [← hi] at hn
        exact absurd hn Nat.one_ne_zero
      · rw [hcount k]
        exact hL.dead k i (hcache k hka i hc) hk0 hn

theorem p3_links_le (img : Image) (k : Nat) : p3_links img k ≤ 4097 := by
  unfold p3_links
  have := alias_count_le img k
  split_ifs <;> omega

theorem LinkInv_link (C : Nat) (s : FS) (ino : Nat) (d : dentry) (now : Nat) (i : inode)
    (hI : Inv C s) (hL : LinkInv s) (hc : s.icache ino = some i) (hino0 : ino ≠ 0)
    (hn : 1 ≤ i.i_nlink) :
    LinkInv (step s (Op.link ino d now)) := by
  rw [step_link s ino d now i hc]
  rcases first_free_inode_cases s.disk.inode_bitmap hI.disk.ib_wf with
    ⟨hr, _⟩ | ⟨a0, hr, _, _, _⟩
  · rw [quickfs_link_full _ _ _ _ hr]
    show LinkInv { disk := s.disk, icache := Function.update s.icache ino (some i) }
    rw [step_same s ino i hc]
    exact hL
  · have hret : (quickfs_link s.disk i d now).1 = 0 := by
      rw [quickfs_link_at _ _ _ _ a0 hr]
    obtain ⟨a, ha, h0, _, hi', hbits, _, hlink, _, hother⟩ :=
      quickfs_link_effect s.disk i d now hI.disk.ib_wf hret
    rw [hi']
    generalize hg : (quickfs_link s.disk i d now).2.1 = img1
    rw [hg] at hbits hlink hother
    obtain ⟨hino, hbino, hlino⟩ := Inv_cached C s hI ino i hc
    have hii : i.i_ino = ino := hI.ino ino i hc
    have hts : to_short (i.i_ino : Int) = (ino : Int) := by
      rw [hii]
      exact to_short_small ino (by omega)
    rw [hts] at hlink
    have hia : ino ≠ a := by
      intro h
      rw [h] at hbino
      omega
    have hnc : s.icache a = none := by
      cases hca : s.icache a with
      | none => rfl
      | some i =>
        have := (Inv_cached C s hI a i hca).2.1
        omega
    have hlive := hL.live ino i hc hino0 hn
    have hbound := p3_links_le s.disk ino
    have hmod : (i.i_nlink + 1) % UINT_MOD = i.i_nlink + 1 :=
      Nat.mod_eq_of_lt (by unfold UINT_MOD; omega)
    rw [hmod]
    have hcount_other : ∀ k, k ≠ ino → alias_count img1 k = alias_count s.disk k := by
      intro k hk
      apply alias_count_congr
      intro a'
      by_cases haa : a' = a
      · rw [haa, hbits a, if_pos rfl, hlink, h0]
        constructor
        · intro h
          have := h.2
          omega
        · intro h
          exact absurd h.1 (by decide)
      · rw [hbits a', if_neg haa, hother a' haa]
    have hcount_ino : alias_count img1 ino = alias_count s.disk ino + 1 := by
      apply alias_count_add s.disk img1 ino a ha
      · intro h
        have := h.1
        omega
      · rw [hbits a, if_pos rfl, hlink]
        exact ⟨rfl, rfl⟩
      · intro a' haa
        rw [hbits a', if_neg haa, hother a' haa]
    have hcache : ∀ k, k ≠ ino → ∀ i',
        Function.update s.icache ino
          (some ({ i with i_nlink := i.i_nlink + 1, i_ctime := now, i_atime := now } : inode)) k
            = some i' → s.icache k = some i' := by
      intro k hk i' h
      rw [Function.update_noteq hk] at h
      exact h
    have hcached_ne : ∀ k i', s.icache k = some i' → k ≠ a := by
      intro k i' h hka
      rw [hka, hnc] at h
      exact absurd h (by simp)
    refine ⟨?_, ?_, ?_, ?_⟩
    · intro a' ha' hb hl
      by_cases haa : a' = a
      · refine ⟨ino, { i with i_nlink := i.i_nlink + 1, i_ctime := now, i_atime := now }, ?_, ?_⟩
        · show (img1.inodes a').link = (ino : Int)
          rw [haa]
          exact hlink
        · show Function.update s.icache ino _ ino = some _
          rw [Function.update_same]
      · have hb' : test_for_bit s.disk.inode_bitmap a' = 1 := by
          have : test_for_bit img1.inode_bitmap a' = 1 := hb
          rw [hbits a', if_neg haa] at this
          exact this
        have hl' : (s.disk.inodes a').link > 0 := by
          have : (img1.inodes a').link > 0 := hl
          rw [hother a' haa] at this
          exact this
        obtain ⟨k, i', hk, hc'⟩ := hL.target a' ha' hb' hl'
        by_cases hki : k = ino
        · refine ⟨ino, { i with i_nlink := i.i_nlink + 1, i_ctime := now, i_atime := now }, ?_, ?_⟩
          · show (img1.inodes a').link = (ino : Int)
            rw [hother a' haa, hk, hki]
          · show Function.update s.icache ino _ ino = some _
            rw [Function.update_same]
        · refine ⟨k, i', ?_, ?_⟩
          · show (img1.inodes a').link = (k : Int)
            rw [hother a' haa]
            exact hk
          · show Function.update s.icache ino _ k = some i'
            rw [Function.update_noteq hki]
            exact hc'
    · intro k i' hc' hk0
      show (img1.inodes k).hard_links = 1
      by_cases hki : k = ino
      · rw [hki, hother ino hia]
        exact hL.disk_links ino i hc hino0
      · have hck := hcache k hki i' hc'
        rw [hother k (hcached_ne k i' hck)]
        exact hL.disk_links k i' hck hk0
    · intro k i' hc' hk0 hn'
      show (i'.i_nlink : Int) = p3_links img1 k
      by_cases hki : k = ino
      · have hc'' : Function.update s.icache ino
            (some ({ i with i_nlink := i.i_nlink + 1, i_ctime := now, i_atime := now } : inode))
              k = some i' := hc'
        rw [hki, Function.update_same] at hc''
        have hi := Option.some.inj hc''
        rw [← hi, hki]
        show ((i.i_nlink + 1 : Nat) : Int) = p3_links img1 ino
        unfold p3_links at hlive ⊢
        rw [hcount_ino, hother ino hia]
        push_cast
        omega
      · have hck := hcache k hki i' hc'
        unfold p3_links
        rw [hcount_other k hki, hother k (hcached_ne k i' hck)]
        exact hL.live k i' hck hk0 hn'
    · intro k i' hc' hk0 hn'
      show alias_count img1 k = 0
      by_cases hki : k = ino
      · have hc'' : Function.update s.icache ino
            (some ({ i with i_nlink := i.i_nlink + 1, i_ctime := now, i_atime := now } : inode))
              k = some i' := hc'
        rw [hki, Function.update_same] at hc''
        have hi := Option.some.inj hc''
        rw [← hi] at hn'
        exact absurd hn' (Nat.succ_ne_zero _)
      · have hck := hcache k hki i' hc'
        rw [hcount_other k hki]
        exact hL.dead k i' hck hk0 hn'

theorem LinkInv_transfer (s : FS) (img1 : Image) (ino : Nat) (i i1 : inode) (hL : LinkInv s)
    (hc : s.icache ino = some i) (hino0 : ino ≠ 0)
    (htarget : ∀ a, a < 4096 → test_for_bit img1.inode_bitmap a = 1 → (img1.inodes a).link > 0 →
      test_for_bit s.disk.inode_bitmap a = 1 ∧ (s.disk.inodes a).link = (img1.inodes a).link)
    (hhl : ∀ k, (img1.inodes k).hard_links = (s.disk.inodes k).hard_links)
    (hother : ∀ k, k ≠ ino →
      p3_links img1 k = p3_links s.disk k ∧ alias_count img1 k = alias_count s.disk k)
    (hlive : 1 ≤ i1.i_nlink → (i1.i_nlink : Int) = p3_links img1 ino)
    (hdead : i1.i_nlink = 0 → alias_count img1 ino = 0) :
    LinkInv { disk := img1, icache := Function.update s.icache ino (some i1) } := by
  have hcache : ∀ k, k ≠ ino → ∀ i', Function.update s.icache ino (some i1) k = some i' →
      s.icache k = some i' := by
    intro k hk i' h
    rw [Function.update_noteq hk] at h
    exact h
  have hsame : ∀ i', Function.update s.icache ino (some i1) ino = some i' → i1 = i' := by
    intro i' h
    rw [Function.update_same] at h
    exact Option.some.inj h
  refine ⟨?_, ?_, ?_, ?_⟩
  · intro a ha hb hl
    obtain ⟨hb', hl'⟩ := htarget a ha hb hl
    obtain ⟨k, i', hk, hc'⟩ := hL.target a ha hb' (by rw [hl']; exact hl)
    by_cases hki : k = ino
    · refine ⟨ino, i1, ?_, ?_⟩
      · show (img1.inodes a).link = (ino : Int)
        rw [← hl', hk, hki]
      · show Function.update s.icache ino (some i1) ino = some i1
        rw [Function.update_same]
    · refine ⟨k, i', ?_, ?_⟩
      · show (img1.inodes a).link = (k : Int)
        rw [← hl', hk]
      · show Function.update s.icache ino (some i1) k = some i'
        rw [Function.update_noteq hki]
        exact hc'
  · intro k i' hc' hk0
    show (img1.inodes k).hard_links = 1
    rw [hhl k]
    by_cases hki : k = ino
    · rw [hki]
      exact hL.disk_links ino i hc hino0
    · exact hL.disk_links k i' (hcache k hki i' hc') hk0
  · intro k i' hc' hk0 hn'
    show (i'.i_nlink : Int) = p3_links img1 k
    by_cases hki : k = ino
    · rw [hki] at hc' ⊢
      have := hsame i' hc'
      rw [← this] at hn' ⊢
      exact hlive hn'
    · rw [(hother k hki).1]
      exact hL.live k i' (hcache k hki i' hc') hk0 hn'
  · intro k i' hc' hk0 hn'
    show alias_count img1 k = 0
    by_cases hki : k = ino
    · rw [hki] at hc' ⊢
      have := hsame i' hc'
      rw [← this] at hn'
      exact hdead hn'
    · rw [(hother k hki).2]
      exact hL.dead k i' (hcache k hki i' hc') hk0 hn'

theorem LinkInv_unlink (C : Nat) (s : FS) (ino : Nat) (d : dentry) (i : inode)
    (hI : Inv C s) (hL : LinkInv s) (hc : s.icache ino = some i) (hino0 : ino ≠ 0)
    (hn : 1 ≤ i.i_nlink) (hne : d.d_name ≠ []) :
    LinkInv (step s (Op.unlink ino d)) := by
  rw [step_unlink s ino d i hc]
  obtain ⟨hino, hbino, hlino⟩ := Inv_cached C s hI ino i hc
  have hii : i.i_ino = ino := hI.ino ino i hc
  have hlive := hL.live ino i hc hino0 hn
  have hdec : dec_uint i.i_nlink = i.i_nlink - 1 := by
    unfold dec_uint
    rw [if_neg (by omega)]
  by_cases h2 : d.d_name = (s.disk.inodes i.i_ino).name
  · have hname : (s.disk.inodes ino).name ≠ [] := by
      rw [← hii, ← h2]
      exact hne
    by_cases h1 : i.i_nlink = 1
    · rw [quickfs_unlink_Ia _ _ _ h1 h2]
      refine LinkInv_transfer s s.disk ino i _ hL hc hino0 (fun a _ hb hl => ⟨hb, rfl⟩)
        (fun k => rfl) (fun k _ => ⟨rfl, rfl⟩) ?_ ?_
      · intro h
        have : dec_uint i.i_nlink ≥ 1 := h
        rw [hdec] at this
        omega
      · intro _
        unfold p3_links at hlive
        rw [if_neg hname] at hlive
        omega
    · rw [quickfs_unlink_IIa _ _ _ h1 h2]
      have hinodes : ∀ k, k ≠ ino →
          Function.update s.disk.inodes i.i_ino { s.disk.inodes i.i_ino with name := [] } k =
            s.disk.inodes k := by
        intro k hk
        rw [hii, Function.update_noteq hk]
      have hlinks : ∀ k,
          (Function.update s.disk.inodes i.i_ino { s.disk.inodes i.i_ino with name := [] } k).link
            = (s.disk.inodes k).link := by
        intro k
        by_cases hk : k = ino
        · rw [hk, hii, Function.update_same]
        · rw [hinodes k hk]
      have hcount : ∀ k,
          alias_count
            { s.disk with
              inodes := Function.update s.disk.inodes i.i_ino
                { s.disk.inodes i.i_ino with name := [] } } k = alias_count s.disk k := by
        intro k
        apply alias_count_congr
        intro a
        show (test_for_bit s.disk.inode_bitmap a = 1 ∧
          (Function.update s.disk.inodes i.i_ino { s.disk.inodes i.i_ino with name := [] } a).link
            = (k : Int)) ↔ _
        rw [hlinks a]
      refine LinkInv_transfer s _ ino i _ hL hc hino0 ?_ ?_ ?_ ?_ ?_
      · intro a _ hb hl
        exact ⟨hb, (hlinks a).symm⟩
      · intro k
        show (Function.update s.disk.inodes i.i_ino { s.disk.inodes i.i_ino with name := [] }
          k).hard_links = _
        by_cases hk : k = ino
        · rw [hk, hii, Function.update_same]
        · rw [hinodes k hk]
      · intro k hk
        refine ⟨?_, hcount k⟩
        unfold p3_links
        rw [hcount k]
        show _ - (if (Function.update s.disk.inodes i.i_ino
          { s.disk.inodes i.i_ino with name := [] } k).name = [] then (1 : Int) else 0) = _
        rw [hinodes k hk]
      · intro _
        show ((dec_uint i.i_nlink : Nat) : Int) = _
        unfold p3_links at hlive ⊢
        rw [hcount ino]
        show _ = _ - (if (Function.update s.disk.inodes i.i_ino
          { s.disk.inodes i.i_ino with name := [] } ino).name = [] then (1 : Int) else 0)
        rw [hii, Function.update_same, if_pos rfl, hdec]
        rw [if_neg hname] at hlive
        omega
      · intro h
        have : dec_uint i.i_nlink = 0 := h
        rw [hdec] at this
        omega
  · cases hs : unlink_scan s.disk d.d_name i.i_ino 4096 0 with
    | none =>
      rw [quickfs_unlink_missing _ _ _ h2 hs]
      show LinkInv { disk := s.disk, icache := Function.update s.icache ino (some i) }
      rw [step_same s ino i hc]
      exact hL
    | some j =>
      rw [quickfs_unlink_alias _ _ _ j h2 hs]
      obtain ⟨_, hj, hbj, _, hlj, _⟩ := unlink_scan_some s.disk d.d_name i.i_ino 4096 0 j hs
      rw [hii] at hlj
      have hj4 : j < 4096 := by omega
      have hlink_j : (s.disk.inodes j).link = (ino : Int) := by
        by_cases hpos : (s.disk.inodes j).link > 0
        · obtain ⟨k, i', hk, hc'⟩ := hL.target j hj4 hbj hpos
          have hk4 := (Inv_cached C s hI k i' hc').1
          rw [hk] at hlj ⊢
          unfold ULONG_MOD at hlj
          omega
        · have hcb := hI.disk.real_cached j hj4 hbj (by omega)
          exact absurd (alias_not_cached C s.disk _ hI.disk j ino hino hlj) hcb
      have hwfj : s.disk.inode_bitmap (j / 8) < 256 := hI.disk.ib_wf _ (by omega)
      have hbits : ∀ a, test_for_bit (clear_bitmap_bit s.disk.inode_bitmap (j : Int)) a =
          if a = j then 0 else test_for_bit s.disk.inode_bitmap a := by
        intro a
        by_cases haj : a = j
        · rw [if_pos haj, haj]
          exact test_clear_same _ _ hwfj
        · rw [if_neg haj]
          exact test_clear_other _ _ _ hwfj haj
      have key : ∀ img1 : Image,
          img1.inode_bitmap = clear_bitmap_bit s.disk.inode_bitmap (j : Int) →
          img1.inodes = s.disk.inodes →
          LinkInv
            { disk := img1
              icache := Function.update s.icache ino
                (some { i with i_nlink := dec_uint i.i_nlink }) } := by
        intro img1 hb1 hi1
        have hcount_other : ∀ k, k ≠ ino → alias_count img1 k = alias_count s.disk k := by
          intro k hk
          apply alias_count_congr
          intro a
          rw [hb1, hi1, hbits a]
          by_cases haj : a = j
          · rw [if_pos haj, haj, hlink_j]
            constructor
            · intro h
              exact absurd h.1 (by decide)
            · intro h
              have := h.2
              omega
          · rw [if_neg haj]
        have hcount_ino : alias_count s.disk ino = alias_count img1 ino + 1 := by
          apply alias_count_add img1 s.disk ino j hj4
          · intro h
            have h1 := h.1
            rw [hb1, hbits j, if_pos rfl] at h1
            exact absurd h1 (by decide)
          · exact ⟨hbj, hlink_j⟩
          · intro a haj
            rw [hb1, hi1, hbits a, if_neg haj]
        refine LinkInv_transfer s img1 ino i _ hL hc hino0 ?_ ?_ ?_ ?_ ?_
        · intro a _ hb hl
          rw [hb1, hbits a] at hb
          by_cases haj : a = j
          · rw [if_pos haj] at hb
            exact absurd hb (by decide)
          · rw [if_neg haj] at hb
            exact ⟨hb, by rw [hi1]⟩
        · intro k
          rw [hi1]
        · intro k hk
          refine ⟨?_, hcount_other k hk⟩
          unfold p3_links
          rw [hcount_other k hk, hi1]
        · intro h
          have h' : dec_uint i.i_nlink ≥ 1 := h
          show ((dec_uint i.i_nlink : Nat) : Int) = _
          have hl2 := hlive
          unfold p3_links at hl2 ⊢
          rw [hcount_ino] at hl2
          rw [hi1]
          rw [hdec] at h' ⊢
          generalize alias_count img1 ino = c at hl2 ⊢
          push_cast at hl2
          split_ifs at hl2 ⊢ <;> omega
        · intro h
          have h' : dec_uint i.i_nlink = 0 := h
          rw [hdec] at h'
          have hl2 := hlive
          unfold p3_links at hl2
          rw [hcount_ino] at hl2
          generalize alias_count img1 ino = c at hl2 ⊢
          push_cast at hl2
          split_ifs at hl2 <;> omega
      exact key _ rfl rfl

theorem LinkInv_mounted (env : FormatEnv) (img img' : Image) (size : Nat)
    (h : mkquickfs env img size = some img') : LinkInv (mounted img') := by
  obtain ⟨_, hib, _, _, _, hroot⟩ := mkquickfs_image env img img' size h
  have hcache : ∀ k i, (mounted img').icache k = some i → k ≠ 0 → False := by
    intro k i hc hk
    have : (if k = ROOT_INODE_NUM then some (quickfs_read_inode img' ROOT_INODE_NUM) else none)
        = some i := hc
    rw [if_neg (show ¬ k = ROOT_INODE_NUM from hk)] at this
    exact absurd this (by simp)
  refine ⟨?_, ?_, ?_, ?_⟩
  · intro a ha hb hl
    have hb' : test_for_bit img'.inode_bitmap a = 1 := hb
    rw [root_bitmap_test _ hib a ha] at hb'
    by_cases h0 : a = 0
    · have hl' : (img'.inodes a).link > 0 := hl
      rw [h0] at hl'
      have hr : (img'.inodes 0).link = -1 := by
        show (img'.inodes ROOT_INODE_NUM).link = -1
        rw [hroot]
        rfl
      rw [hr] at hl'
      exact absurd hl' (by decide)
    · rw [if_neg h0] at hb'
      exact absurd hb' (by decide)
  · intro k i hc hk
    exact (hcache k i hc hk).elim
  · intro k i hc hk
    exact (hcache k i hc hk).elim
  · intro k i hc hk
    exact (hcache k i hc hk).elim

theorem name_call_ok_call_ok (s : FS) (op : Op) (h : name_call_ok s op = true) :
    call_ok s op = true := by
  cases op with
  | create d mode fsuid fsgid now => rfl
  | link ino d now =>
    cases hc : s.icache ino with
    | none => simp [name_call_ok, hc] at h
    | some i =>
      simp only [name_call_ok, hc, Bool.and_eq_true, decide_eq_true_eq] at h
      simp only [call_ok]
      exact decide_eq_true h.1
  | unlink ino d => rfl
  | get_block ino block create => exact absurd h (by simp [name_call_ok])
  | write_inode ino => exact absurd h (by simp [name_call_ok])
  | delete_inode ino => exact absurd h (by simp [name_call_ok])
  | set_size ino size => exact absurd h (by simp [name_call_ok])

theorem LinkInv_step (C : Nat) (s : FS) (op : Op) (hI : Inv C s) (hL : LinkInv s)
    (h : name_call_ok s op = true) : LinkInv (step s op) := by
  cases op with
  | create d mode fsuid fsgid now =>
    have hne : d.d_name ≠ [] := by
      simp only [name_call_ok, decide_eq_true_eq] at h
      exact h
    exact LinkInv_create C s d mode fsuid fsgid now hI hL hne
  | link ino d now =>
    cases hc : s.icache ino with
    | none => simp [name_call_ok, hc] at h
    | some i =>
      simp only [name_call_ok, hc, Bool.and_eq_true, decide_eq_true_eq] at h
      exact LinkInv_link C s ino d now i hI hL hc h.1 h.2
  | unlink ino d =>
    cases hc : s.icache ino with
    | none => simp [name_call_ok, hc] at h
    | some i =>
      simp only [name_call_ok, hc, Bool.and_eq_true, decide_eq_true_eq] at h
      exact LinkInv_unlink C s ino d i hI hL hc h.1.1 h.1.2 h.2
  | get_block ino block create => exact absurd h (by simp [name_call_ok])
  | write_inode ino => exact absurd h (by simp [name_call_ok])
  | delete_inode ino => exact absurd h (by simp [name_call_ok])
  | set_size ino size => exact absurd h (by simp [name_call_ok])

theorem LinkInv_run (C : Nat) (ops : List Op) :
    ∀ s, Inv C s → LinkInv s → name_calls s ops = true →
      Inv C (run s ops) ∧ LinkInv (run s ops) := by
  induction ops with
  | nil => intro s hI hL _; exact ⟨hI, hL⟩
  | cons op ops ih =>
    intro s hI hL h
    simp only [name_calls, Bool.and_eq_true] at h
    exact ih (step s op) (Inv_step C s op hI (name_call_ok_call_ok s op h.1))
      (LinkInv_step C s op hI hL h.1) h.2

theorem alias_count_pos (img : Image) (k a : Nat) (ha : a < 4096)
    (hb : test_for_bit img.inode_bitmap a = 1) (hl : (img.inodes a).link = (k : Int)) :
    1 ≤ alias_count img k := by
  unfold alias_count
  apply Finset.card_pos.mpr
  exact ⟨a, Finset.mem_filter.mpr ⟨Finset.mem_range.mpr ha, hb, hl⟩⟩

set_option maxRecDepth 100000 in
/-- C9 (counterexample): create "hello" on the fresh 8 MiB image and link it as "hi".
Inode 1 is an allocated real inode with a non-empty name and one alias (slot 2), so P3
prescribes a link count of at least 2; the in-memory link count is 2, but the on-disk
`hard_links` of inode 1 is still 1. And after create "hello", unlink "hello", inode 1
is still an allocated real inode with a non-empty name, so P3 prescribes at least 1,
but its in-memory link count is 0 (its on-disk `hard_links` is 1). -/
theorem hard_links_not_updated_by_link :
    name_calls (mounted fresh_image) ops_create_link = true ∧
    test_for_bit (run (mounted fresh_image) ops_create_link).disk.inode_bitmap 1 = 1 ∧
    ((run (mounted fresh_image) ops_create_link).disk.inodes 1).link ≤ 0 ∧
    ((run (mounted fresh_image) ops_create_link).disk.inodes 1).name ≠ [] ∧
    1 ≤ alias_count (run (mounted fresh_image) ops_create_link).disk 1 ∧
    2 ≤ p3_links (run (mounted fresh_image) ops_create_link).disk 1 ∧
    ((run (mounted fresh_image) ops_create_link).icache 1).map (fun i => i.i_nlink) = some 2 ∧
    ((run (mounted fresh_image) ops_create_link).disk.inodes 1).hard_links = 1 ∧
    name_calls (mounted fresh_image) ops_create_unlink = true ∧
    test_for_bit (run (mounted fresh_image) ops_create_unlink).disk.inode_bitmap 1 = 1 ∧
    ((run (mounted fresh_image) ops_create_unlink).disk.inodes 1).link ≤ 0 ∧
    1 ≤ p3_links (run (mounted fresh_image) ops_create_unlink).disk 1 ∧
    ((run (mounted fresh_image) ops_create_unlink).icache 1).map (fun i => i.i_nlink) = some 0 ∧
    ((run (mounted fresh_image) ops_create_unlink).disk.inodes 1).hard_links = 1 := by
  have hname : ((run (mounted fresh_image) ops_create_link).disk.inodes 1).name ≠ [] := by
    decide
  have hname2 : ((run (mounted fresh_image) ops_create_unlink).disk.inodes 1).name ≠ [] := by
    decide
  have hcount : 1 ≤ alias_count (run (mounted fresh_image) ops_create_link).disk 1 :=
    alias_count_pos _ 1 2 (by decide) (by decide) (by decide)
  refine ⟨by decide, by decide, by decide, hname, hcount, ?_, by decide, by decide,
    by decide, by decide, by decide, ?_, by decide, by decide⟩
  · unfold p3_links
    rw [if_neg hname]
    omega
  · unfold p3_links
    rw [if_neg hname2]
    omega

/-- C9 (P3, amended): after any sequence of create, link and unlink calls on a
freshly formatted image (each on a non-empty name; link and unlink on a cached
regular file whose in-memory link count is at least 1), every allocated real inode I
other than the root is in the inode cache, its on-disk `hard_links` is 1 (create
writes it; link and unlink never do), and its in-memory link count `i_nlink`, as long
as it is at least 1, equals 1 + (number of allocated alias inodes A with
A.link = I.ino) - (1 if I's on-disk name is empty, else 0); once `i_nlink` is 0, no
alias points at I. -/
theorem link_count_follows_p3 (env : FormatEnv) (img img' : Image) (size : Nat)
    (ops : List Op) (k : Nat) (hfmt : mkquickfs env img size = some img')
    (hops : name_calls (mounted img') ops = true)
    (hk1 : 1 ≤ k) (hk : k < 4096)
    (hb : test_for_bit (run (mounted img') ops).disk.inode_bitmap k = 1)
    (hl : ((run (mounted img') ops).disk.inodes k).link ≤ 0) :
    ((run (mounted img') ops).disk.inodes k).hard_links = 1 ∧
    ∃ i, (run (mounted img') ops).icache k = some i ∧
      (1 ≤ i.i_nlink →
        (i.i_nlink : Int) =
          1 + (alias_count (run (mounted img') ops).disk k : Int) -
            (if ((run (mounted img') ops).disk.inodes k).name = [] then 1 else 0)) ∧
      (i.i_nlink = 0 → alias_count (run (mounted img') ops).disk k = 0) := by
  obtain ⟨hI, hL⟩ := LinkInv_run img'.sb.data_blocks_free ops (mounted img')
    (Inv_mounted env img img' size hfmt) (LinkInv_mounted env img img' size hfmt) hops
  have hcb := hI.disk.real_cached k hk hb hl
  cases hc : (run (mounted img') ops).icache k with
  | none =>
    exfalso
    apply hcb
    unfold cached_blocks
    rw [hc]
    rfl
  | some i =>
    have hk0 : k ≠ 0 := by omega
    exact ⟨hL.disk_links k i hc hk0, i, rfl, hL.live k i hc hk0, hL.dead k i hc hk0⟩

set_option maxRecDepth 100000 in
theorem link_count_follows_p3_witness :
    ((run (mounted fresh_image) ops_create_link_unlink).disk.inodes 1).hard_links = 1 ∧
    ∃ i, (run (mounted fresh_image) ops_create_link_unlink).icache 1 = some i ∧
      (1 ≤ i.i_nlink →
        (i.i_nlink : Int) =
          1 + (alias_count (run (mounted fresh_image) ops_create_link_unlink).disk 1 : Int) -
            (if ((run (mounted fresh_image) ops_create_link_unlink).disk.inodes 1).name = []
              then 1 else 0)) ∧
      (i.i_nlink = 0 →
        alias_count (run (mounted fresh_image) ops_create_link_unlink).disk 1 = 0) :=
  link_count_follows_p3 example_env blank_image fresh_image 8388608 ops_create_link_unlink 1
    fresh_image_eq (by decide) (by decide) (by decide) (by decide) (by decide)

set_option maxRecDepth 1000000 in
/-- The run `ops_rewrite_delete` is not covered by S1 above: its first 104 rounds are,
and S1 holds after them with 104 blocks held by inode 1, but the allocating call of
round 105 is made at `i_blocks = 104`. -/
theorem ops_rewrite_delete_leaves_the_array :
    admissible (mounted fresh_image) (ops_rewrite 104) = true ∧
    (run (mounted fresh_image) (ops_rewrite 104)).disk.sb.data_blocks_free =
      data_bits_clear (run (mounted fresh_image) (ops_rewrite 104)).disk.data_bitmap ∧
    (run (mounted fresh_image) (ops_rewrite 104)).disk.sb.data_blocks_free = 12178 ∧
    ((run (mounted fresh_image) (ops_rewrite 104)).icache 1).map (fun i => i.i_blocks) =
      some 104 ∧
    admissible (mounted fresh_image) (ops_rewrite 104 ++ [Op.get_block 1 0 1]) = false ∧
    admissible (mounted fresh_image) ops_rewrite_delete = false := by
  have hadm : admissible (mounted fresh_image) (ops_rewrite 104) = true := by decide
  exact ⟨hadm, (Inv_run _ (ops_rewrite 104) _ fresh_Inv hadm).disk.s1, by decide, by decide,
    by decide, by decide⟩

end QuickFS
